import Mathlib

/-!
Verification of the ChiselTrace dynamic program dependence graph (DPDG)
builder against its specification.

The definitions below are a shallow embedding of the Rust sources:
  * `chiseltrace-rs/src/graphbuilder.rs` (`GraphBuilder::process`,
    `GraphBuilder::get_activated_statements`, `VcdReader::read_cycle_changes`)
  * `slicer_lib/src/pdg_spec.rs` (the static PDG data model)
  * `slicer_lib/src/conversion.rs` (`dpdg_make_exportable`)

Modelling conventions:
  * `u32` indices and `u64` probe values become `Nat`; `i64` timestamps
    become `Int` (the `i64` saturating subtraction is modelled exactly by
    `i64SatSub1`, saturating at `-(2^63)`).
  * Rust `HashMap`s become association lists whose `insert` replaces the
    previous binding (`aInsert` / `aLookup`).
  * `Rc` object identity of dynamic nodes becomes an arena: a node is
    identified by its index in the list of all nodes created so far.
  * The VCD reader is modelled separately (`VcdReaderState`); the builder
    cycle loop is modelled over an arbitrary stream of per-cycle inputs
    (the live probe map, the current reset value and the cycle's value
    changes), which over-approximates every behaviour the reader can
    produce.
  * Rust indexing panics are modelled as follows: the snapshot-table
    index in dependency resolution (the subject of a safety claim)
    returns an error (`BuildErr.snapshotMissing`); statement-index and
    predicate-index lookups, whose panics are not the subject of any
    claim, are totalised with a default.
-/

namespace ChiselTrace

/-- `vcd::Value`: a four-state VCD scalar value. -/
inductive VcdValue where
  | v0
  | v1
  | vx
  | vz
deriving DecidableEq, Repr

/-- `PDGSpecNodeKind` from `pdg_spec.rs`. -/
inductive NodeKind where
  | definition
  | dataDefinition
  | io
  | connection
  | controlFlow
deriving DecidableEq, Repr

/-- `PDGSpecEdgeKind` from `pdg_spec.rs`. -/
inductive EdgeKind where
  | data
  | conditional
  | declaration
  | index
deriving DecidableEq, Repr

/-- `PDGSpecCondition`: a conjunction of `probe == value` tests. -/
structure PDGCondition where
  probeName : List String
  probeValue : List Nat
deriving DecidableEq, Repr

/-- `PDGSpecNode`, restricted to the fields the graph builder and the
exporter read (`file`/`line`/`char`/`related_signal`/`is_chisel_statement`
are carried through unchanged by the modelled code and are omitted). -/
structure SpecNode where
  name : String
  kind : NodeKind
  clocked : Bool
  assignsTo : Option String
  condition : Option PDGCondition
  assignDelay : Nat
deriving DecidableEq, Repr

instance : Inhabited SpecNode :=
  ⟨{ name := "", kind := .definition, clocked := false, assignsTo := none,
     condition := none, assignDelay := 0 }⟩

/-- `PDGSpecEdge`. `from`/`to` are indices into the vertex list. -/
structure SpecEdge where
  fromIdx : Nat
  toIdx : Nat
  kind : EdgeKind
  clocked : Bool
  condition : Option PDGCondition
deriving DecidableEq, Repr

/-- `CFGSpecStatement`: one node of the static control-flow forest. -/
inductive CFGStmt where
  | mk (stmtRef : Nat) (predStmtRef : Option Nat)
       (trueBranch falseBranch : Option (List CFGStmt))

/-- `GraphProcessingType`. -/
inductive ProcessingMode where
  | normal
  | dataOnly
  | full
deriving DecidableEq, Repr

/-- `CriterionType`. -/
inductive Criterion where
  | statement (name : String)
  | signal (symbol : String)

/-! ### Association-list maps (the model of Rust `HashMap`) -/

/-- Lookup in an association list (first binding wins). -/
def aLookup [DecidableEq α] : List (α × β) → α → Option β
  | [], _ => none
  | (k, v) :: m, k' => if k' = k then some v else aLookup m k'

/-- `HashMap::insert`: the new binding replaces any previous one. -/
def aInsert [DecidableEq α] (m : List (α × β)) (k : α) (v : β) : List (α × β) :=
  (k, v) :: m.filter (fun p => p.1 ≠ k)

@[simp] theorem aLookup_nil [DecidableEq α] (k : α) :
    aLookup ([] : List (α × β)) k = none := rfl

@[simp] theorem aLookup_cons [DecidableEq α] (k k' : α) (v : β) (m : List (α × β)) :
    aLookup ((k, v) :: m) k' = if k' = k then some v else aLookup m k' := rfl

theorem aLookup_filter_ne [DecidableEq α] (m : List (α × β)) (k k' : α)
    (h : k' ≠ k) : aLookup (m.filter (fun p => p.1 ≠ k)) k' = aLookup m k' := by
  induction m with
  | nil => rfl
  | cons p m ih =>
    obtain ⟨a, b⟩ := p
    simp only [List.filter_cons, ne_eq, decide_not]
    simp only [ne_eq, decide_not] at ih
    by_cases ha : a = k
    · subst ha
      rw [if_neg (by simp), ih, aLookup_cons, if_neg h]
    · rw [if_pos (by simp [ha])]
      simp only [aLookup_cons, ih]

@[simp] theorem aLookup_aInsert [DecidableEq α] (m : List (α × β)) (k k' : α) (v : β) :
    aLookup (aInsert m k v) k' = if k' = k then some v else aLookup m k' := by
  unfold aInsert
  by_cases h : k' = k
  · simp [h]
  · simp only [aLookup_cons, if_neg h]
    exact aLookup_filter_ne m k k' h

/-- Membership of a key, used for invariants about snapshot tables. -/
def aHasKey [DecidableEq α] (m : List (α × β)) (k : α) : Bool :=
  (aLookup m k).isSome

/-! ### The i64 arithmetic used by the builder -/

/-- `i64::saturating_sub(x, 1)`: exact for every in-range `i64` input. -/
def i64SatSub1 (x : Int) : Int :=
  max (x - 1) (-(2 ^ 63))

theorem i64SatSub1_of_nonneg {x : Int} (h : 0 ≤ x) : i64SatSub1 x = x - 1 := by
  unfold i64SatSub1
  apply max_eq_left
  omega

/-! ### Probe conditions (`GraphBuilder::process`, condition evaluation) -/

/-- Evaluation of a `PDGSpecCondition` against a probe-value map: every
`(probe, value)` pair must be present and equal; a missing probe fails. -/
def evalCond (cond : Option PDGCondition) (probes : List (String × Nat)) : Bool :=
  match cond with
  | none => true
  | some c =>
    (c.probeName.zip c.probeValue).all fun pr =>
      match aLookup probes pr.1 with
      | some cur => pr.2 == cur
      | none => false

/-! ### CFG activation (`GraphBuilder::get_activated_statements`) -/

/-- One `ValueChange` buffered by the VCD reader. -/
structure ValueChange where
  id : Nat
  value : VcdValue
deriving DecidableEq, Repr

/-- Update of the predicate-value map by a cycle's change set: only
identifiers already present are updated (`HashMap::get_mut`), and an entry
becomes `value == V1`. -/
def updatePredValues (pv : List (Nat × Bool)) (changes : List ValueChange) :
    List (Nat × Bool) :=
  changes.foldl
    (fun pv c =>
      pv.map (fun p => if p.1 = c.id then (p.1, c.value == VcdValue.v1) else p))
    pv

/-- Predicate lookup during the CFG walk: `pred_idx_to_id[pred]` followed by
`pred_values[&id]`.  The source indexes both unsafely; `init_predicates`
guarantees every listed id is present in the map, and an out-of-range
predicate index (a panic in the source) is totalised to `false` here. -/
def predActive (predIdxToId : List Nat) (pv : List (Nat × Bool)) (p : Nat) : Bool :=
  match predIdxToId.get? p with
  | none => false
  | some id => (aLookup pv id).getD false

mutual
/-- The iterative stack walk of `get_activated_statements`, written as the
equivalent structural recursion: emit `stmt_ref`, then, when a predicate is
attached, descend into the branch selected by the predicate value (a missing
branch contributes nothing). -/
def cfgWalk (act : Nat → Bool) : CFGStmt → List Nat
  | .mk s none _ _ => [s]
  | .mk s (some p) tb fb =>
    s :: (if act p then cfgWalkOpt act tb else cfgWalkOpt act fb)

def cfgWalkOpt (act : Nat → Bool) : Option (List CFGStmt) → List Nat
  | none => []
  | some l => cfgWalkForest act l

def cfgWalkForest (act : Nat → Bool) : List CFGStmt → List Nat
  | [] => []
  | c :: cs => cfgWalk act c ++ cfgWalkForest act cs
end

/-- The static inputs of one builder run: the vertex list, the edge list,
the CFG forest and the resolved VCD id of each predicate
(`pred_idx_to_id`, built by `init_predicates`). -/
structure StaticEnv where
  vertices : List SpecNode
  edges : List SpecEdge
  cfg : List CFGStmt
  predIdxToId : List Nat

/-- `self.linked_nodes[stmt].borrow().inner`: the static vertex of a
statement index.  The source indexes the vector directly (panicking when a
CFG `stmt_ref` is out of range); the model totalises with a default. -/
def vtx (env : StaticEnv) (s : Nat) : SpecNode :=
  (env.vertices.get? s).getD default

/-- The adjacency list `edges_by_from` restricted to one vertex, in the
order the edges appear in the static edge list. -/
def edgesFrom (env : StaticEnv) (s : Nat) : List SpecEdge :=
  env.edges.filter (fun e => e.fromIdx = s)

/-- `get_activated_statements`: update the predicate values from the cycle's
changes, then walk the CFG forest.  Returns the activation list and the
updated predicate-value map. -/
def getActivatedStatements (env : StaticEnv) (pv : List (Nat × Bool))
    (changes : List ValueChange) : List Nat × List (Nat × Bool) :=
  let pv' := updatePredValues pv changes
  (cfgWalkForest (predActive env.predIdxToId pv') env.cfg, pv')

/-! ### The DPDG builder (`GraphBuilder::process`) -/

/-- A dynamic node (`DynPDGNode`).  Object identity becomes the index of
the node in the arena (the list of all nodes created so far); `deps` holds
`(provider index, edge kind)` pairs. -/
structure DynNode where
  spec : SpecNode
  timestamp : Int
  deps : List (Nat × EdgeKind)
deriving DecidableEq, Repr

instance : Inhabited DynNode := ⟨⟨default, 0, []⟩⟩

/-- `dependency_state`: symbol → producing node. -/
abbrev SymTab := List (String × Nat)

/-- `probe_values`: probe name → unsigned value. -/
abbrev ProbeTab := List (String × Nat)

/-- The builder's per-run mutable state.  `activationLog` is a history
variable recording, in creation order, the ids of the nodes created in
phase 3 of each cycle (`new_nodes` in the source); it is written and never
read by the model and exists only so theorems can speak about creation
order. -/
structure BuilderState where
  nodes : List DynNode
  depState : SymTab
  snapshots : List (Int × (SymTab × ProbeTab))
  delayedBuffer : List (Int × Nat)
  predValues : List (Nat × Bool)
  criterionNode : Option Nat
  activationLog : List Nat

/-- What the builder reads from the VCD reader on one cycle: the cycle's
change set, the live probe-value map and the current reset value. -/
structure CycleInput where
  changes : List ValueChange
  probes : ProbeTab
  reset : VcdValue

/-- The two panics the model tracks: the unguarded snapshot-table index in
dependency resolution, and the `CriterionNotFound` failure at end of
stream (`Error::StatementLookupError`). -/
inductive BuildErr where
  | snapshotMissing
  | criterionNotFound
deriving DecidableEq, Repr

/-- Accumulator of phase 3 (node creation and provider registration):
the arena, the live table `S`, the deferred-register map `new_reg_providers`,
the per-cycle `controlflow_providers` and the `new_nodes` list of
`(statement index, node id)` pairs. -/
structure CycleAcc where
  nodes : List DynNode
  depState : SymTab
  regNext : SymTab
  cfProviders : List (SpecNode × Nat)
  newNodes : List (Nat × Nat)

/-- Phase 3 for a single activated statement: create the dynamic node
(timestamp `tau` when clocked, else `tau` minus one with `i64` saturation),
then, when the vertex's condition holds, register it as a provider:
a clocked `DataDefinition` under `tau = 0` or an asserted reset gets its
timestamp decremented and is written to `S` immediately; any other clocked
assignment is deferred into `new_reg_providers`; a combinational assignment
is written to `S` immediately; a `ControlFlow` vertex is recorded as this
cycle's conditional provider. -/
def phase3Step (env : StaticEnv) (tau : Int) (reset : VcdValue) (probes : ProbeTab)
    (acc : CycleAcc) (s : Nat) : CycleAcc :=
  let v := vtx env s
  let ts : Int := if v.clocked then tau else i64SatSub1 tau
  let id := acc.nodes.length
  let acc1 : CycleAcc :=
    { acc with
      nodes := acc.nodes ++ [⟨v, ts, []⟩],
      newNodes := acc.newNodes ++ [(s, id)] }
  if evalCond v.condition probes then
    let acc2 : CycleAcc :=
      match v.assignsTo with
      | some symb =>
        if v.clocked then
          if v.kind = .dataDefinition then
            if tau = 0 ∨ reset = .v1 then
              { acc1 with
                nodes := acc1.nodes.set id ⟨v, ts - 1, []⟩,
                depState := aInsert acc1.depState symb id }
            else acc1
          else { acc1 with regNext := aInsert acc1.regNext symb id }
        else { acc1 with depState := aInsert acc1.depState symb id }
      | none => acc1
    if v.kind = .controlFlow then
      { acc2 with cfProviders := aInsert acc2.cfProviders v id }
    else acc2
  else acc1

/-- Phase 3 over the cycle's immediate statement list, in order. -/
def phase3 (env : StaticEnv) (tau : Int) (reset : VcdValue) (probes : ProbeTab) :
    List Nat → CycleAcc → CycleAcc
  | [], acc => acc
  | s :: ss, acc => phase3 env tau reset probes ss (phase3Step env tau reset probes acc s)

/-- The read context of phase 4 for one consumer: the processing mode, the
corrected timestamp, the live table (always used for `Data` edges), the
cycle's conditional providers and the selected `(S, probe)` context
(a snapshot for delayed consumers, the live pair otherwise). -/
structure Phase4Ctx where
  mode : ProcessingMode
  tau : Int
  liveS : SymTab
  cf : List (SpecNode × Nat)
  ctxS : SymTab
  ctxProbes : ProbeTab

/-- The body of the phase-4 edge loop for one static edge, mirroring the
source: skip a provider symbol already served this cycle; in `DataOnly`
mode skip non-data edges; evaluate the edge condition against the selected
probe context; then dispatch on the kind (`Declaration` materialises a
fresh singleton node in `Full` mode only; `Data` resolves against the live
table and `Index` against the selected context, both marking the symbol
served; `Conditional` looks up the cycle's control-flow providers).
Returns the updated `(arena, served symbols, dependency list)`. -/
def resolveEdgeStep (env : StaticEnv) (cx : Phase4Ctx) (e : SpecEdge)
    (nodes : List DynNode) (processed : List String) (deps : List (Nat × EdgeKind)) :
    List DynNode × List String × List (Nat × EdgeKind) :=
  let provider := vtx env e.toIdx
  if (match provider.assignsTo with
      | some a => processed.contains a
      | none => false) then
    (nodes, processed, deps)
  else if cx.mode = .dataOnly ∧ e.kind ≠ .data then
    (nodes, processed, deps)
  else if evalCond e.condition cx.ctxProbes then
    match e.kind with
    | .declaration =>
      if cx.mode = .full then
        (nodes ++ [⟨provider, cx.tau - 1, []⟩], processed,
          deps ++ [(nodes.length, .declaration)])
      else
        (nodes, processed, deps)
    | .data =>
      (match provider.assignsTo with
      | some a =>
        (nodes, processed ++ [a],
          match aLookup cx.liveS a with
          | some d => deps ++ [(d, .data)]
          | none => deps)
      | none => (nodes, processed, deps))
    | .index =>
      (match provider.assignsTo with
      | some a =>
        (nodes, processed ++ [a],
          match aLookup cx.ctxS a with
          | some d => deps ++ [(d, .index)]
          | none => deps)
      | none => (nodes, processed, deps))
    | .conditional =>
      (match aLookup cx.cf provider with
      | some cd => (nodes, processed, deps ++ [(cd, .conditional)])
      | none => (nodes, processed, deps))
  else
    (nodes, processed, deps)

/-- The phase-4 edge loop over a consumer's outgoing static edges. -/
def resolveEdges (env : StaticEnv) (cx : Phase4Ctx) :
    List SpecEdge → List DynNode → List String → List (Nat × EdgeKind) →
    List DynNode × List (Nat × EdgeKind)
  | [], nodes, _, deps => (nodes, deps)
  | e :: es, nodes, processed, deps =>
    let r := resolveEdgeStep env cx e nodes processed deps
    resolveEdges env cx es r.1 r.2.1 r.2.2

/-- Phase 4 for one created `(statement, node id)` pair: select the read
context — the snapshot at `tau - assign_delay` when the vertex is delayed
(the unguarded `dependency_state_snapshots[..]` index of the source, an
error here when the key is absent), the live pair otherwise — resolve the
outgoing static edges, and store the computed dependency list into the
node. -/
def resolveNode (env : StaticEnv) (mode : ProcessingMode) (tau : Int)
    (liveS : SymTab) (liveProbes : ProbeTab) (cf : List (SpecNode × Nat))
    (snapshots : List (Int × (SymTab × ProbeTab)))
    (nodes : List DynNode) (sn : Nat × Nat) :
    Except BuildErr (List DynNode) :=
  let v := vtx env sn.1
  match (if v.assignDelay > 0 then
           match aLookup snapshots (tau - v.assignDelay) with
           | some sp => Except.ok sp
           | none => Except.error BuildErr.snapshotMissing
         else Except.ok (liveS, liveProbes) : Except BuildErr (SymTab × ProbeTab)) with
  | .error e => .error e
  | .ok ctx =>
    let r := resolveEdges env ⟨mode, tau, liveS, cf, ctx.1, ctx.2⟩
      (edgesFrom env sn.1) nodes [] []
    let node := (r.1.get? sn.2).getD default
    .ok (r.1.set sn.2 { node with deps := r.2 })

/-- Phase 4 over the cycle's `new_nodes`, in creation order. -/
def phase4 (env : StaticEnv) (mode : ProcessingMode) (tau : Int)
    (liveS : SymTab) (liveProbes : ProbeTab) (cf : List (SpecNode × Nat))
    (snapshots : List (Int × (SymTab × ProbeTab))) :
    List (Nat × Nat) → List DynNode → Except BuildErr (List DynNode)
  | [], nodes => .ok nodes
  | sn :: rest, nodes =>
    match resolveNode env mode tau liveS liveProbes cf snapshots nodes sn with
    | .error e => .error e
    | .ok nodes' => phase4 env mode tau liveS liveProbes cf snapshots rest nodes'

/-- Criterion match of one dynamic node (`Statement` compares the spec
name, `Signal` compares `assigns_to`). -/
def matchesCriterion (crit : Criterion) (v : SpecNode) : Bool :=
  match crit with
  | .statement c => v.name == c
  | .signal c => v.assignsTo == some c

/-- The per-cycle criterion scan: the last matching created node becomes
the remembered candidate. -/
def scanCriterion (crit : Criterion) (nodes : List DynNode) :
    List (Nat × Nat) → Option Nat → Option Nat
  | [], cur => cur
  | sn :: rest, cur =>
    let v := ((nodes.get? sn.2).getD default).spec
    scanCriterion crit nodes rest (if matchesCriterion crit v then some sn.2 else cur)

/-- Phase 5: merge `new_reg_providers` into `S` (per-symbol overwrite).
`new_reg_providers` has pairwise-distinct keys, so the unspecified
iteration order of the source's `HashMap` cannot change the result of any
lookup. -/
def mergeRegNext (s : SymTab) : SymTab → SymTab
  | [] => s
  | kv :: rest => mergeRegNext (aInsert s kv.1 kv.2) rest

/-- The outcome of phases 1 and 2 of one cycle: the immediate statement
list (CFG activations with `assign_delay = 0` followed by the spliced
ready delayed statements), the newly delayed statements, the updated
delayed buffer and the updated predicate values. -/
structure CycleFront where
  stmts : List Nat
  delayed : List Nat
  buffer : List (Int × Nat)
  predValues : List (Nat × Bool)

/-- Phases 1 and 2 at corrected timestamp `tau`: CFG activation, removal
and splice of delayed statements whose fire cycle is `tau`, partition of
the activations by `assign_delay`, and enqueue of the delayed ones at
`tau + assign_delay`. -/
def cycleFront (env : StaticEnv) (inp : CycleInput) (tau : Int) (st : BuilderState) :
    CycleFront :=
  let act := getActivatedStatements env st.predValues inp.changes
  let ready := (st.delayedBuffer.filter (fun p => p.1 = tau)).map (·.2)
  let buffer1 := st.delayedBuffer.filter (fun p => p.1 ≠ tau)
  let part := act.1.partition (fun s => (vtx env s).assignDelay == 0)
  { stmts := part.1 ++ ready,
    delayed := part.2,
    buffer := buffer1 ++ part.2.map (fun s => (tau + (vtx env s).assignDelay, s)),
    predValues := act.2 }

/-- One iteration of the builder's cycle loop at corrected timestamp
`tau`, in source order: CFG activation, splice of ready delayed
statements, partition and enqueue of newly delayed statements, phase 3,
phase 4, the snapshot store (taken, as in the source, before the register
commit), the criterion scan, and the register commit. -/
def processCycle (env : StaticEnv) (mode : ProcessingMode) (crit : Criterion)
    (inp : CycleInput) (tau : Int) (st : BuilderState) :
    Except BuildErr BuilderState :=
  let front := cycleFront env inp tau st
  let acc := phase3 env tau inp.reset inp.probes front.stmts
    ⟨st.nodes, st.depState, [], [], []⟩
  match phase4 env mode tau acc.depState inp.probes acc.cfProviders st.snapshots
      acc.newNodes acc.nodes with
  | .error e => .error e
  | .ok nodes4 =>
    .ok { nodes := nodes4,
          depState := mergeRegNext acc.depState acc.regNext,
          snapshots := if front.delayed.isEmpty then st.snapshots
                       else aInsert st.snapshots tau (acc.depState, inp.probes),
          delayedBuffer := front.buffer,
          predValues := front.predValues,
          criterionNode := scanCriterion crit nodes4 acc.newNodes st.criterionNode,
          activationLog := st.activationLog ++ acc.newNodes.map (·.2) }

/-- The cycle loop over a stream of cycle inputs.  The corrected timestamp
starts at `0` (the reader's `current_time` advances by exactly one per
call) and increases by one per cycle; EOF and the `max_cycles` budget are
abstracted by the length of the input list. -/
def processRun (env : StaticEnv) (mode : ProcessingMode) (crit : Criterion) :
    List CycleInput → Int → BuilderState → Except BuildErr BuilderState
  | [], _, st => .ok st
  | i :: is, tau, st =>
    match processCycle env mode crit i tau st with
    | .error e => .error e
    | .ok st' => processRun env mode crit is (tau + 1) st'

/-- The builder state after `init_predicates`: every resolved predicate id
maps to `false`, everything else is empty. -/
def initBuilderState (env : StaticEnv) : BuilderState :=
  { nodes := [], depState := [], snapshots := [], delayedBuffer := [],
    predValues := env.predIdxToId.foldl (fun pv id => aInsert pv id false) [],
    criterionNode := none, activationLog := [] }

/-- `GraphBuilder::process`: run the cycle loop, then resolve the
criterion — the remembered candidate for `Statement`, the end-of-stream
`S[symbol]` for `Signal` — failing with `criterionNotFound`
(`Error::StatementLookupError`) when the lookup is empty. -/
def process (env : StaticEnv) (mode : ProcessingMode) (crit : Criterion)
    (inputs : List CycleInput) : Except BuildErr Nat :=
  match processRun env mode crit inputs 0 (initBuilderState env) with
  | .error e => .error e
  | .ok st =>
    match (match crit with
           | .statement _ => st.criterionNode
           | .signal c => aLookup st.depState c) with
    | some n => .ok n
    | none => .error .criterionNotFound

/-! ### List helper lemmas -/

theorem get?_snoc_self (l : List α) (a : α) : (l ++ [a]).get? l.length = some a := by
  rw [List.get?_append_right le_rfl]
  simp

theorem get?_snoc_ne (l : List α) (a : α) (i : Nat) (h : i ≠ l.length) :
    (l ++ [a]).get? i = l.get? i := by
  rcases Nat.lt_or_ge i l.length with h1 | h1
  · exact List.get?_append h1
  · rw [List.get?_append_right h1, List.get?_eq_none.2 h1]
    apply List.get?_eq_none.2
    simp only [List.length_cons, List.length_nil]
    omega

theorem set_snoc_self (l : List α) (a b : α) : (l ++ [a]).set l.length b = l ++ [b] := by
  induction l with
  | nil => rfl
  | cons x xs ih => simp [List.set, ih]

/-! ### Structural lemmas about phase 3 -/

/-- The decrement condition of phase 3: the vertex's condition holds, it is
a clocked `DataDefinition` assignment, and the cycle is the first one or
reset is asserted. -/
def resetApplies (env : StaticEnv) (tau : Int) (reset : VcdValue)
    (probes : ProbeTab) (s : Nat) : Prop :=
  evalCond (vtx env s).condition probes = true ∧ (vtx env s).assignsTo.isSome = true ∧
    (vtx env s).clocked = true ∧ (vtx env s).kind = .dataDefinition ∧
    (tau = 0 ∨ reset = .v1)

instance (env : StaticEnv) (tau : Int) (reset : VcdValue) (probes : ProbeTab) (s : Nat) :
    Decidable (resetApplies env tau reset probes s) := by
  unfold resetApplies
  infer_instance

/-- Phase 3 appends exactly one node per statement: its spec is the static
vertex, its dependency list is empty, and its timestamp is `tau` when
clocked and `tau - 1` (i64-saturating) otherwise, minus one more when the
reset rule applies. -/
theorem phase3Step_nodes_eq (env : StaticEnv) (tau : Int) (reset : VcdValue)
    (probes : ProbeTab) (acc : CycleAcc) (s : Nat) :
    (phase3Step env tau reset probes acc s).nodes =
      acc.nodes ++ [⟨vtx env s,
        (if (vtx env s).clocked then tau else i64SatSub1 tau) -
          (if resetApplies env tau reset probes s then 1 else 0), []⟩] := by
  unfold phase3Step resetApplies
  by_cases hcond : evalCond (vtx env s).condition probes
  · simp only [hcond, if_true]
    rcases hassign : (vtx env s).assignsTo with _ | symb
    · simp only [hassign]
      split
      · simp [hassign]
      · simp [hassign]
    · simp only [hassign]
      by_cases hclk : (vtx env s).clocked
      · simp only [hclk, if_true]
        by_cases hdd : (vtx env s).kind = NodeKind.dataDefinition
        · simp only [hdd, if_true]
          by_cases hrst : tau = 0 ∨ reset = VcdValue.v1
          · simp only [hrst, if_true]
            have : (vtx env s).kind ≠ NodeKind.controlFlow := by rw [hdd]; intro h; cases h
            simp only [this, if_false, set_snoc_self]
            simp [hassign, hclk, hdd, hrst, hcond]
          · simp only [hrst, if_false]
            split
            · simp [hassign, hrst]
            · simp [hassign, hrst]
        · simp only [hdd, if_false]
          split
          · simp [hassign, hdd]
          · simp [hassign, hdd]
      · simp only [hclk, if_false]
        split
        · simp [hassign, hclk]
        · simp [hassign, hclk]
  · simp only [hcond, if_false]
    simp only [Bool.false_eq_true, false_and, and_false, if_false]
    simp [hcond]

/-- Phase 3 records exactly one `(statement, node id)` pair per statement,
the id being the arena index of the appended node. -/
theorem phase3Step_newNodes (env : StaticEnv) (tau : Int) (reset : VcdValue)
    (probes : ProbeTab) (acc : CycleAcc) (s : Nat) :
    (phase3Step env tau reset probes acc s).newNodes =
      acc.newNodes ++ [(s, acc.nodes.length)] := by
  unfold phase3Step
  dsimp only
  repeat' first | rfl | split

/-- Phase 3 leaves the existing arena prefix untouched. -/
theorem phase3Step_nodes_get?_lt (env : StaticEnv) (tau : Int) (reset : VcdValue)
    (probes : ProbeTab) (acc : CycleAcc) (s : Nat) (i : Nat)
    (h : i < acc.nodes.length) :
    (phase3Step env tau reset probes acc s).nodes.get? i = acc.nodes.get? i := by
  rw [phase3Step_nodes_eq]
  exact List.get?_append h

theorem phase3Step_nodes_length (env : StaticEnv) (tau : Int) (reset : VcdValue)
    (probes : ProbeTab) (acc : CycleAcc) (s : Nat) :
    (phase3Step env tau reset probes acc s).nodes.length = acc.nodes.length + 1 := by
  rw [phase3Step_nodes_eq]
  simp

/-! ### The register commit (phase 5) -/

theorem aLookup_eq_none_of_not_mem [DecidableEq α] (m : List (α × β)) (k : α)
    (h : k ∉ m.map Prod.fst) : aLookup m k = none := by
  induction m with
  | nil => rfl
  | cons p m ih =>
    simp only [List.map_cons, List.mem_cons] at h
    push_neg at h
    rw [aLookup_cons, if_neg h.1]
    exact ih h.2

theorem keysNodup_aInsert [DecidableEq α] (m : List (α × β)) (k : α) (v : β)
    (h : (m.map Prod.fst).Nodup) : ((aInsert m k v).map Prod.fst).Nodup := by
  unfold aInsert
  simp only [List.map_cons, List.nodup_cons]
  refine ⟨?_, ?_⟩
  · intro hmem
    simp only [List.mem_map] at hmem
    obtain ⟨p, hp, hk⟩ := hmem
    have hne := List.of_mem_filter hp
    simp only [ne_eq, decide_not, Bool.not_eq_true', decide_eq_false_iff_not] at hne
    exact hne hk
  · exact h.sublist ((List.filter_sublist m).map Prod.fst)

/-- Lookup after the register commit: a symbol present in
`new_reg_providers` (whose keys are pairwise distinct) resolves to its
deferred node, any other symbol resolves as before the commit. -/
theorem aLookup_mergeRegNext (s m : SymTab) (h : (m.map Prod.fst).Nodup) (k : String) :
    aLookup (mergeRegNext s m) k =
      match aLookup m k with
      | some v => some v
      | none => aLookup s k := by
  induction m generalizing s with
  | nil => rfl
  | cons p rest ih =>
    obtain ⟨a, b⟩ := p
    simp only [List.map_cons, List.nodup_cons] at h
    unfold mergeRegNext
    rw [ih _ h.2]
    by_cases hk : k = a
    · subst hk
      have : aLookup rest k = none :=
        aLookup_eq_none_of_not_mem rest k h.1
      rw [this]
      simp
    · simp [hk]

/-- Phase 3 keeps the keys of `new_reg_providers` pairwise distinct. -/
theorem phase3Step_regNext_nodup (env : StaticEnv) (tau : Int) (reset : VcdValue)
    (probes : ProbeTab) (acc : CycleAcc) (s : Nat)
    (h : (acc.regNext.map Prod.fst).Nodup) :
    ((phase3Step env tau reset probes acc s).regNext.map Prod.fst).Nodup := by
  unfold phase3Step
  dsimp only
  repeat' first | assumption | exact keysNodup_aInsert _ _ _ h | split

theorem phase3_regNext_nodup (env : StaticEnv) (tau : Int) (reset : VcdValue)
    (probes : ProbeTab) (stmts : List Nat) (acc : CycleAcc)
    (h : (acc.regNext.map Prod.fst).Nodup) :
    ((phase3 env tau reset probes stmts acc).regNext.map Prod.fst).Nodup := by
  induction stmts generalizing acc with
  | nil => exact h
  | cons s ss ih =>
    exact ih _ (phase3Step_regNext_nodup env tau reset probes acc s h)

/-! ### Concrete fixtures used by witnesses and counterexamples -/

/-- A combinational wire assignment. -/
def vWire : SpecNode :=
  { name := "stmt_w", kind := .connection, clocked := false, assignsTo := some "w",
    condition := none, assignDelay := 0 }

/-- A clocked register assignment (non-declaration). -/
def vReg : SpecNode :=
  { name := "stmt_q", kind := .connection, clocked := true, assignsTo := some "q",
    condition := none, assignDelay := 0 }

/-- A clocked register declaration (`DataDefinition`), the reset-rule
subject. -/
def vRegDef : SpecNode :=
  { name := "stmt_qdef", kind := .dataDefinition, clocked := true, assignsTo := some "q",
    condition := none, assignDelay := 0 }

/-- A delayed sequential-memory write (`assign_delay = 1`). -/
def vMem : SpecNode :=
  { name := "stmt_m", kind := .connection, clocked := true, assignsTo := some "mem",
    condition := none, assignDelay := 1 }

/-- A cycle input with no changes, no probes and reset deasserted. -/
def inpNil : CycleInput := { changes := [], probes := [], reset := .v0 }

/-- A single-wire program: one non-clocked statement, activated each
cycle. -/
def envWire : StaticEnv :=
  { vertices := [vWire], edges := [], cfg := [.mk 0 none none none], predIdxToId := [] }

/-! ### C4 — timestamps of created nodes -/

/-- C4 (amended): every dynamic node created in phase 3 for an activated
or spliced statement at corrected timestamp `tau ≥ 0` is created with
timestamp `tau` when its vertex is clocked and `tau - 1` otherwise (the
`i64` saturating subtraction never clamps for `tau ≥ 0`, so the first
cycle's non-clocked nodes carry `-1`, not `max (tau-1) 0 = 0`), with one
further decrement exactly when the clocked-`DataDefinition` reset rule
applies. -/
theorem created_node_timestamp (env : StaticEnv) (tau : Int) (reset : VcdValue)
    (probes : ProbeTab) (acc : CycleAcc) (s : Nat) (h : 0 ≤ tau) :
    (phase3Step env tau reset probes acc s).nodes.get? acc.nodes.length =
      some ⟨vtx env s,
        (if (vtx env s).clocked then tau else tau - 1) -
          (if resetApplies env tau reset probes s then 1 else 0), []⟩ := by
  rw [phase3Step_nodes_eq, i64SatSub1_of_nonneg h, get?_snoc_self]

/-- Witness for `created_node_timestamp` at a concrete input. -/
theorem created_node_timestamp_witness :
    (0 : Int) ≤ 1 ∧
      (phase3Step envWire 1 VcdValue.v0 [] ⟨[], [], [], [], []⟩ 0).nodes.get? 0 =
        some ⟨vtx envWire 0,
          (if (vtx envWire 0).clocked then 1 else 1 - 1) -
            (if resetApplies envWire 1 VcdValue.v0 [] 0 then 1 else 0), []⟩ :=
  ⟨by norm_num, created_node_timestamp envWire 1 VcdValue.v0 [] ⟨[], [], [], [], []⟩ 0 (by norm_num)⟩

/-- Counterexample to C4 as stated: in the one-wire program the node
created at the first cycle (`tau = 0`) for the non-clocked statement
carries timestamp `-1`, not `max (tau - 1) 0 = 0`. -/
theorem created_node_timestamp_counterexample :
    (processRun envWire .normal (.signal "w") [inpNil] 0
        (initBuilderState envWire)).toOption.map (fun st => st.nodes.map DynNode.timestamp) =
      some [-1] ∧ (-1 : Int) ≠ max (0 - 1) 0 := by
  exact ⟨rfl, by decide⟩

/-! ### C3 — the clocked `DataDefinition` reset rule -/

/-- C3: a clocked `DataDefinition` vertex with `assigns_to = symb`,
activated with its condition holding, is handled as follows: when
`tau = 0` or reset reads `V1`, its node's timestamp is decremented to
`tau - 1` (clocked nodes start at `tau`) and the node is installed in `S`
immediately; otherwise the vertex changes neither `S` nor the deferred
register map. -/
theorem dataDefinition_reset_rule (env : StaticEnv) (tau : Int) (reset : VcdValue)
    (probes : ProbeTab) (acc : CycleAcc) (s : Nat) (symb : String)
    (hclk : (vtx env s).clocked = true)
    (hdd : (vtx env s).kind = .dataDefinition)
    (hassign : (vtx env s).assignsTo = some symb)
    (hcond : evalCond (vtx env s).condition probes = true) :
    (if tau = 0 ∨ reset = VcdValue.v1 then
        (phase3Step env tau reset probes acc s).nodes.get? acc.nodes.length =
            some ⟨vtx env s, tau - 1, []⟩ ∧
          aLookup (phase3Step env tau reset probes acc s).depState symb =
            some acc.nodes.length ∧
          (phase3Step env tau reset probes acc s).regNext = acc.regNext
      else
        (phase3Step env tau reset probes acc s).depState = acc.depState ∧
          (phase3Step env tau reset probes acc s).regNext = acc.regNext) := by
  have hncf : ¬(vtx env s).kind = NodeKind.controlFlow := by rw [hdd]; intro h; cases h
  by_cases hrst : tau = 0 ∨ reset = VcdValue.v1
  · rw [if_pos hrst]
    unfold phase3Step
    simp only [hcond, if_true, hassign, hclk, hdd, hrst, if_false, set_snoc_self]
    rw [if_neg (by decide : ¬(NodeKind.dataDefinition = NodeKind.controlFlow))]
    refine ⟨?_, ?_, rfl⟩
    · rw [get?_snoc_self]
    · simp
  · rw [if_neg hrst]
    unfold phase3Step
    simp only [hcond, if_true, hassign, hclk, hdd, hrst, if_false]
    rw [if_neg (by decide : ¬(NodeKind.dataDefinition = NodeKind.controlFlow))]
    exact ⟨rfl, rfl⟩

/-- A program containing only the register declaration, for the C3
witness. -/
def envRegDef : StaticEnv :=
  { vertices := [vRegDef], edges := [], cfg := [.mk 0 none none none], predIdxToId := [] }

/-- A clocked register plus a delayed memory write, activated every
cycle: the smallest program on which a cycle both commits a register and
stores a snapshot. -/
def envRegMem : StaticEnv :=
  { vertices := [vReg, vMem], edges := [],
    cfg := [.mk 0 none none none, .mk 1 none none none], predIdxToId := [] }

/-- Witness for `dataDefinition_reset_rule`: both the reset branch
(`tau = 0`) and the no-reset branch (`tau = 3`, reset low) at concrete
inputs. -/
theorem dataDefinition_reset_rule_witness :
    ((vtx envRegDef 0).clocked = true ∧ (vtx envRegDef 0).kind = .dataDefinition ∧
        (vtx envRegDef 0).assignsTo = some "q" ∧
        evalCond (vtx envRegDef 0).condition [] = true) ∧
      (if (0 : Int) = 0 ∨ VcdValue.v0 = VcdValue.v1 then
          (phase3Step envRegDef 0 VcdValue.v0 [] ⟨[], [], [], [], []⟩ 0).nodes.get? 0 =
              some ⟨vtx envRegDef 0, 0 - 1, []⟩ ∧
            aLookup (phase3Step envRegDef 0 VcdValue.v0 [] ⟨[], [], [], [], []⟩ 0).depState "q" =
              some 0 ∧
            (phase3Step envRegDef 0 VcdValue.v0 [] ⟨[], [], [], [], []⟩ 0).regNext = []
        else
          (phase3Step envRegDef 0 VcdValue.v0 [] ⟨[], [], [], [], []⟩ 0).depState = [] ∧
            (phase3Step envRegDef 0 VcdValue.v0 [] ⟨[], [], [], [], []⟩ 0).regNext = []) :=
  ⟨⟨rfl, rfl, rfl, rfl⟩,
    dataDefinition_reset_rule envRegDef 0 VcdValue.v0 [] ⟨[], [], [], [], []⟩ 0 "q"
      rfl rfl rfl rfl⟩

/-! ### C2 — snapshot order relative to the register commit -/

/-- C2 (amended): on a cycle that enqueues a delayed write, the snapshot
is stored *before* phase 5 merges the deferred register map into `S`: the
snapshotted `S` is exactly the phase-3/phase-4 live table, the end-of-cycle
`S` is that table with `RegNext` merged on top, and consequently a symbol
committed through `RegNext` (and not also written immediately) is *not*
mapped by the snapshot to the register node created this cycle, although
the end-of-cycle `S` does map it there. -/
theorem snapshot_stored_before_commit (env : StaticEnv) (mode : ProcessingMode)
    (crit : Criterion) (inp : CycleInput) (tau : Int) (st st' : BuilderState)
    (hok : processCycle env mode crit inp tau st = .ok st')
    (hdel : (cycleFront env inp tau st).delayed ≠ []) :
    aLookup st'.snapshots tau =
        some ((phase3 env tau inp.reset inp.probes (cycleFront env inp tau st).stmts
            ⟨st.nodes, st.depState, [], [], []⟩).depState, inp.probes) ∧
      st'.depState =
        mergeRegNext
          (phase3 env tau inp.reset inp.probes (cycleFront env inp tau st).stmts
            ⟨st.nodes, st.depState, [], [], []⟩).depState
          (phase3 env tau inp.reset inp.probes (cycleFront env inp tau st).stmts
            ⟨st.nodes, st.depState, [], [], []⟩).regNext ∧
      ∀ symb id,
        aLookup (phase3 env tau inp.reset inp.probes (cycleFront env inp tau st).stmts
            ⟨st.nodes, st.depState, [], [], []⟩).regNext symb = some id →
        aLookup (phase3 env tau inp.reset inp.probes (cycleFront env inp tau st).stmts
            ⟨st.nodes, st.depState, [], [], []⟩).depState symb ≠ some id →
        (aLookup st'.snapshots tau).map (fun sp => aLookup sp.1 symb) ≠ some (some id) ∧
          aLookup st'.depState symb = some id := by
  unfold processCycle at hok
  dsimp only at hok
  set front := cycleFront env inp tau st with hfront
  set acc := phase3 env tau inp.reset inp.probes front.stmts
    ⟨st.nodes, st.depState, [], [], []⟩ with hacc
  have hnodup : (acc.regNext.map Prod.fst).Nodup := by
    rw [hacc]
    exact phase3_regNext_nodup env tau inp.reset inp.probes front.stmts _ (by simp)
  have hie : front.delayed.isEmpty = false := by
    rcases hd : front.delayed with _ | ⟨a, l⟩
    · exact absurd hd hdel
    · rfl
  cases hp4 : phase4 env mode tau acc.depState inp.probes acc.cfProviders st.snapshots
      acc.newNodes acc.nodes with
  | error e => rw [hp4] at hok; cases hok
  | ok nodes4 =>
    rw [hp4] at hok
    simp only [Except.ok.injEq] at hok
    subst hok
    refine ⟨?_, rfl, ?_⟩
    · simp [hie]
    · intro symb id h1 h2
      refine ⟨?_, ?_⟩
      · simp only [hie, Bool.false_eq_true, if_false, aLookup_aInsert, if_pos rfl,
          Option.map_some]
        intro heq
        exact h2 (Option.some.inj heq)
      · show aLookup (mergeRegNext acc.depState acc.regNext) symb = some id
        rw [aLookup_mergeRegNext _ _ hnodup, h1]

/-- Witness for `snapshot_stored_before_commit`: the register-plus-memory
program, one cycle at `tau = 0`. -/
theorem snapshot_stored_before_commit_witness :
    (processCycle envRegMem .normal (.signal "q") inpNil 0 (initBuilderState envRegMem) =
        .ok ((processCycle envRegMem .normal (.signal "q") inpNil 0
          (initBuilderState envRegMem)).toOption.getD (initBuilderState envRegMem)) ∧
      (cycleFront envRegMem inpNil 0 (initBuilderState envRegMem)).delayed ≠ []) ∧
      aLookup ((processCycle envRegMem .normal (.signal "q") inpNil 0
          (initBuilderState envRegMem)).toOption.getD (initBuilderState envRegMem)).snapshots 0 =
        some ((phase3 envRegMem 0 inpNil.reset inpNil.probes
            (cycleFront envRegMem inpNil 0 (initBuilderState envRegMem)).stmts
            ⟨[], [], [], [], []⟩).depState, inpNil.probes) := by
  refine ⟨⟨rfl, by decide⟩, ?_⟩
  exact (snapshot_stored_before_commit envRegMem .normal (.signal "q") inpNil 0
    (initBuilderState envRegMem) _ rfl (by decide)).1

/-- Counterexample to C2 as stated: in the register-plus-memory program at
`tau = 0`, the snapshot Σ[0] is stored but its `S` does not map `"q"` to
the register node (id 0) committed this cycle — the end-of-cycle `S`
does. -/
theorem snapshot_stored_before_commit_counterexample :
    (processRun envRegMem .normal (.signal "q") [inpNil] 0
        (initBuilderState envRegMem)).toOption.map
      (fun st => ((aLookup st.snapshots 0).map (fun sp => aLookup sp.1 "q"),
        aLookup st.depState "q")) = some (some none, some 0) ∧
      (none : Option Nat) ≠ some 0 := ⟨rfl, by decide⟩

/-! ### C9 — safety of the unguarded snapshot index -/

/-- The safety invariant relating the delayed buffer to the snapshot
table: every pending `(fire_cycle, stmt)` entry already has a snapshot
stored under the key `fire_cycle - assign_delay` (the cycle that enqueued
it). -/
def BufferSafe (env : StaticEnv) (st : BuilderState) : Prop :=
  ∀ ts ∈ st.delayedBuffer,
    aLookup st.snapshots (ts.1 - (vtx env ts.2).assignDelay) ≠ none

/-- Every `(statement, id)` pair recorded by phase 3 either pre-existed or
names one of the processed statements. -/
theorem phase3_newNodes_stmts (env : StaticEnv) (tau : Int) (reset : VcdValue)
    (probes : ProbeTab) (stmts : List Nat) (acc : CycleAcc) :
    ∀ sn ∈ (phase3 env tau reset probes stmts acc).newNodes,
      sn ∈ acc.newNodes ∨ sn.1 ∈ stmts := by
  induction stmts generalizing acc with
  | nil => intro sn h; exact Or.inl h
  | cons s ss ih =>
    intro sn h
    rcases ih (phase3Step env tau reset probes acc s) sn h with h1 | h1
    · rw [phase3Step_newNodes] at h1
      rcases List.mem_append.mp h1 with h2 | h2
      · exact Or.inl h2
      · simp only [List.mem_singleton] at h2
        subst h2
        exact Or.inr (List.mem_cons_self s ss)
    · exact Or.inr (List.mem_cons_of_mem s h1)

/-- Dependency resolution of one node succeeds whenever the node is not
delayed or its snapshot key is present. -/
theorem resolveNode_ok (env : StaticEnv) (mode : ProcessingMode) (tau : Int)
    (liveS : SymTab) (liveProbes : ProbeTab) (cf : List (SpecNode × Nat))
    (snapshots : List (Int × (SymTab × ProbeTab))) (nodes : List DynNode)
    (sn : Nat × Nat)
    (h : (vtx env sn.1).assignDelay = 0 ∨
      aLookup snapshots (tau - (vtx env sn.1).assignDelay) ≠ none) :
    ∃ nodes', resolveNode env mode tau liveS liveProbes cf snapshots nodes sn = .ok nodes' := by
  unfold resolveNode
  dsimp only
  rcases h with h | h
  · rw [h]
    simp only [gt_iff_lt, lt_irrefl, if_false]
    exact ⟨_, rfl⟩
  · by_cases hd : (vtx env sn.1).assignDelay > 0
    · simp only [hd, if_true]
      rcases hlk : aLookup snapshots (tau - (vtx env sn.1).assignDelay) with _ | sp
      · exact absurd hlk h
      · exact ⟨_, rfl⟩
    · simp only [hd, if_false]
      exact ⟨_, rfl⟩

/-- Phase 4 succeeds whenever every delayed consumer's snapshot key is
present. -/
theorem phase4_ok (env : StaticEnv) (mode : ProcessingMode) (tau : Int)
    (liveS : SymTab) (liveProbes : ProbeTab) (cf : List (SpecNode × Nat))
    (snapshots : List (Int × (SymTab × ProbeTab))) (sns : List (Nat × Nat))
    (nodes : List DynNode)
    (h : ∀ sn ∈ sns, (vtx env sn.1).assignDelay = 0 ∨
      aLookup snapshots (tau - (vtx env sn.1).assignDelay) ≠ none) :
    ∃ nodes', phase4 env mode tau liveS liveProbes cf snapshots sns nodes = .ok nodes' := by
  induction sns generalizing nodes with
  | nil => exact ⟨nodes, rfl⟩
  | cons sn rest ih =>
    obtain ⟨nodes1, h1⟩ := resolveNode_ok env mode tau liveS liveProbes cf snapshots nodes sn
      (h sn (List.mem_cons_self sn rest))
    obtain ⟨nodes', h2⟩ := ih nodes1 (fun x hx => h x (List.mem_cons_of_mem sn hx))
    exact ⟨nodes', by unfold phase4; rw [h1]; exact h2⟩

/-- Every immediate statement of a cycle either has no delay (the CFG
part of the partition) or was spliced from a buffer entry firing at
`tau`. -/
theorem cycleFront_stmts_spec (env : StaticEnv) (inp : CycleInput) (tau : Int)
    (st : BuilderState) :
    ∀ s ∈ (cycleFront env inp tau st).stmts,
      (vtx env s).assignDelay = 0 ∨ (tau, s) ∈ st.delayedBuffer := by
  unfold cycleFront
  dsimp only
  intro s hs
  rcases List.mem_append.mp hs with h1 | h1
  · rw [List.partition_eq_filter_filter] at h1
    simp only at h1
    have := List.of_mem_filter h1
    simp only [beq_iff_eq] at this
    exact Or.inl this
  · simp only [List.mem_map] at h1
    obtain ⟨⟨t, s0⟩, hmem, heq⟩ := h1
    have hfil := List.mem_filter.mp hmem
    simp only [decide_eq_true_eq] at hfil
    subst heq
    right
    rw [← hfil.2]
    exact hfil.1

/-- Every entry of the post-cycle buffer is either an old entry (not
firing this cycle) or a fresh enqueue `(tau + delay, s)` for some newly
delayed statement `s`. -/
theorem cycleFront_buffer_spec (env : StaticEnv) (inp : CycleInput) (tau : Int)
    (st : BuilderState) :
    ∀ ts ∈ (cycleFront env inp tau st).buffer,
      ts ∈ st.delayedBuffer ∨
        (ts.2 ∈ (cycleFront env inp tau st).delayed ∧
          ts.1 = tau + (vtx env ts.2).assignDelay) := by
  unfold cycleFront
  dsimp only
  intro ts hts
  rcases List.mem_append.mp hts with h1 | h1
  · exact Or.inl (List.mem_filter.mp h1).1
  · simp only [List.mem_map] at h1
    obtain ⟨s0, hm, he⟩ := h1
    subst he
    exact Or.inr ⟨hm, rfl⟩

theorem isEmpty_false_of_mem {l : List α} {a : α} (h : a ∈ l) : l.isEmpty = false := by
  cases l with
  | nil => cases h
  | cons x xs => rfl

/-- One cycle preserves the buffer-safety invariant and cannot fail. -/
theorem processCycle_ok (env : StaticEnv) (mode : ProcessingMode) (crit : Criterion)
    (inp : CycleInput) (tau : Int) (st : BuilderState) (hsafe : BufferSafe env st) :
    ∃ st', processCycle env mode crit inp tau st = .ok st' ∧ BufferSafe env st' := by
  have hnew : ∀ sn ∈ (phase3 env tau inp.reset inp.probes (cycleFront env inp tau st).stmts
      ⟨st.nodes, st.depState, [], [], []⟩).newNodes,
      (vtx env sn.1).assignDelay = 0 ∨
        aLookup st.snapshots (tau - (vtx env sn.1).assignDelay) ≠ none := by
    intro sn hsn
    rcases phase3_newNodes_stmts env tau inp.reset inp.probes _ _ sn hsn with h | h
    · cases h
    · rcases cycleFront_stmts_spec env inp tau st sn.1 h with h1 | h1
      · exact Or.inl h1
      · exact Or.inr (hsafe (tau, sn.1) h1)
  obtain ⟨nodes4, h4⟩ := phase4_ok env mode tau
    (phase3 env tau inp.reset inp.probes (cycleFront env inp tau st).stmts
      ⟨st.nodes, st.depState, [], [], []⟩).depState inp.probes
    (phase3 env tau inp.reset inp.probes (cycleFront env inp tau st).stmts
      ⟨st.nodes, st.depState, [], [], []⟩).cfProviders st.snapshots
    (phase3 env tau inp.reset inp.probes (cycleFront env inp tau st).stmts
      ⟨st.nodes, st.depState, [], [], []⟩).newNodes
    (phase3 env tau inp.reset inp.probes (cycleFront env inp tau st).stmts
      ⟨st.nodes, st.depState, [], [], []⟩).nodes hnew
  refine ⟨_, by unfold processCycle; dsimp only; rw [h4], ?_⟩
  intro ts hts
  dsimp only at hts ⊢
  have hsnap : ∀ k, aLookup st.snapshots k ≠ none →
      aLookup (if (cycleFront env inp tau st).delayed.isEmpty = true then st.snapshots
        else aInsert st.snapshots tau
          ((phase3 env tau inp.reset inp.probes (cycleFront env inp tau st).stmts
            ⟨st.nodes, st.depState, [], [], []⟩).depState, inp.probes)) k ≠ none := by
    intro k hk
    split
    · exact hk
    · rw [aLookup_aInsert]
      split
      · exact Option.some_ne_none _
      · exact hk
  rcases cycleFront_buffer_spec env inp tau st ts hts with h1 | ⟨h1, h2⟩
  · exact hsnap _ (hsafe _ h1)
  · rw [h2, show tau + ((vtx env ts.2).assignDelay : Int) - (vtx env ts.2).assignDelay = tau
      by omega]
    rw [if_neg (by rw [isEmpty_false_of_mem h1]; exact Bool.false_ne_true)]
    simp only [aLookup_aInsert, if_pos rfl]
    exact Option.some_ne_none _

/-- The cycle loop preserves buffer safety and never fails. -/
theorem processRun_ok (env : StaticEnv) (mode : ProcessingMode) (crit : Criterion)
    (inputs : List CycleInput) (tau : Int) (st : BuilderState) (hsafe : BufferSafe env st) :
    ∃ st', processRun env mode crit inputs tau st = .ok st' ∧ BufferSafe env st' := by
  induction inputs generalizing tau st with
  | nil => exact ⟨st, rfl, hsafe⟩
  | cons i is ih =>
    obtain ⟨st1, h1, hsafe1⟩ := processCycle_ok env mode crit i tau st hsafe
    obtain ⟨st', h2, hsafe'⟩ := ih (tau + 1) st1 hsafe1
    exact ⟨st', by unfold processRun; rw [h1]; exact h2, hsafe'⟩

/-- C9: the unguarded snapshot-table index in dependency resolution can
never fail: every run of the cycle loop from the initial state succeeds,
and `process` never reports the snapshot panic — the enqueueing cycle of
every pending delayed statement always stored the snapshot its fire cycle
looks up. -/
theorem snapshot_index_safe (env : StaticEnv) (mode : ProcessingMode) (crit : Criterion)
    (inputs : List CycleInput) :
    (∃ st', processRun env mode crit inputs 0 (initBuilderState env) = .ok st') ∧
      process env mode crit inputs ≠ .error .snapshotMissing := by
  have hinit : BufferSafe env (initBuilderState env) := by
    intro ts hts
    cases hts
  obtain ⟨st', hrun, _⟩ := processRun_ok env mode crit inputs 0 (initBuilderState env) hinit
  refine ⟨⟨st', hrun⟩, ?_⟩
  unfold process
  rw [hrun]
  rcases crit with c | c
  · dsimp only
    rcases h : st'.criterionNode with _ | n <;> intro he <;> cases he
  · dsimp only
    rcases h : aLookup st'.depState c with _ | n <;> intro he <;> cases he

/-! ### Arena stability lemmas -/

/-- Phase 3 only appends to the arena. -/
theorem phase3_nodes_stable (env : StaticEnv) (tau : Int) (reset : VcdValue)
    (probes : ProbeTab) (stmts : List Nat) (acc : CycleAcc) :
    acc.nodes.length ≤ (phase3 env tau reset probes stmts acc).nodes.length ∧
      ∀ i < acc.nodes.length,
        (phase3 env tau reset probes stmts acc).nodes.get? i = acc.nodes.get? i := by
  induction stmts generalizing acc with
  | nil => exact ⟨le_rfl, fun i _ => rfl⟩
  | cons s ss ih =>
    obtain ⟨hlen, hget⟩ := ih (phase3Step env tau reset probes acc s)
    have hslen := phase3Step_nodes_length env tau reset probes acc s
    refine ⟨?_, ?_⟩
    · show acc.nodes.length ≤ (phase3 env tau reset probes ss
        (phase3Step env tau reset probes acc s)).nodes.length
      omega
    · intro i hi
      show (phase3 env tau reset probes ss
        (phase3Step env tau reset probes acc s)).nodes.get? i = acc.nodes.get? i
      rw [hget i (by omega), phase3Step_nodes_eq, List.get?_append hi]

/-- Every id recorded by phase 3 is either old or indexes a node appended
by this phase (in particular it is below the final arena length). -/
theorem phase3_newNodes_ids (env : StaticEnv) (tau : Int) (reset : VcdValue)
    (probes : ProbeTab) (stmts : List Nat) (acc : CycleAcc) :
    ∀ sn ∈ (phase3 env tau reset probes stmts acc).newNodes,
      sn ∈ acc.newNodes ∨
        (acc.nodes.length ≤ sn.2 ∧
          sn.2 < (phase3 env tau reset probes stmts acc).nodes.length) := by
  induction stmts generalizing acc with
  | nil => intro sn h; exact Or.inl h
  | cons s ss ih =>
    intro sn h
    have hlen : (phase3Step env tau reset probes acc s).nodes.length =
        acc.nodes.length + 1 := phase3Step_nodes_length env tau reset probes acc s
    have hmono := (phase3_nodes_stable env tau reset probes ss
      (phase3Step env tau reset probes acc s)).1
    rcases ih (phase3Step env tau reset probes acc s) sn h with h1 | h1
    · rw [phase3Step_newNodes] at h1
      rcases List.mem_append.mp h1 with h2 | h2
      · exact Or.inl h2
      · simp only [List.mem_singleton] at h2
        subst h2
        refine Or.inr ⟨le_rfl, ?_⟩
        show acc.nodes.length <
          (phase3 env tau reset probes ss (phase3Step env tau reset probes acc s)).nodes.length
        omega
    · refine Or.inr ⟨le_trans (by omega) h1.1, h1.2⟩

/-- One edge step either leaves the arena alone or appends the fresh
`Declaration` singleton. -/
theorem resolveEdgeStep_nodes (env : StaticEnv) (cx : Phase4Ctx) (e : SpecEdge)
    (nodes : List DynNode) (processed : List String) (deps : List (Nat × EdgeKind)) :
    (resolveEdgeStep env cx e nodes processed deps).1 = nodes ∨
      (resolveEdgeStep env cx e nodes processed deps).1 =
        nodes ++ [⟨vtx env e.toIdx, cx.tau - 1, []⟩] := by
  unfold resolveEdgeStep
  dsimp only
  repeat' first | (exact Or.inl rfl) | (exact Or.inr rfl) | split

/-- One edge step appends at most one dependency, and any appended
dependency names its source table. -/
theorem resolveEdgeStep_deps (env : StaticEnv) (cx : Phase4Ctx) (e : SpecEdge)
    (nodes : List DynNode) (processed : List String) (deps : List (Nat × EdgeKind)) :
    (resolveEdgeStep env cx e nodes processed deps).2.2 = deps ∨
      ∃ pk, (resolveEdgeStep env cx e nodes processed deps).2.2 = deps ++ [pk] ∧
        ((pk.2 = EdgeKind.data ∧ ∃ a, aLookup cx.liveS a = some pk.1) ∨
         (pk.2 = EdgeKind.index ∧ ∃ a, aLookup cx.ctxS a = some pk.1) ∨
         (pk.2 = EdgeKind.conditional ∧ ∃ v, aLookup cx.cf v = some pk.1) ∨
         (pk.2 = EdgeKind.declaration ∧ pk.1 = nodes.length ∧
           (resolveEdgeStep env cx e nodes processed deps).1 =
             nodes ++ [⟨vtx env e.toIdx, cx.tau - 1, []⟩])) := by
  unfold resolveEdgeStep
  dsimp only
  split
  · exact Or.inl rfl
  · split
    · exact Or.inl rfl
    · split
      · split
        · split
          · exact Or.inr ⟨(nodes.length, .declaration), rfl,
              Or.inr (Or.inr (Or.inr ⟨rfl, rfl, rfl⟩))⟩
          · exact Or.inl rfl
        · split
          · split
            · rename_i d hd
              exact Or.inr ⟨(d, .data), rfl, Or.inl ⟨rfl, _, hd⟩⟩
            · exact Or.inl rfl
          · exact Or.inl rfl
        · split
          · split
            · rename_i d hd
              exact Or.inr ⟨(d, .index), rfl, Or.inr (Or.inl ⟨rfl, _, hd⟩)⟩
            · exact Or.inl rfl
          · exact Or.inl rfl
        · split
          · rename_i cd hcd
            exact Or.inr ⟨(cd, .conditional), rfl,
              Or.inr (Or.inr (Or.inl ⟨rfl, vtx env e.toIdx, hcd⟩))⟩
          · exact Or.inl rfl
      · exact Or.inl rfl

/-- The edge loop of phase 4 only appends to the arena. -/
theorem resolveEdges_nodes_append (env : StaticEnv) (cx : Phase4Ctx) (es : List SpecEdge) :
    ∀ nodes processed deps,
      ∃ ext, (resolveEdges env cx es nodes processed deps).1 = nodes ++ ext := by
  induction es with
  | nil => intro nodes processed deps; exact ⟨[], (List.append_nil _).symm⟩
  | cons e es ih =>
    intro nodes processed deps
    obtain ⟨ext, he⟩ := ih (resolveEdgeStep env cx e nodes processed deps).1
      (resolveEdgeStep env cx e nodes processed deps).2.1
      (resolveEdgeStep env cx e nodes processed deps).2.2
    rcases resolveEdgeStep_nodes env cx e nodes processed deps with h | h
    · refine ⟨ext, ?_⟩
      show (resolveEdges env cx es (resolveEdgeStep env cx e nodes processed deps).1
        (resolveEdgeStep env cx e nodes processed deps).2.1
        (resolveEdgeStep env cx e nodes processed deps).2.2).1 = nodes ++ ext
      rw [he, h]
    · refine ⟨⟨vtx env e.toIdx, cx.tau - 1, []⟩ :: ext, ?_⟩
      show (resolveEdges env cx es (resolveEdgeStep env cx e nodes processed deps).1
        (resolveEdgeStep env cx e nodes processed deps).2.1
        (resolveEdgeStep env cx e nodes processed deps).2.2).1 =
          nodes ++ (⟨vtx env e.toIdx, cx.tau - 1, []⟩ :: ext)
      rw [he, h, List.append_assoc]
      rfl

/-- Dependency resolution of one node preserves the arena length bound and
every slot other than the written one. -/
theorem resolveNode_nodes_stable (env : StaticEnv) (mode : ProcessingMode) (tau : Int)
    (liveS : SymTab) (liveProbes : ProbeTab) (cf : List (SpecNode × Nat))
    (snapshots : List (Int × (SymTab × ProbeTab))) (nodes nodes' : List DynNode)
    (sn : Nat × Nat)
    (hok : resolveNode env mode tau liveS liveProbes cf snapshots nodes sn = .ok nodes') :
    nodes.length ≤ nodes'.length ∧
      ∀ i, i < nodes.length → i ≠ sn.2 → nodes'.get? i = nodes.get? i := by
  unfold resolveNode at hok
  dsimp only at hok
  rcases hsel : (if (vtx env sn.1).assignDelay > 0 then
      match aLookup snapshots (tau - ((vtx env sn.1).assignDelay : Int)) with
      | some sp => Except.ok sp
      | none => Except.error BuildErr.snapshotMissing
    else Except.ok (liveS, liveProbes) : Except BuildErr (SymTab × ProbeTab)) with e | ctx
  · rw [hsel] at hok; cases hok
  · rw [hsel] at hok
    simp only [Except.ok.injEq] at hok
    obtain ⟨ext, hext⟩ := resolveEdges_nodes_append env
      ⟨mode, tau, liveS, cf, ctx.1, ctx.2⟩ (edgesFrom env sn.1) nodes [] []
    subst hok
    constructor
    · rw [List.length_set, hext, List.length_append]
      omega
    · intro i hi hne
      rw [List.get?_set_ne _ _ (Ne.symm hne), hext, List.get?_append hi]

/-- Phase 4 preserves every arena slot below the ids it writes. -/
theorem phase4_nodes_stable (env : StaticEnv) (mode : ProcessingMode) (tau : Int)
    (liveS : SymTab) (liveProbes : ProbeTab) (cf : List (SpecNode × Nat))
    (snapshots : List (Int × (SymTab × ProbeTab))) (sns : List (Nat × Nat))
    (nodes nodes' : List DynNode) (n0 : Nat)
    (hids : ∀ sn ∈ sns, n0 ≤ sn.2)
    (hok : phase4 env mode tau liveS liveProbes cf snapshots sns nodes = .ok nodes') :
    nodes.length ≤ nodes'.length ∧
      ∀ i, i < nodes.length → i < n0 → nodes'.get? i = nodes.get? i := by
  induction sns generalizing nodes with
  | nil =>
    unfold phase4 at hok
    simp only [Except.ok.injEq] at hok
    subst hok
    exact ⟨le_rfl, fun i _ _ => rfl⟩
  | cons sn rest ih =>
    unfold phase4 at hok
    rcases h1 : resolveNode env mode tau liveS liveProbes cf snapshots nodes sn with e | nodes1
    · rw [h1] at hok; cases hok
    · rw [h1] at hok
      obtain ⟨hlen1, hst1⟩ := resolveNode_nodes_stable env mode tau liveS liveProbes cf
        snapshots nodes nodes1 sn h1
      obtain ⟨hlen2, hst2⟩ := ih nodes1 (fun x hx => hids x (List.mem_cons_of_mem sn hx)) hok
      refine ⟨le_trans hlen1 hlen2, ?_⟩
      intro i hi hn0
      rw [hst2 i (lt_of_lt_of_le hi hlen1) hn0, hst1 i hi]
      intro he
      subst he
      exact absurd (hids sn (List.mem_cons_self sn rest)) (by omega)

/-! ### C8 — criterion resolution at end of stream -/

/-- The reference characterisation of the remembered criterion candidate:
the last id in the creation log whose node matches. -/
def lastMatchingNode (crit : Criterion) (nodes : List DynNode) :
    List Nat → Option Nat → Option Nat
  | [], cur => cur
  | id :: rest, cur =>
    lastMatchingNode crit nodes rest
      (if matchesCriterion crit ((nodes.get? id).getD default).spec then some id else cur)

theorem scanCriterion_eq_lastMatchingNode (crit : Criterion) (nodes : List DynNode)
    (sns : List (Nat × Nat)) (cur : Option Nat) :
    scanCriterion crit nodes sns cur =
      lastMatchingNode crit nodes (sns.map (·.2)) cur := by
  induction sns generalizing cur with
  | nil => rfl
  | cons sn rest ih => exact ih _

theorem lastMatchingNode_append (crit : Criterion) (nodes : List DynNode)
    (l1 l2 : List Nat) (cur : Option Nat) :
    lastMatchingNode crit nodes (l1 ++ l2) cur =
      lastMatchingNode crit nodes l2 (lastMatchingNode crit nodes l1 cur) := by
  induction l1 generalizing cur with
  | nil => rfl
  | cons id rest ih => exact ih _

theorem lastMatchingNode_stable (crit : Criterion) (nodes nodes' : List DynNode)
    (log : List Nat) (cur : Option Nat)
    (h : ∀ id ∈ log, nodes'.get? id = nodes.get? id) :
    lastMatchingNode crit nodes' log cur = lastMatchingNode crit nodes log cur := by
  induction log generalizing cur with
  | nil => rfl
  | cons id rest ih =>
    unfold lastMatchingNode
    rw [h id (List.mem_cons_self id rest)]
    exact ih _ (fun x hx => h x (List.mem_cons_of_mem id hx))

/-- The criterion-tracking invariant: the remembered candidate is the last
matching entry of the creation log, whose ids all index the arena. -/
def CriterionInv (crit : Criterion) (st : BuilderState) : Prop :=
  st.criterionNode = lastMatchingNode crit st.nodes st.activationLog none ∧
    ∀ id ∈ st.activationLog, id < st.nodes.length

theorem processCycle_criterionInv (env : StaticEnv) (mode : ProcessingMode)
    (crit : Criterion) (inp : CycleInput) (tau : Int) (st st' : BuilderState)
    (hok : processCycle env mode crit inp tau st = .ok st')
    (hinv : CriterionInv crit st) : CriterionInv crit st' := by
  unfold processCycle at hok
  dsimp only at hok
  rcases h4 : phase4 env mode tau
      (phase3 env tau inp.reset inp.probes (cycleFront env inp tau st).stmts
        ⟨st.nodes, st.depState, [], [], []⟩).depState inp.probes
      (phase3 env tau inp.reset inp.probes (cycleFront env inp tau st).stmts
        ⟨st.nodes, st.depState, [], [], []⟩).cfProviders st.snapshots
      (phase3 env tau inp.reset inp.probes (cycleFront env inp tau st).stmts
        ⟨st.nodes, st.depState, [], [], []⟩).newNodes
      (phase3 env tau inp.reset inp.probes (cycleFront env inp tau st).stmts
        ⟨st.nodes, st.depState, [], [], []⟩).nodes with e | nodes4
  · rw [h4] at hok; cases hok
  · rw [h4] at hok
    simp only [Except.ok.injEq] at hok
    subst hok
    have hids : ∀ sn ∈ (phase3 env tau inp.reset inp.probes
        (cycleFront env inp tau st).stmts
        ⟨st.nodes, st.depState, [], [], []⟩).newNodes, st.nodes.length ≤ sn.2 := by
      intro sn hsn
      rcases phase3_newNodes_ids env tau inp.reset inp.probes _ _ sn hsn with h | h
      · cases h
      · exact h.1
    have hnewlt : ∀ sn ∈ (phase3 env tau inp.reset inp.probes
        (cycleFront env inp tau st).stmts
        ⟨st.nodes, st.depState, [], [], []⟩).newNodes,
        sn.2 < (phase3 env tau inp.reset inp.probes (cycleFront env inp tau st).stmts
          ⟨st.nodes, st.depState, [], [], []⟩).nodes.length := by
      intro sn hsn
      rcases phase3_newNodes_ids env tau inp.reset inp.probes _ _ sn hsn with h | h
      · cases h
      · exact h.2
    obtain ⟨hlen4, hst4⟩ := phase4_nodes_stable env mode tau _ inp.probes _ st.snapshots _
      _ nodes4 st.nodes.length hids h4
    obtain ⟨hlen3, hget3⟩ := phase3_nodes_stable env tau inp.reset inp.probes
      (cycleFront env inp tau st).stmts ⟨st.nodes, st.depState, [], [], []⟩
    have hstable : ∀ id ∈ st.activationLog, nodes4.get? id = st.nodes.get? id := by
      intro id hid
      have hlt := hinv.2 id hid
      rw [hst4 id (lt_of_lt_of_le hlt hlen3) hlt]
      exact hget3 id hlt
    constructor
    · show scanCriterion crit nodes4 _ st.criterionNode =
        lastMatchingNode crit nodes4 (st.activationLog ++ _) none
      rw [lastMatchingNode_append, lastMatchingNode_stable crit st.nodes nodes4
        st.activationLog none hstable, ← hinv.1, scanCriterion_eq_lastMatchingNode]
    · intro id hid
      rcases List.mem_append.mp hid with h | h
      · exact lt_of_lt_of_le (lt_of_lt_of_le (hinv.2 id h) hlen3) hlen4
      · simp only [List.mem_map] at h
        obtain ⟨sn, hsn, he⟩ := h
        subst he
        exact lt_of_lt_of_le (hnewlt sn hsn) hlen4

theorem processRun_criterionInv (env : StaticEnv) (mode : ProcessingMode)
    (crit : Criterion) (inputs : List CycleInput) (tau : Int) (st st' : BuilderState)
    (hok : processRun env mode crit inputs tau st = .ok st')
    (hinv : CriterionInv crit st) : CriterionInv crit st' := by
  induction inputs generalizing tau st with
  | nil =>
    unfold processRun at hok
    simp only [Except.ok.injEq] at hok
    subst hok
    exact hinv
  | cons i is ih =>
    unfold processRun at hok
    rcases h1 : processCycle env mode crit i tau st with e | st1
    · rw [h1] at hok; cases hok
    · rw [h1] at hok
      exact ih (tau + 1) st1 hok (processCycle_criterionInv env mode crit i tau st st1 h1 hinv)

/-- C8: at end of stream, a `Statement` criterion resolves to the most
recently created activation node whose spec name matches (the remembered
candidate), a `Signal` criterion resolves to the end-of-stream `S[symbol]`,
and the criterion-not-found error is raised exactly when the respective
lookup is empty — this final lookup being the only place the error
arises. -/
theorem criterion_resolution (env : StaticEnv) (mode : ProcessingMode)
    (inputs : List CycleInput) (name symbol : String) :
    (∀ st', processRun env mode (.statement name) inputs 0 (initBuilderState env) = .ok st' →
      st'.criterionNode =
          lastMatchingNode (.statement name) st'.nodes st'.activationLog none ∧
        process env mode (.statement name) inputs =
          (match lastMatchingNode (.statement name) st'.nodes st'.activationLog none with
           | some n => .ok n
           | none => .error .criterionNotFound)) ∧
    (∀ st', processRun env mode (.signal symbol) inputs 0 (initBuilderState env) = .ok st' →
      process env mode (.signal symbol) inputs =
        (match aLookup st'.depState symbol with
         | some n => .ok n
         | none => .error .criterionNotFound)) := by
  constructor
  · intro st' hok
    have hinv := processRun_criterionInv env mode (.statement name) inputs 0
      (initBuilderState env) st' hok ⟨rfl, fun id hid => by cases hid⟩
    refine ⟨hinv.1, ?_⟩
    unfold process
    rw [hok]
    dsimp only
    rw [← hinv.1]
  · intro st' hok
    unfold process
    rw [hok]

/-- Witness for `criterion_resolution`: the one-wire program over one
cycle, for both criterion forms. -/
theorem criterion_resolution_witness :
    (processRun envWire .normal (.statement "stmt_w") [inpNil] 0
        (initBuilderState envWire) =
      .ok ((processRun envWire .normal (.statement "stmt_w") [inpNil] 0
        (initBuilderState envWire)).toOption.getD (initBuilderState envWire))) ∧
      process envWire .normal (.signal "w") [inpNil] =
        (match aLookup ((processRun envWire .normal (.signal "w") [inpNil] 0
            (initBuilderState envWire)).toOption.getD (initBuilderState envWire)).depState
            "w" with
         | some n => .ok n
         | none => .error .criterionNotFound) :=
  ⟨rfl, (criterion_resolution envWire .normal [inpNil] "stmt_w" "w").2 _ rfl⟩

/-! ### Per-node resolution lemmas for phase 4 -/

/-- Phase 4 preserves any arena slot none of its consumers writes. -/
theorem phase4_get?_preserved (env : StaticEnv) (mode : ProcessingMode) (tau : Int)
    (liveS : SymTab) (liveProbes : ProbeTab) (cf : List (SpecNode × Nat))
    (snapshots : List (Int × (SymTab × ProbeTab))) (sns : List (Nat × Nat))
    (nodes nodes' : List DynNode) (i : Nat)
    (hok : phase4 env mode tau liveS liveProbes cf snapshots sns nodes = .ok nodes')
    (hi : i < nodes.length) (hni : ∀ sn ∈ sns, sn.2 ≠ i) :
    nodes'.get? i = nodes.get? i := by
  induction sns generalizing nodes with
  | nil =>
    unfold phase4 at hok
    simp only [Except.ok.injEq] at hok
    subst hok
    rfl
  | cons sn rest ih =>
    unfold phase4 at hok
    rcases h1 : resolveNode env mode tau liveS liveProbes cf snapshots nodes sn with e | nodes1
    · rw [h1] at hok; cases hok
    · rw [h1] at hok
      obtain ⟨hlen1, hst1⟩ := resolveNode_nodes_stable env mode tau liveS liveProbes cf
        snapshots nodes nodes1 sn h1
      rw [ih nodes1 hok (lt_of_lt_of_le hi hlen1)
        (fun x hx => hni x (List.mem_cons_of_mem sn hx))]
      exact hst1 i hi (fun he => hni sn (List.mem_cons_self sn rest) (by rw [he]))

theorem lt_length_of_get?_eq_some {l : List α} {i : Nat} {a : α}
    (h : l.get? i = some a) : i < l.length := by
  by_contra hn
  rw [List.get?_eq_none.2 (by omega)] at h
  cases h

theorem get?_set_getD (l : List α) (i : Nat) (a b : α) (h : l.get? i = some a) :
    (l.set i b).get? i = some b := by
  have := lt_length_of_get?_eq_some h
  rw [List.get?_set_eq_of_lt _ this]

/-- What one `resolveNode` call writes: the consumer's slot receives its
phase-3 spec and timestamp together with the dependency list computed by
the edge loop over the selected context (the snapshot at
`tau - assign_delay` for a delayed consumer, the live pair otherwise). -/
theorem resolveNode_writes (env : StaticEnv) (mode : ProcessingMode) (tau : Int)
    (liveS : SymTab) (liveProbes : ProbeTab) (cf : List (SpecNode × Nat))
    (snapshots : List (Int × (SymTab × ProbeTab))) (nodes nodes' : List DynNode)
    (sn : Nat × Nat) (d0 : DynNode)
    (hok : resolveNode env mode tau liveS liveProbes cf snapshots nodes sn = .ok nodes')
    (hd0 : nodes.get? sn.2 = some d0) :
    ∃ ctxS ctxP,
      ((vtx env sn.1).assignDelay > 0 →
        aLookup snapshots (tau - (vtx env sn.1).assignDelay) = some (ctxS, ctxP)) ∧
      ((vtx env sn.1).assignDelay = 0 → ctxS = liveS ∧ ctxP = liveProbes) ∧
      nodes'.get? sn.2 = some ⟨d0.spec, d0.timestamp,
        (resolveEdges env ⟨mode, tau, liveS, cf, ctxS, ctxP⟩
          (edgesFrom env sn.1) nodes [] []).2⟩ := by
  have hlt : sn.2 < nodes.length := lt_length_of_get?_eq_some hd0
  unfold resolveNode at hok
  dsimp only at hok
  by_cases hdel : (vtx env sn.1).assignDelay > 0
  · rw [if_pos hdel] at hok
    rcases hlk : aLookup snapshots (tau - ((vtx env sn.1).assignDelay : Int)) with _ | sp
    · rw [hlk] at hok; cases hok
    · obtain ⟨cS, cP⟩ := sp
      rw [hlk] at hok
      dsimp only at hok
      simp only [Except.ok.injEq] at hok
      subst hok
      refine ⟨cS, cP, fun _ => rfl, fun h0 => absurd h0 (by omega), ?_⟩
      obtain ⟨ext, hext⟩ := resolveEdges_nodes_append env
        ⟨mode, tau, liveS, cf, cS, cP⟩ (edgesFrom env sn.1) nodes [] []
      have hget : (resolveEdges env ⟨mode, tau, liveS, cf, cS, cP⟩
          (edgesFrom env sn.1) nodes [] []).1.get? sn.2 = some d0 := by
        rw [hext, List.get?_append hlt]; exact hd0
      rw [get?_set_getD _ _ _ _ hget, hget]
      rfl
  · rw [if_neg hdel] at hok
    dsimp only at hok
    simp only [Except.ok.injEq] at hok
    subst hok
    refine ⟨liveS, liveProbes, fun h0 => absurd h0 hdel, fun _ => ⟨rfl, rfl⟩, ?_⟩
    have hget : (resolveEdges env ⟨mode, tau, liveS, cf, liveS, liveProbes⟩
        (edgesFrom env sn.1) nodes [] []).1.get? sn.2 = some d0 := by
      obtain ⟨ext, hext⟩ := resolveEdges_nodes_append env
        ⟨mode, tau, liveS, cf, liveS, liveProbes⟩ (edgesFrom env sn.1) nodes [] []
      rw [hext, List.get?_append hlt]; exact hd0
    rw [get?_set_getD _ _ _ _ hget, hget]
    rfl

/-- Phase 4 writes every consumer exactly once: the final slot of each
`(statement, id)` pair holds its phase-3 spec and timestamp together with
the dependency list computed by the edge loop over the context selected by
the statement's delay. -/
theorem phase4_resolves_each (env : StaticEnv) (mode : ProcessingMode) (tau : Int)
    (liveS : SymTab) (liveProbes : ProbeTab) (cf : List (SpecNode × Nat))
    (snapshots : List (Int × (SymTab × ProbeTab))) (sns : List (Nat × Nat))
    (nodes nodes' : List DynNode)
    (hok : phase4 env mode tau liveS liveProbes cf snapshots sns nodes = .ok nodes')
    (hnd : (sns.map (·.2)).Nodup) :
    ∀ sn ∈ sns, ∀ d0, nodes.get? sn.2 = some d0 →
      ∃ A ctxS ctxP,
        A.get? sn.2 = some d0 ∧
        ((vtx env sn.1).assignDelay > 0 →
          aLookup snapshots (tau - (vtx env sn.1).assignDelay) = some (ctxS, ctxP)) ∧
        ((vtx env sn.1).assignDelay = 0 → ctxS = liveS ∧ ctxP = liveProbes) ∧
        nodes'.get? sn.2 = some ⟨d0.spec, d0.timestamp,
          (resolveEdges env ⟨mode, tau, liveS, cf, ctxS, ctxP⟩
            (edgesFrom env sn.1) A [] []).2⟩ := by
  induction sns generalizing nodes with
  | nil => intro sn h; cases h
  | cons sn0 rest ih =>
    intro sn hsn d0 hd0
    unfold phase4 at hok
    rcases h1 : resolveNode env mode tau liveS liveProbes cf snapshots nodes sn0 with e | nodes1
    · rw [h1] at hok; cases hok
    · rw [h1] at hok
      simp only [List.map_cons, List.nodup_cons] at hnd
      obtain ⟨hlen1, hst1⟩ := resolveNode_nodes_stable env mode tau liveS liveProbes cf
        snapshots nodes nodes1 sn0 h1
      rcases List.mem_cons.mp hsn with he | hmem
      · subst he
        obtain ⟨ctxS, ctxP, hc1, hc2, hw⟩ := resolveNode_writes env mode tau liveS liveProbes
          cf snapshots nodes nodes1 sn d0 h1 hd0
        refine ⟨nodes, ctxS, ctxP, hd0, hc1, hc2, ?_⟩
        rw [phase4_get?_preserved env mode tau liveS liveProbes cf snapshots rest nodes1
          nodes' sn.2 hok (lt_of_lt_of_le (lt_length_of_get?_eq_some hd0) hlen1)
          (fun x hx hxe => hnd.1 (List.mem_map.mpr ⟨x, hx, hxe⟩))]
        exact hw
      · have hd0' : nodes1.get? sn.2 = some d0 := by
          rw [hst1 sn.2 (lt_length_of_get?_eq_some hd0) ?_]
          · exact hd0
          · intro he
            exact hnd.1 (List.mem_map.mpr ⟨sn, hmem, he⟩)
        exact ih nodes1 hok hnd.2 sn hmem d0 hd0'

/-- Where each materialised dependency comes from: a `Data` edge resolves
against the live table, an `Index` edge against the selected context, a
`Conditional` edge against the cycle's control-flow providers, and a
`Declaration` edge points at a fresh singleton with timestamp `tau - 1`
and no dependencies. -/
theorem resolveEdges_deps_sources (env : StaticEnv) (cx : Phase4Ctx) (es : List SpecEdge) :
    ∀ nodes processed deps pk,
      pk ∈ (resolveEdges env cx es nodes processed deps).2 →
      pk ∈ deps ∨
        (pk.2 = EdgeKind.data ∧ ∃ a, aLookup cx.liveS a = some pk.1) ∨
        (pk.2 = EdgeKind.index ∧ ∃ a, aLookup cx.ctxS a = some pk.1) ∨
        (pk.2 = EdgeKind.conditional ∧ ∃ v, aLookup cx.cf v = some pk.1) ∨
        (pk.2 = EdgeKind.declaration ∧ nodes.length ≤ pk.1 ∧
          ∃ d, (resolveEdges env cx es nodes processed deps).1.get? pk.1 = some d ∧
            d.timestamp = cx.tau - 1 ∧ d.deps = []) := by
  induction es with
  | nil =>
    intro nodes processed deps pk h
    exact Or.inl h
  | cons e es ih =>
    intro nodes processed deps pk h
    have hred : resolveEdges env cx (e :: es) nodes processed deps =
        resolveEdges env cx es (resolveEdgeStep env cx e nodes processed deps).1
          (resolveEdgeStep env cx e nodes processed deps).2.1
          (resolveEdgeStep env cx e nodes processed deps).2.2 := rfl
    rw [hred] at h ⊢
    have hsteplen : nodes.length ≤ (resolveEdgeStep env cx e nodes processed deps).1.length := by
      rcases resolveEdgeStep_nodes env cx e nodes processed deps with h2 | h2
      · rw [h2]
      · rw [h2]; simp
    rcases ih _ _ _ pk h with h1 | h1
    · rcases resolveEdgeStep_deps env cx e nodes processed deps with h2 | ⟨pk0, h2, hsrc⟩
      · rw [h2] at h1
        exact Or.inl h1
      · rw [h2] at h1
        rcases List.mem_append.mp h1 with h3 | h3
        · exact Or.inl h3
        · simp only [List.mem_singleton] at h3
          subst h3
          rcases hsrc with hs | hs | hs | ⟨hk, hid, harena⟩
          · exact Or.inr (Or.inl hs)
          · exact Or.inr (Or.inr (Or.inl hs))
          · exact Or.inr (Or.inr (Or.inr (Or.inl hs)))
          · refine Or.inr (Or.inr (Or.inr (Or.inr ⟨hk, by rw [hid],
              ⟨vtx env e.toIdx, cx.tau - 1, []⟩, ?_, rfl, rfl⟩)))
            obtain ⟨ext, hext⟩ := resolveEdges_nodes_append env cx es
              (resolveEdgeStep env cx e nodes processed deps).1
              (resolveEdgeStep env cx e nodes processed deps).2.1
              (resolveEdgeStep env cx e nodes processed deps).2.2
            rw [hext, harena, hid, List.append_assoc,
              List.get?_append_right le_rfl]
            simp
    · rcases h1 with h1 | h1 | h1 | ⟨hk, hb, hrest⟩
      · exact Or.inr (Or.inl h1)
      · exact Or.inr (Or.inr (Or.inl h1))
      · exact Or.inr (Or.inr (Or.inr (Or.inl h1)))
      · exact Or.inr (Or.inr (Or.inr (Or.inr ⟨hk, le_trans hsteplen hb, hrest⟩)))

/-! ### Phase-3 bookkeeping lemmas -/

theorem phase3_newNodes_mono (env : StaticEnv) (tau : Int) (reset : VcdValue)
    (probes : ProbeTab) (stmts : List Nat) (acc : CycleAcc) :
    ∀ sn ∈ acc.newNodes, sn ∈ (phase3 env tau reset probes stmts acc).newNodes := by
  induction stmts generalizing acc with
  | nil => intro sn h; exact h
  | cons s ss ih =>
    intro sn h
    refine ih (phase3Step env tau reset probes acc s) sn ?_
    rw [phase3Step_newNodes]
    exact List.mem_append_left _ h

/-- Every processed statement gets a `(statement, id)` entry. -/
theorem phase3_stmts_in_newNodes (env : StaticEnv) (tau : Int) (reset : VcdValue)
    (probes : ProbeTab) (stmts : List Nat) (acc : CycleAcc) :
    ∀ s ∈ stmts, ∃ nid, (s, nid) ∈ (phase3 env tau reset probes stmts acc).newNodes := by
  induction stmts generalizing acc with
  | nil => intro s h; cases h
  | cons s0 ss ih =>
    intro s h
    rcases List.mem_cons.mp h with he | hmem
    · subst he
      refine ⟨acc.nodes.length, phase3_newNodes_mono env tau reset probes ss
        (phase3Step env tau reset probes acc s) _ ?_⟩
      rw [phase3Step_newNodes]
      exact List.mem_append_right _ (List.mem_singleton.mpr rfl)
    · exact ih (phase3Step env tau reset probes acc s0) s hmem

/-- The ids recorded by phase 3 stay pairwise distinct and within the
arena. -/
theorem phase3_newNodes_nodup (env : StaticEnv) (tau : Int) (reset : VcdValue)
    (probes : ProbeTab) (stmts : List Nat) (acc : CycleAcc)
    (hnd : (acc.newNodes.map (·.2)).Nodup)
    (hlt : ∀ sn ∈ acc.newNodes, sn.2 < acc.nodes.length) :
    ((phase3 env tau reset probes stmts acc).newNodes.map (·.2)).Nodup ∧
      ∀ sn ∈ (phase3 env tau reset probes stmts acc).newNodes,
        sn.2 < (phase3 env tau reset probes stmts acc).nodes.length := by
  induction stmts generalizing acc with
  | nil => exact ⟨hnd, hlt⟩
  | cons s ss ih =>
    refine ih (phase3Step env tau reset probes acc s) ?_ ?_
    · rw [phase3Step_newNodes, List.map_append]
      rw [List.nodup_append]
      refine ⟨hnd, List.nodup_singleton _, ?_⟩
      intro x hx hy
      simp only [List.map_cons, List.map_nil, List.mem_singleton] at hy
      subst hy
      simp only [List.mem_map] at hx
      obtain ⟨sn, hsn, he⟩ := hx
      exact absurd (hlt sn hsn) (by omega)
    · intro sn hsn
      rw [phase3Step_nodes_length]
      rw [phase3Step_newNodes] at hsn
      rcases List.mem_append.mp hsn with h | h
      · exact lt_trans (hlt sn h) (by omega)
      · simp only [List.mem_singleton] at h
        subst h
        omega

/-- The arena content of every node phase 3 creates. -/
theorem phase3_newNodes_content (env : StaticEnv) (tau : Int) (reset : VcdValue)
    (probes : ProbeTab) (stmts : List Nat) (acc : CycleAcc) :
    ∀ sn ∈ (phase3 env tau reset probes stmts acc).newNodes,
      sn ∈ acc.newNodes ∨
        (phase3 env tau reset probes stmts acc).nodes.get? sn.2 =
          some ⟨vtx env sn.1,
            (if (vtx env sn.1).clocked then tau else i64SatSub1 tau) -
              (if resetApplies env tau reset probes sn.1 then 1 else 0), []⟩ := by
  induction stmts generalizing acc with
  | nil => intro sn h; exact Or.inl h
  | cons s ss ih =>
    intro sn h
    rcases ih (phase3Step env tau reset probes acc s) sn h with h1 | h1
    · rw [phase3Step_newNodes] at h1
      rcases List.mem_append.mp h1 with h2 | h2
      · exact Or.inl h2
      · simp only [List.mem_singleton] at h2
        subst h2
        right
        show (phase3 env tau reset probes ss (phase3Step env tau reset probes acc s)).nodes.get?
          acc.nodes.length = _
        rw [(phase3_nodes_stable env tau reset probes ss
          (phase3Step env tau reset probes acc s)).2 acc.nodes.length
          (by rw [phase3Step_nodes_length]; omega)]
        rw [phase3Step_nodes_eq, get?_snoc_self]
    · exact Or.inr h1

/-- A CFG activation with a non-zero delay is enqueued at
`tau + assign_delay`. -/
theorem cycleFront_enqueues (env : StaticEnv) (inp : CycleInput) (tau : Int)
    (st : BuilderState) :
    ∀ s ∈ (getActivatedStatements env st.predValues inp.changes).1,
      (vtx env s).assignDelay ≠ 0 →
      s ∈ (cycleFront env inp tau st).delayed ∧
        (tau + (vtx env s).assignDelay, s) ∈ (cycleFront env inp tau st).buffer := by
  unfold cycleFront
  dsimp only
  intro s hs hd
  have hmem : s ∈ (List.partition (fun s => (vtx env s).assignDelay == 0)
      (getActivatedStatements env st.predValues inp.changes).1).2 := by
    rw [List.partition_eq_filter_filter]
    apply List.mem_filter.mpr
    refine ⟨hs, ?_⟩
    simp [hd]
  refine ⟨hmem, ?_⟩
  apply List.mem_append_right
  exact List.mem_map.mpr ⟨s, hmem, rfl⟩

/-- A buffer entry firing at `tau` is spliced into this cycle's immediate
statement list. -/
theorem cycleFront_splices (env : StaticEnv) (inp : CycleInput) (tau : Int)
    (st : BuilderState) :
    ∀ s, (tau, s) ∈ st.delayedBuffer → s ∈ (cycleFront env inp tau st).stmts := by
  unfold cycleFront
  dsimp only
  intro s hs
  apply List.mem_append_right
  apply List.mem_map.mpr
  refine ⟨(tau, s), ?_, rfl⟩
  apply List.mem_filter.mpr
  exact ⟨hs, by simp⟩

/-- Destructuring of a successful cycle into its phase results. -/
theorem processCycle_ok_elim (env : StaticEnv) (mode : ProcessingMode) (crit : Criterion)
    (inp : CycleInput) (tau : Int) (st st' : BuilderState)
    (hok : processCycle env mode crit inp tau st = .ok st') :
    ∃ nodes4,
      phase4 env mode tau
          (phase3 env tau inp.reset inp.probes (cycleFront env inp tau st).stmts
            ⟨st.nodes, st.depState, [], [], []⟩).depState inp.probes
          (phase3 env tau inp.reset inp.probes (cycleFront env inp tau st).stmts
            ⟨st.nodes, st.depState, [], [], []⟩).cfProviders st.snapshots
          (phase3 env tau inp.reset inp.probes (cycleFront env inp tau st).stmts
            ⟨st.nodes, st.depState, [], [], []⟩).newNodes
          (phase3 env tau inp.reset inp.probes (cycleFront env inp tau st).stmts
            ⟨st.nodes, st.depState, [], [], []⟩).nodes = .ok nodes4 ∧
      st' = { nodes := nodes4,
              depState := mergeRegNext
                (phase3 env tau inp.reset inp.probes (cycleFront env inp tau st).stmts
                  ⟨st.nodes, st.depState, [], [], []⟩).depState
                (phase3 env tau inp.reset inp.probes (cycleFront env inp tau st).stmts
                  ⟨st.nodes, st.depState, [], [], []⟩).regNext,
              snapshots := if (cycleFront env inp tau st).delayed.isEmpty then st.snapshots
                else aInsert st.snapshots tau
                  ((phase3 env tau inp.reset inp.probes (cycleFront env inp tau st).stmts
                    ⟨st.nodes, st.depState, [], [], []⟩).depState, inp.probes),
              delayedBuffer := (cycleFront env inp tau st).buffer,
              predValues := (cycleFront env inp tau st).predValues,
              criterionNode := scanCriterion crit nodes4
                (phase3 env tau inp.reset inp.probes (cycleFront env inp tau st).stmts
                  ⟨st.nodes, st.depState, [], [], []⟩).newNodes st.criterionNode,
              activationLog := st.activationLog ++
                (phase3 env tau inp.reset inp.probes (cycleFront env inp tau st).stmts
                  ⟨st.nodes, st.depState, [], [], []⟩).newNodes.map (·.2) } := by
  unfold processCycle at hok
  dsimp only at hok
  rcases h4 : phase4 env mode tau
      (phase3 env tau inp.reset inp.probes (cycleFront env inp tau st).stmts
        ⟨st.nodes, st.depState, [], [], []⟩).depState inp.probes
      (phase3 env tau inp.reset inp.probes (cycleFront env inp tau st).stmts
        ⟨st.nodes, st.depState, [], [], []⟩).cfProviders st.snapshots
      (phase3 env tau inp.reset inp.probes (cycleFront env inp tau st).stmts
        ⟨st.nodes, st.depState, [], [], []⟩).newNodes
      (phase3 env tau inp.reset inp.probes (cycleFront env inp tau st).stmts
        ⟨st.nodes, st.depState, [], [], []⟩).nodes with e | nodes4
  · rw [h4] at hok; cases hok
  · rw [h4] at hok
    simp only [Except.ok.injEq] at hok
    exact ⟨nodes4, rfl, hok.symm⟩

/-! ### C1 — delayed writes: enqueue, persistence and fire-cycle contexts -/

/-- C1: a statement with `assign_delay = delta > 0` CFG-activated at
corrected timestamp `tau` is (i) enqueued at `tau + delta` while the
snapshot Σ[tau] is stored; (ii) both the pending entry and any snapshot
under another key survive intermediate cycles; and (iii) at its fire cycle
its dynamic node is created and resolved by the edge loop whose *live*
table (used by `Data` edges) is the fire cycle's phase-3 `S` and whose
selected context (used by `Index` edges and edge conditions) is the
snapshot stored under `fire - delta`: every materialised `Data`
dependency comes from the fire cycle's live `S` and every materialised
`Index` dependency from the snapshotted `S`. -/
theorem delayed_write_resolution (env : StaticEnv) (mode : ProcessingMode)
    (crit : Criterion) :
    (∀ inp tau st st' s, processCycle env mode crit inp tau st = .ok st' →
      s ∈ (getActivatedStatements env st.predValues inp.changes).1 →
      (vtx env s).assignDelay ≠ 0 →
      (tau + (vtx env s).assignDelay, s) ∈ st'.delayedBuffer ∧
        aLookup st'.snapshots tau =
          some ((phase3 env tau inp.reset inp.probes (cycleFront env inp tau st).stmts
            ⟨st.nodes, st.depState, [], [], []⟩).depState, inp.probes)) ∧
    (∀ inp tau st st', processCycle env mode crit inp tau st = .ok st' →
      (∀ t s, (t, s) ∈ st.delayedBuffer → t ≠ tau → (t, s) ∈ st'.delayedBuffer) ∧
      (∀ k, k ≠ tau → aLookup st'.snapshots k = aLookup st.snapshots k)) ∧
    (∀ inp tau st st' s, processCycle env mode crit inp tau st = .ok st' →
      (tau, s) ∈ st.delayedBuffer →
      0 < (vtx env s).assignDelay →
      ∃ nid ctxS ctxP A,
        aLookup st.snapshots (tau - (vtx env s).assignDelay) = some (ctxS, ctxP) ∧
        (s, nid) ∈ (phase3 env tau inp.reset inp.probes (cycleFront env inp tau st).stmts
          ⟨st.nodes, st.depState, [], [], []⟩).newNodes ∧
        st'.nodes.get? nid = some ⟨vtx env s,
          (if (vtx env s).clocked then tau else i64SatSub1 tau) -
            (if resetApplies env tau inp.reset inp.probes s then 1 else 0),
          (resolveEdges env ⟨mode, tau,
              (phase3 env tau inp.reset inp.probes (cycleFront env inp tau st).stmts
                ⟨st.nodes, st.depState, [], [], []⟩).depState,
              (phase3 env tau inp.reset inp.probes (cycleFront env inp tau st).stmts
                ⟨st.nodes, st.depState, [], [], []⟩).cfProviders, ctxS, ctxP⟩
            (edgesFrom env s) A [] []).2⟩ ∧
        (∀ p, (p, EdgeKind.data) ∈ (resolveEdges env ⟨mode, tau,
              (phase3 env tau inp.reset inp.probes (cycleFront env inp tau st).stmts
                ⟨st.nodes, st.depState, [], [], []⟩).depState,
              (phase3 env tau inp.reset inp.probes (cycleFront env inp tau st).stmts
                ⟨st.nodes, st.depState, [], [], []⟩).cfProviders, ctxS, ctxP⟩
            (edgesFrom env s) A [] []).2 →
          ∃ a, aLookup (phase3 env tau inp.reset inp.probes
            (cycleFront env inp tau st).stmts
            ⟨st.nodes, st.depState, [], [], []⟩).depState a = some p) ∧
        (∀ p, (p, EdgeKind.index) ∈ (resolveEdges env ⟨mode, tau,
              (phase3 env tau inp.reset inp.probes (cycleFront env inp tau st).stmts
                ⟨st.nodes, st.depState, [], [], []⟩).depState,
              (phase3 env tau inp.reset inp.probes (cycleFront env inp tau st).stmts
                ⟨st.nodes, st.depState, [], [], []⟩).cfProviders, ctxS, ctxP⟩
            (edgesFrom env s) A [] []).2 →
          ∃ a, aLookup ctxS a = some p)) := by
  refine ⟨?_, ?_, ?_⟩
  · intro inp tau st st' s hok hact hdel
    obtain ⟨nodes4, h4, rfl⟩ := processCycle_ok_elim env mode crit inp tau st st' hok
    obtain ⟨hdmem, hbmem⟩ := cycleFront_enqueues env inp tau st s hact hdel
    constructor
    · exact hbmem
    · show aLookup (if (cycleFront env inp tau st).delayed.isEmpty then st.snapshots
        else aInsert st.snapshots tau _) tau = _
      rw [if_neg (by rw [isEmpty_false_of_mem hdmem]; exact Bool.false_ne_true)]
      rw [aLookup_aInsert, if_pos rfl]
  · intro inp tau st st' hok
    obtain ⟨nodes4, h4, rfl⟩ := processCycle_ok_elim env mode crit inp tau st st' hok
    constructor
    · intro t s hmem hne
      show (t, s) ∈ (cycleFront env inp tau st).buffer
      unfold cycleFront
      dsimp only
      apply List.mem_append_left
      apply List.mem_filter.mpr
      exact ⟨hmem, by simpa using hne⟩
    · intro k hk
      show aLookup (if (cycleFront env inp tau st).delayed.isEmpty then st.snapshots
        else aInsert st.snapshots tau _) k = _
      split
      · rfl
      · rw [aLookup_aInsert, if_neg hk]
  · intro inp tau st st' s hok hmem hdel
    obtain ⟨nodes4, h4, rfl⟩ := processCycle_ok_elim env mode crit inp tau st st' hok
    have hsplice := cycleFront_splices env inp tau st s hmem
    obtain ⟨nid, hnid⟩ := phase3_stmts_in_newNodes env tau inp.reset inp.probes
      (cycleFront env inp tau st).stmts ⟨st.nodes, st.depState, [], [], []⟩ s hsplice
    have hcontent := phase3_newNodes_content env tau inp.reset inp.probes
      (cycleFront env inp tau st).stmts ⟨st.nodes, st.depState, [], [], []⟩ (s, nid) hnid
    rcases hcontent with hcontent | hcontent
    · cases hcontent
    · obtain ⟨hnd, _⟩ := phase3_newNodes_nodup env tau inp.reset inp.probes
        (cycleFront env inp tau st).stmts ⟨st.nodes, st.depState, [], [], []⟩
        (by simp) (by intro sn h; cases h)
      obtain ⟨A, ctxS, ctxP, hA, hc1, hc2, hw⟩ := phase4_resolves_each env mode tau
        (phase3 env tau inp.reset inp.probes (cycleFront env inp tau st).stmts
          ⟨st.nodes, st.depState, [], [], []⟩).depState inp.probes
        (phase3 env tau inp.reset inp.probes (cycleFront env inp tau st).stmts
          ⟨st.nodes, st.depState, [], [], []⟩).cfProviders st.snapshots
        (phase3 env tau inp.reset inp.probes (cycleFront env inp tau st).stmts
          ⟨st.nodes, st.depState, [], [], []⟩).newNodes
        (phase3 env tau inp.reset inp.probes (cycleFront env inp tau st).stmts
          ⟨st.nodes, st.depState, [], [], []⟩).nodes nodes4 h4 hnd (s, nid) hnid _ hcontent
      refine ⟨nid, ctxS, ctxP, A, hc1 hdel, hnid, ?_, ?_, ?_⟩
      · exact hw
      · intro p hp
        rcases resolveEdges_deps_sources env _ (edgesFrom env s) A [] [] (p, .data) hp with
          h | h | h | h | h
        · cases h
        · exact h.2
        · cases h.1
        · cases h.1
        · cases h.1
      · intro p hp
        rcases resolveEdges_deps_sources env _ (edgesFrom env s) A [] [] (p, .index) hp with
          h | h | h | h | h
        · cases h
        · cases h.1
        · exact h.2
        · cases h.1
        · cases h.1

/-- The state after cycle 0 of the register-plus-memory program. -/
def c1st1 : BuilderState :=
  (processCycle envRegMem .normal (.signal "q") inpNil 0
    (initBuilderState envRegMem)).toOption.getD (initBuilderState envRegMem)

/-- The state after cycle 1 (where the delayed write fires). -/
def c1st2 : BuilderState :=
  (processCycle envRegMem .normal (.signal "q") inpNil 1 c1st1).toOption.getD
    (initBuilderState envRegMem)

/-- Witness for `delayed_write_resolution`: in the register-plus-memory
program the delayed statement 1 is enqueued at cycle 0 and fires at
cycle 1. -/
theorem delayed_write_resolution_witness :
    (((0 : Int) + (vtx envRegMem 1).assignDelay, 1) ∈ c1st1.delayedBuffer ∧
      aLookup c1st1.snapshots 0 =
        some ((phase3 envRegMem 0 inpNil.reset inpNil.probes
          (cycleFront envRegMem inpNil 0 (initBuilderState envRegMem)).stmts
          ⟨(initBuilderState envRegMem).nodes, (initBuilderState envRegMem).depState,
            [], [], []⟩).depState, inpNil.probes)) ∧
    (∃ nid ctxS ctxP A,
      aLookup c1st1.snapshots (1 - (vtx envRegMem 1).assignDelay) = some (ctxS, ctxP) ∧
      (1, nid) ∈ (phase3 envRegMem 1 inpNil.reset inpNil.probes
        (cycleFront envRegMem inpNil 1 c1st1).stmts
        ⟨c1st1.nodes, c1st1.depState, [], [], []⟩).newNodes ∧
      c1st2.nodes.get? nid = some ⟨vtx envRegMem 1,
        (if (vtx envRegMem 1).clocked then 1 else i64SatSub1 1) -
          (if resetApplies envRegMem 1 inpNil.reset inpNil.probes 1 then 1 else 0),
        (resolveEdges envRegMem ⟨.normal, 1,
            (phase3 envRegMem 1 inpNil.reset inpNil.probes
              (cycleFront envRegMem inpNil 1 c1st1).stmts
              ⟨c1st1.nodes, c1st1.depState, [], [], []⟩).depState,
            (phase3 envRegMem 1 inpNil.reset inpNil.probes
              (cycleFront envRegMem inpNil 1 c1st1).stmts
              ⟨c1st1.nodes, c1st1.depState, [], [], []⟩).cfProviders, ctxS, ctxP⟩
          (edgesFrom envRegMem 1) A [] []).2⟩ ∧
      (∀ p, (p, EdgeKind.data) ∈ (resolveEdges envRegMem ⟨.normal, 1,
            (phase3 envRegMem 1 inpNil.reset inpNil.probes
              (cycleFront envRegMem inpNil 1 c1st1).stmts
              ⟨c1st1.nodes, c1st1.depState, [], [], []⟩).depState,
            (phase3 envRegMem 1 inpNil.reset inpNil.probes
              (cycleFront envRegMem inpNil 1 c1st1).stmts
              ⟨c1st1.nodes, c1st1.depState, [], [], []⟩).cfProviders, ctxS, ctxP⟩
          (edgesFrom envRegMem 1) A [] []).2 →
        ∃ a, aLookup (phase3 envRegMem 1 inpNil.reset inpNil.probes
          (cycleFront envRegMem inpNil 1 c1st1).stmts
          ⟨c1st1.nodes, c1st1.depState, [], [], []⟩).depState a = some p) ∧
      (∀ p, (p, EdgeKind.index) ∈ (resolveEdges envRegMem ⟨.normal, 1,
            (phase3 envRegMem 1 inpNil.reset inpNil.probes
              (cycleFront envRegMem inpNil 1 c1st1).stmts
              ⟨c1st1.nodes, c1st1.depState, [], [], []⟩).depState,
            (phase3 envRegMem 1 inpNil.reset inpNil.probes
              (cycleFront envRegMem inpNil 1 c1st1).stmts
              ⟨c1st1.nodes, c1st1.depState, [], [], []⟩).cfProviders, ctxS, ctxP⟩
          (edgesFrom envRegMem 1) A [] []).2 →
        ∃ a, aLookup ctxS a = some p)) :=
  ⟨(delayed_write_resolution envRegMem .normal (.signal "q")).1 inpNil 0
      (initBuilderState envRegMem) c1st1 1 rfl (by decide) (by decide),
    (delayed_write_resolution envRegMem .normal (.signal "q")).2.2 inpNil 1 c1st1 c1st2
      1 rfl (by decide) (by decide)⟩

/-! ### C5 — the timestamp invariant (I-Time) -/

/-- The amended I-Time relation between a consumer `d`, one of its
providers `p` and the edge kind: `Data`, `Index` and `Declaration`
dependencies never go forward in time; `Data` dependencies of clocked
non-`DataDefinition` consumers go strictly backward; `Conditional`
dependencies never go forward unless the provider is a clocked
control-flow node feeding a consumer that is non-clocked or a
reset-decremented `DataDefinition`. -/
def depOk (d p : DynNode) (k : EdgeKind) : Prop :=
  ((k = EdgeKind.data ∨ k = EdgeKind.index ∨ k = EdgeKind.declaration) →
    p.timestamp ≤ d.timestamp) ∧
  (k = EdgeKind.data → d.spec.clocked = true → d.spec.kind ≠ NodeKind.dataDefinition →
    p.timestamp < d.timestamp) ∧
  (k = EdgeKind.conditional →
    (p.spec.clocked = false ∨
      (d.spec.clocked = true ∧ d.spec.kind ≠ NodeKind.dataDefinition)) →
    p.timestamp ≤ d.timestamp)

/-- Every dependency of every arena node points at an existing node and
satisfies the amended I-Time relation. -/
def NodesOk (nodes : List DynNode) : Prop :=
  ∀ j d, nodes.get? j = some d → ∀ pk ∈ d.deps,
    ∃ p, nodes.get? pk.1 = some p ∧ depOk d p pk.2

/-- Every binding of a symbol table points at an existing node whose
timestamp is at most `b`. -/
def EntryBound (nodes : List DynNode) (m : SymTab) (b : Int) : Prop :=
  ∀ a i, aLookup m a = some i → ∃ d, nodes.get? i = some d ∧ d.timestamp ≤ b

/-- Every control-flow provider of the cycle is a clocked node at `tau` or
a non-clocked node at `tau - 1`. -/
def CfBound (nodes : List DynNode) (cf : List (SpecNode × Nat)) (tau : Int) : Prop :=
  ∀ v i, aLookup cf v = some i → ∃ d, nodes.get? i = some d ∧
    ((d.spec.clocked = true ∧ d.timestamp = tau) ∨
      (d.spec.clocked = false ∧ d.timestamp = tau - 1))

/-- Every snapshot key is at most `b` and its table is bounded by the key
minus one. -/
def SnapBound (nodes : List DynNode) (snapshots : List (Int × (SymTab × ProbeTab)))
    (b : Int) : Prop :=
  ∀ t sp, aLookup snapshots t = some sp → t ≤ b ∧ EntryBound nodes sp.1 (t - 1)

/-- Arena refinement: every existing slot keeps its spec and timestamp
(its dependency list may be filled in). -/
def Refines (nodes nodes' : List DynNode) : Prop :=
  ∀ i pre, nodes.get? i = some pre → ∃ post, nodes'.get? i = some post ∧
    post.spec = pre.spec ∧ post.timestamp = pre.timestamp

theorem Refines.refl (nodes : List DynNode) : Refines nodes nodes :=
  fun _ pre h => ⟨pre, h, Eq.refl _, Eq.refl _⟩

theorem Refines.trans {n1 n2 n3 : List DynNode} (h1 : Refines n1 n2) (h2 : Refines n2 n3) :
    Refines n1 n3 := by
  intro i pre h
  obtain ⟨mid, hm, hs, ht⟩ := h1 i pre h
  obtain ⟨post, hp, hs', ht'⟩ := h2 i mid hm
  exact ⟨post, hp, hs'.trans hs, ht'.trans ht⟩

theorem EntryBound.entry_mono {nodes : List DynNode} {m : SymTab} {b b' : Int}
    (h : EntryBound nodes m b) (hb : b ≤ b') : EntryBound nodes m b' := by
  intro a i hi
  obtain ⟨d, hd, hts⟩ := h a i hi
  exact ⟨d, hd, hts.trans hb⟩

theorem EntryBound.entry_refines {nodes nodes' : List DynNode} {m : SymTab} {b : Int}
    (h : EntryBound nodes m b) (hr : Refines nodes nodes') : EntryBound nodes' m b := by
  intro a i hi
  obtain ⟨d, hd, hts⟩ := h a i hi
  obtain ⟨post, hp, _, ht⟩ := hr i d hd
  exact ⟨post, hp, by rw [ht]; exact hts⟩

theorem CfBound.cf_refines {nodes nodes' : List DynNode} {cf : List (SpecNode × Nat)}
    {tau : Int} (h : CfBound nodes cf tau) (hr : Refines nodes nodes') :
    CfBound nodes' cf tau := by
  intro v i hi
  obtain ⟨d, hd, hc⟩ := h v i hi
  obtain ⟨post, hp, hs, ht⟩ := hr i d hd
  exact ⟨post, hp, by rw [hs, ht]; exact hc⟩

theorem SnapBound.snap_refines {nodes nodes' : List DynNode}
    {snapshots : List (Int × (SymTab × ProbeTab))} {b : Int}
    (h : SnapBound nodes snapshots b) (hr : Refines nodes nodes') :
    SnapBound nodes' snapshots b := by
  intro t sp hsp
  obtain ⟨ht, he⟩ := h t sp hsp
  exact ⟨ht, he.entry_refines hr⟩

theorem SnapBound.snap_mono {nodes : List DynNode}
    {snapshots : List (Int × (SymTab × ProbeTab))} {b b' : Int}
    (h : SnapBound nodes snapshots b) (hb : b ≤ b') : SnapBound nodes snapshots b' := by
  intro t sp hsp
  obtain ⟨ht, he⟩ := h t sp hsp
  exact ⟨ht.trans hb, he⟩

/-- depOk only looks at the provider's spec and timestamp and the
consumer's spec and timestamp. -/
theorem depOk_congr {d d' p p' : DynNode} {k : EdgeKind} (h : depOk d p k)
    (hds : d'.spec = d.spec) (hdt : d'.timestamp = d.timestamp)
    (hps : p'.spec = p.spec) (hpt : p'.timestamp = p.timestamp) : depOk d' p' k := by
  unfold depOk at h ⊢
  rw [hds, hdt, hps, hpt]
  exact h

/-- Every slot the edge loop appends is a fresh `Declaration` singleton:
timestamp `tau - 1` and no dependencies. -/
theorem resolveEdges_appended_content (env : StaticEnv) (cx : Phase4Ctx)
    (es : List SpecEdge) :
    ∀ nodes processed deps j d, nodes.length ≤ j →
      (resolveEdges env cx es nodes processed deps).1.get? j = some d →
      d.timestamp = cx.tau - 1 ∧ d.deps = [] := by
  induction es with
  | nil =>
    intro nodes processed deps j d hj hget
    have hred : (resolveEdges env cx [] nodes processed deps).1 = nodes := rfl
    rw [hred] at hget
    exact absurd (lt_length_of_get?_eq_some hget) (by omega)
  | cons e es ih =>
    intro nodes processed deps j d hj hget
    have hred : resolveEdges env cx (e :: es) nodes processed deps =
        resolveEdges env cx es (resolveEdgeStep env cx e nodes processed deps).1
          (resolveEdgeStep env cx e nodes processed deps).2.1
          (resolveEdgeStep env cx e nodes processed deps).2.2 := rfl
    rw [hred] at hget
    rcases resolveEdgeStep_nodes env cx e nodes processed deps with h2 | h2
    · exact ih _ _ _ j d (by rw [h2]; exact hj) hget
    · by_cases hjl : (resolveEdgeStep env cx e nodes processed deps).1.length ≤ j
      · exact ih _ _ _ j d hjl hget
      · obtain ⟨ext, hext⟩ := resolveEdges_nodes_append env cx es
          (resolveEdgeStep env cx e nodes processed deps).1
          (resolveEdgeStep env cx e nodes processed deps).2.1
          (resolveEdgeStep env cx e nodes processed deps).2.2
        rw [hext, List.get?_append (by omega)] at hget
        rw [h2] at hget hjl
        simp only [List.length_append, List.length_cons, List.length_nil] at hjl
        have hje : j = nodes.length := by omega
        rw [hje, get?_snoc_self] at hget
        cases hget
        exact ⟨rfl, rfl⟩

/-- The timestamp discipline of a phase-3 consumer node at corrected
timestamp `tau`. -/
def ConsumerTs (d : DynNode) (tau : Int) : Prop :=
  tau - 1 ≤ d.timestamp ∧ d.timestamp ≤ tau ∧
    (d.spec.clocked = true → d.spec.kind ≠ NodeKind.dataDefinition → d.timestamp = tau)

/-- One `resolveNode` call preserves the I-Time invariant: the newly
materialised dependencies all satisfy `depOk` against the consumer. -/
theorem resolveNode_nodesOk (env : StaticEnv) (mode : ProcessingMode) (tau : Int)
    (liveS : SymTab) (liveProbes : ProbeTab) (cf : List (SpecNode × Nat))
    (snapshots : List (Int × (SymTab × ProbeTab))) (nodes nodes' : List DynNode)
    (sn : Nat × Nat) (d0 : DynNode)
    (hok : resolveNode env mode tau liveS liveProbes cf snapshots nodes sn = .ok nodes')
    (hd0 : nodes.get? sn.2 = some d0)
    (hcts : ConsumerTs d0 tau)
    (hEB : EntryBound nodes liveS (tau - 1))
    (hCf : CfBound nodes cf tau)
    (hSnap : SnapBound nodes snapshots (tau - 1))
    (hN : NodesOk nodes) :
    NodesOk nodes' ∧ Refines nodes nodes' := by
  have hlt : sn.2 < nodes.length := lt_length_of_get?_eq_some hd0
  unfold resolveNode at hok
  dsimp only at hok
  have hmain : ∃ cS cP, EntryBound nodes cS (tau - 1) ∧
      nodes' = ((resolveEdges env ⟨mode, tau, liveS, cf, cS, cP⟩
          (edgesFrom env sn.1) nodes [] []).1.set sn.2
        ⟨(((resolveEdges env ⟨mode, tau, liveS, cf, cS, cP⟩
            (edgesFrom env sn.1) nodes [] []).1.get? sn.2).getD default).spec,
          (((resolveEdges env ⟨mode, tau, liveS, cf, cS, cP⟩
            (edgesFrom env sn.1) nodes [] []).1.get? sn.2).getD default).timestamp,
          (resolveEdges env ⟨mode, tau, liveS, cf, cS, cP⟩
            (edgesFrom env sn.1) nodes [] []).2⟩) := by
    by_cases hdel : (vtx env sn.1).assignDelay > 0
    · rw [if_pos hdel] at hok
      rcases hlk : aLookup snapshots (tau - ((vtx env sn.1).assignDelay : Int)) with _ | sp
      · rw [hlk] at hok; cases hok
      · obtain ⟨cS, cP⟩ := sp
        rw [hlk] at hok
        dsimp only at hok
        simp only [Except.ok.injEq] at hok
        obtain ⟨ht, he⟩ := hSnap _ _ hlk
        exact ⟨cS, cP, he.entry_mono (by omega), hok.symm⟩
    · rw [if_neg hdel] at hok
      dsimp only at hok
      simp only [Except.ok.injEq] at hok
      exact ⟨liveS, liveProbes, hEB, hok.symm⟩
  obtain ⟨cS, cP, hEBctx, rfl⟩ := hmain
  set r := resolveEdges env ⟨mode, tau, liveS, cf, cS, cP⟩ (edgesFrom env sn.1) nodes [] []
    with hr
  obtain ⟨ext, hext⟩ := resolveEdges_nodes_append env
    ⟨mode, tau, liveS, cf, cS, cP⟩ (edgesFrom env sn.1) nodes [] []
  have hrlen : nodes.length ≤ r.1.length := by rw [← hr] at hext; rw [hext]; simp
  have hrget : ∀ i, i < nodes.length → r.1.get? i = nodes.get? i := by
    intro i hi
    rw [← hr] at hext
    rw [hext, List.get?_append hi]
  have hrd0 : r.1.get? sn.2 = some d0 := by rw [hrget sn.2 hlt]; exact hd0
  have hgetd : (r.1.get? sn.2).getD default = d0 := by rw [hrd0]; rfl
  rw [hgetd]
  have href : Refines nodes (r.1.set sn.2 ⟨d0.spec, d0.timestamp, r.2⟩) := by
    intro i pre hpre
    by_cases hi : i = sn.2
    · subst hi
      rw [hd0] at hpre
      cases hpre
      exact ⟨⟨d0.spec, d0.timestamp, r.2⟩,
        by rw [List.get?_set_eq_of_lt _ (by omega)], rfl, rfl⟩
    · exact ⟨pre, by
        rw [List.get?_set_ne _ _ (fun he => hi he.symm), hrget i
          (lt_length_of_get?_eq_some hpre)]
        exact hpre, rfl, rfl⟩
  refine ⟨?_, href⟩
  intro j d hget pk hpk
  obtain ⟨pid, k⟩ := pk
  by_cases hj : j = sn.2
  · subst hj
    rw [List.get?_set_eq_of_lt _ (by omega)] at hget
    cases hget
    rcases resolveEdges_deps_sources env ⟨mode, tau, liveS, cf, cS, cP⟩
        (edgesFrom env sn.1) nodes [] [] (pid, k) hpk with
      h | ⟨hk, a, ha⟩ | ⟨hk, a, ha⟩ | ⟨hk, v, hv⟩ | ⟨hk, hb, d1, hd1, hts1, hdeps1⟩
    · cases h
    · subst hk
      obtain ⟨p, hp, hts⟩ := hEB a pid ha
      obtain ⟨p', hp', hps, hpt⟩ := href pid p hp
      refine ⟨p', hp', ?_, ?_, ?_⟩
      · intro _
        show p'.timestamp ≤ d0.timestamp
        rw [hpt]
        exact le_trans hts hcts.1
      · intro _ hclk hkind
        show p'.timestamp < d0.timestamp
        rw [hpt, hcts.2.2 hclk hkind]
        omega
      · intro hc
        cases hc
    · subst hk
      obtain ⟨p, hp, hts⟩ := hEBctx a pid ha
      obtain ⟨p', hp', hps, hpt⟩ := href pid p hp
      refine ⟨p', hp', ?_, ?_, ?_⟩
      · intro _
        show p'.timestamp ≤ d0.timestamp
        rw [hpt]
        exact le_trans hts hcts.1
      · intro hd
        cases hd
      · intro hc
        cases hc
    · subst hk
      obtain ⟨p, hp, hc⟩ := hCf v pid hv
      obtain ⟨p', hp', hps, hpt⟩ := href pid p hp
      refine ⟨p', hp', ?_, ?_, ?_⟩
      · intro hd
        rcases hd with hd | hd | hd <;> cases hd
      · intro hd
        cases hd
      · intro _ hguard
        show p'.timestamp ≤ d0.timestamp
        rw [hpt]
        rcases hguard with hg | hg
        · rw [hps] at hg
          rcases hc with ⟨hc1, _⟩ | ⟨_, hc2⟩
          · rw [hg] at hc1; cases hc1
          · rw [hc2]; exact hcts.1
        · rw [hcts.2.2 hg.1 hg.2]
          rcases hc with ⟨_, hc2⟩ | ⟨_, hc2⟩ <;> rw [hc2] <;> omega
    · subst hk
      have hne : pid ≠ sn.2 := by omega
      refine ⟨d1, ?_, ?_, ?_, ?_⟩
      · rw [List.get?_set_ne _ _ (fun he => hne he.symm)]
        exact hd1
      · intro _
        show d1.timestamp ≤ d0.timestamp
        rw [hts1]
        exact hcts.1
      · intro hd
        cases hd
      · intro hc
        cases hc
  · rw [List.get?_set_ne _ _ (fun he => hj he.symm)] at hget
    by_cases hjl : j < nodes.length
    · rw [hrget j hjl] at hget
      obtain ⟨p, hp, hdep⟩ := hN j d hget (pid, k) hpk
      obtain ⟨p', hp', hps, hpt⟩ := href pid p hp
      exact ⟨p', hp', depOk_congr hdep rfl rfl hps hpt⟩
    · obtain ⟨_, hdeps⟩ := resolveEdges_appended_content env
        ⟨mode, tau, liveS, cf, cS, cP⟩ (edgesFrom env sn.1) nodes [] [] j d
        (by omega) hget
      rw [hdeps] at hpk
      cases hpk

/-- Phase 4 over all consumers preserves the I-Time invariant. -/
theorem phase4_nodesOk (env : StaticEnv) (mode : ProcessingMode) (tau : Int)
    (liveS : SymTab) (liveProbes : ProbeTab) (cf : List (SpecNode × Nat))
    (snapshots : List (Int × (SymTab × ProbeTab))) (sns : List (Nat × Nat)) :
    ∀ nodes nodes',
      phase4 env mode tau liveS liveProbes cf snapshots sns nodes = .ok nodes' →
      (∀ sn ∈ sns, ∃ d0, nodes.get? sn.2 = some d0 ∧ ConsumerTs d0 tau) →
      EntryBound nodes liveS (tau - 1) → CfBound nodes cf tau →
      SnapBound nodes snapshots (tau - 1) → NodesOk nodes →
      NodesOk nodes' ∧ Refines nodes nodes' := by
  induction sns with
  | nil =>
    intro nodes nodes' hok _ _ _ _ hN
    unfold phase4 at hok
    simp only [Except.ok.injEq] at hok
    subst hok
    exact ⟨hN, Refines.refl nodes⟩
  | cons sn rest ih =>
    intro nodes nodes' hok hcons hEB hCf hSnap hN
    unfold phase4 at hok
    rcases h1 : resolveNode env mode tau liveS liveProbes cf snapshots nodes sn with e | nodes1
    · rw [h1] at hok; cases hok
    · rw [h1] at hok
      obtain ⟨d0, hd0, hcts⟩ := hcons sn (List.mem_cons_self sn rest)
      obtain ⟨hN1, href1⟩ := resolveNode_nodesOk env mode tau liveS liveProbes cf snapshots
        nodes nodes1 sn d0 h1 hd0 hcts hEB hCf hSnap hN
      have hcons1 : ∀ x ∈ rest, ∃ d0, nodes1.get? x.2 = some d0 ∧ ConsumerTs d0 tau := by
        intro x hx
        obtain ⟨dx, hdx, hctsx⟩ := hcons x (List.mem_cons_of_mem sn hx)
        obtain ⟨post, hp, hs, ht⟩ := href1 x.2 dx hdx
        refine ⟨post, hp, ?_, ?_, ?_⟩
        · rw [ht]; exact hctsx.1
        · rw [ht]; exact hctsx.2.1
        · intro hc hk
          rw [hs] at hc hk
          rw [ht]
          exact hctsx.2.2 hc hk
      obtain ⟨hN', href2⟩ := ih nodes1 nodes' hok hcons1 (hEB.entry_refines href1)
        (hCf.cf_refines href1) (hSnap.snap_refines href1) hN1
      exact ⟨hN', href1.trans href2⟩

theorem Refines.append (nodes ext : List DynNode) : Refines nodes (nodes ++ ext) := by
  intro i pre h
  exact ⟨pre, by rw [List.get?_append (lt_length_of_get?_eq_some h)]; exact h, rfl, rfl⟩

theorem NodesOk_snoc {nodes : List DynNode} {nd : DynNode} (hN : NodesOk nodes)
    (hdeps : nd.deps = []) : NodesOk (nodes ++ [nd]) := by
  intro j d hget pk hpk
  by_cases hj : j = nodes.length
  · subst hj
    rw [get?_snoc_self] at hget
    cases hget
    rw [hdeps] at hpk
    cases hpk
  · rw [get?_snoc_ne _ _ _ hj] at hget
    obtain ⟨p, hp, hdep⟩ := hN j d hget pk hpk
    exact ⟨p, by rw [List.get?_append (lt_length_of_get?_eq_some hp)]; exact hp, hdep⟩

/-- How one phase-3 step changes the three provider tables: each lookup is
unchanged or names the newly created node, whose timestamp then satisfies
the table's discipline (`tau - 1` for an immediate `S` write, `tau` for a
deferred register, and clocked-`tau` / non-clocked-`tau - 1` for a
control-flow provider). -/
theorem phase3Step_tables (env : StaticEnv) (tau : Int) (reset : VcdValue)
    (probes : ProbeTab) (acc : CycleAcc) (s : Nat) (htau : 0 ≤ tau) :
    (∀ a, aLookup (phase3Step env tau reset probes acc s).depState a =
        aLookup acc.depState a ∨
      (aLookup (phase3Step env tau reset probes acc s).depState a =
          some acc.nodes.length ∧
        ∃ nd, (phase3Step env tau reset probes acc s).nodes.get? acc.nodes.length =
            some nd ∧ nd.timestamp = tau - 1)) ∧
    (∀ a, aLookup (phase3Step env tau reset probes acc s).regNext a =
        aLookup acc.regNext a ∨
      (aLookup (phase3Step env tau reset probes acc s).regNext a =
          some acc.nodes.length ∧
        ∃ nd, (phase3Step env tau reset probes acc s).nodes.get? acc.nodes.length =
            some nd ∧ nd.timestamp = tau)) ∧
    (∀ v, aLookup (phase3Step env tau reset probes acc s).cfProviders v =
        aLookup acc.cfProviders v ∨
      (aLookup (phase3Step env tau reset probes acc s).cfProviders v =
          some acc.nodes.length ∧
        ∃ nd, (phase3Step env tau reset probes acc s).nodes.get? acc.nodes.length =
            some nd ∧
          ((nd.spec.clocked = true ∧ nd.timestamp = tau) ∨
            (nd.spec.clocked = false ∧ nd.timestamp = tau - 1)))) := by
  unfold phase3Step
  try dsimp only
  by_cases hcond : evalCond (vtx env s).condition probes
  · simp only [hcond, if_true]
    rcases hassign : (vtx env s).assignsTo with _ | symb
    · have hra : ¬resetApplies env tau reset probes s := by
        intro h
        unfold resetApplies at h
        rw [hassign] at h
        simp at h
      by_cases hcf : (vtx env s).kind = NodeKind.controlFlow
      · simp only [hcf, if_true]
        refine ⟨fun a => Or.inl (by simp), fun a => Or.inl (by simp), fun v => ?_⟩
        try dsimp only
        rw [aLookup_aInsert]
        by_cases hv : v = vtx env s
        · rw [if_pos hv]
          refine Or.inr ⟨rfl, _, get?_snoc_self _ _, ?_⟩
          by_cases hclk : (vtx env s).clocked
          · exact Or.inl ⟨hclk, by dsimp only; rw [if_pos hclk]⟩
          · refine Or.inr ⟨by simpa using hclk, ?_⟩
            try dsimp only
            rw [if_neg hclk, i64SatSub1_of_nonneg htau]
        · rw [if_neg hv]
          exact Or.inl (by simp)
      · simp only [hcf, if_false]
        exact ⟨fun a => Or.inl (by simp), fun a => Or.inl (by simp), fun v => Or.inl (by simp)⟩
    · by_cases hclk : (vtx env s).clocked
      · simp only [hclk, if_true]
        by_cases hdd : (vtx env s).kind = NodeKind.dataDefinition
        · simp only [hdd, if_true]
          have hncf : ¬(vtx env s).kind = NodeKind.controlFlow := by
            rw [hdd]; intro h; cases h
          by_cases hrst : tau = 0 ∨ reset = VcdValue.v1
          · simp only [hrst, if_true, hncf, if_false]
            rw [if_neg (by decide : ¬(NodeKind.dataDefinition = NodeKind.controlFlow))]
            refine ⟨fun a => ?_, fun a => Or.inl (by simp), fun v => Or.inl (by simp)⟩
            try dsimp only
            rw [aLookup_aInsert]
            by_cases ha : a = symb
            · rw [if_pos ha]
              refine Or.inr ⟨rfl, ⟨vtx env s, tau - 1, []⟩, ?_, rfl⟩
              rw [set_snoc_self, get?_snoc_self]
            · rw [if_neg ha]
              exact Or.inl (by simp)
          · simp only [hrst, if_false, hncf]
            exact ⟨fun a => Or.inl (by simp), fun a => Or.inl (by simp), fun v => Or.inl (by simp)⟩
        · simp only [hdd, if_false]
          have hra : ¬resetApplies env tau reset probes s := by
            intro h
            exact hdd h.2.2.2.1
          by_cases hcf : (vtx env s).kind = NodeKind.controlFlow
          · simp only [hcf, if_true]
            refine ⟨fun a => Or.inl (by simp), fun a => ?_, fun v => ?_⟩
            · try dsimp only
              rw [aLookup_aInsert]
              by_cases ha : a = symb
              · rw [if_pos ha]
                exact Or.inr ⟨rfl, _, get?_snoc_self _ _, rfl⟩
              · rw [if_neg ha]
                exact Or.inl (by simp)
            · try dsimp only
              rw [aLookup_aInsert]
              by_cases hv : v = vtx env s
              · rw [if_pos hv]
                exact Or.inr ⟨rfl, _, get?_snoc_self _ _, Or.inl ⟨hclk, rfl⟩⟩
              · rw [if_neg hv]
                exact Or.inl (by simp)
          · simp only [hcf, if_false]
            refine ⟨fun a => Or.inl (by simp), fun a => ?_, fun v => Or.inl (by simp)⟩
            try dsimp only
            rw [aLookup_aInsert]
            by_cases ha : a = symb
            · rw [if_pos ha]
              exact Or.inr ⟨rfl, _, get?_snoc_self _ _, rfl⟩
            · rw [if_neg ha]
              exact Or.inl (by simp)
      · simp only [hclk, Bool.false_eq_true, if_false]
        have hra : ¬resetApplies env tau reset probes s := by
          intro h
          rw [h.2.2.1] at hclk
          exact hclk rfl
        by_cases hcf : (vtx env s).kind = NodeKind.controlFlow
        · simp only [hcf, if_true]
          refine ⟨fun a => ?_, fun a => Or.inl (by simp), fun v => ?_⟩
          · try dsimp only
            rw [aLookup_aInsert]
            by_cases ha : a = symb
            · rw [if_pos ha]
              refine Or.inr ⟨rfl, _, get?_snoc_self _ _, ?_⟩
              try dsimp only
              exact i64SatSub1_of_nonneg htau
            · rw [if_neg ha]
              exact Or.inl (by simp)
          · try dsimp only
            rw [aLookup_aInsert]
            by_cases hv : v = vtx env s
            · rw [if_pos hv]
              refine Or.inr ⟨rfl, _, get?_snoc_self _ _,
                Or.inr ⟨by simpa using hclk, ?_⟩⟩
              try dsimp only
              exact i64SatSub1_of_nonneg htau
            · rw [if_neg hv]
              exact Or.inl (by simp)
        · simp only [hcf, if_false]
          refine ⟨fun a => ?_, fun a => Or.inl (by simp), fun v => Or.inl (by simp)⟩
          try dsimp only
          rw [aLookup_aInsert]
          by_cases ha : a = symb
          · rw [if_pos ha]
            refine Or.inr ⟨rfl, _, get?_snoc_self _ _, ?_⟩
            try dsimp only
            exact i64SatSub1_of_nonneg htau
          · rw [if_neg ha]
            exact Or.inl (by simp)
  · simp only [hcond, if_false]
    exact ⟨fun a => Or.inl (by simp), fun a => Or.inl (by simp), fun v => Or.inl (by simp)⟩

/-- Phase 3 preserves the table disciplines and the I-Time invariant. -/
theorem phase3_inv (env : StaticEnv) (tau : Int) (reset : VcdValue) (probes : ProbeTab)
    (stmts : List Nat) (htau : 0 ≤ tau) :
    ∀ acc : CycleAcc,
      EntryBound acc.nodes acc.depState (tau - 1) →
      EntryBound acc.nodes acc.regNext tau →
      CfBound acc.nodes acc.cfProviders tau →
      NodesOk acc.nodes →
      EntryBound (phase3 env tau reset probes stmts acc).nodes
          (phase3 env tau reset probes stmts acc).depState (tau - 1) ∧
        EntryBound (phase3 env tau reset probes stmts acc).nodes
          (phase3 env tau reset probes stmts acc).regNext tau ∧
        CfBound (phase3 env tau reset probes stmts acc).nodes
          (phase3 env tau reset probes stmts acc).cfProviders tau ∧
        NodesOk (phase3 env tau reset probes stmts acc).nodes := by
  induction stmts with
  | nil => intro acc h1 h2 h3 h4; exact ⟨h1, h2, h3, h4⟩
  | cons s ss ih =>
    intro acc h1 h2 h3 h4
    obtain ⟨hS, hR, hC⟩ := phase3Step_tables env tau reset probes acc s htau
    have hnodes := phase3Step_nodes_eq env tau reset probes acc s
    have href : Refines acc.nodes (phase3Step env tau reset probes acc s).nodes := by
      rw [hnodes]
      exact Refines.append _ _
    refine ih (phase3Step env tau reset probes acc s) ?_ ?_ ?_ ?_
    · intro a i hlk
      rcases hS a with h | ⟨heq, nd, hget, hts⟩
      · rw [h] at hlk
        obtain ⟨d, hd, hb⟩ := h1 a i hlk
        obtain ⟨post, hp, _, ht⟩ := href i d hd
        exact ⟨post, hp, by rw [ht]; exact hb⟩
      · rw [heq] at hlk
        cases hlk
        exact ⟨nd, hget, le_of_eq hts⟩
    · intro a i hlk
      rcases hR a with h | ⟨heq, nd, hget, hts⟩
      · rw [h] at hlk
        obtain ⟨d, hd, hb⟩ := h2 a i hlk
        obtain ⟨post, hp, _, ht⟩ := href i d hd
        exact ⟨post, hp, by rw [ht]; exact hb⟩
      · rw [heq] at hlk
        cases hlk
        exact ⟨nd, hget, le_of_eq hts⟩
    · intro v i hlk
      rcases hC v with h | ⟨heq, nd, hget, hts⟩
      · rw [h] at hlk
        obtain ⟨d, hd, hb⟩ := h3 v i hlk
        obtain ⟨post, hp, hs, ht⟩ := href i d hd
        exact ⟨post, hp, by rw [hs, ht]; exact hb⟩
      · rw [heq] at hlk
        cases hlk
        exact ⟨nd, hget, hts⟩
    · rw [hnodes]
      exact NodesOk_snoc h4 rfl

/-- The consumer-timestamp discipline of every phase-3 node. -/
theorem phase3_consumerTs (env : StaticEnv) (tau : Int) (reset : VcdValue)
    (probes : ProbeTab) (stmts : List Nat) (acc : CycleAcc) (htau : 0 ≤ tau) :
    ∀ sn ∈ (phase3 env tau reset probes stmts acc).newNodes,
      sn ∈ acc.newNodes ∨
      ∃ d0, (phase3 env tau reset probes stmts acc).nodes.get? sn.2 = some d0 ∧
        ConsumerTs d0 tau := by
  intro sn hsn
  rcases phase3_newNodes_content env tau reset probes stmts acc sn hsn with h | h
  · exact Or.inl h
  · right
    refine ⟨_, h, ?_, ?_, ?_⟩
    · dsimp only
      by_cases hclk : (vtx env sn.1).clocked
      · rw [if_pos hclk]
        split <;> omega
      · rw [if_neg hclk, i64SatSub1_of_nonneg htau]
        rw [if_neg (fun hra => hclk hra.2.2.1)]
        omega
    · dsimp only
      by_cases hclk : (vtx env sn.1).clocked
      · rw [if_pos hclk]
        split <;> omega
      · rw [if_neg hclk, i64SatSub1_of_nonneg htau]
        split <;> omega
    · intro hclk hkind
      dsimp only at hclk hkind ⊢
      rw [if_pos hclk, if_neg (fun hra => hkind hra.2.2.2.1)]
      omega

/-- The run-level invariant carried from cycle to cycle. -/
def RunInv (st : BuilderState) (tau : Int) : Prop :=
  0 ≤ tau ∧ NodesOk st.nodes ∧ EntryBound st.nodes st.depState (tau - 1) ∧
    SnapBound st.nodes st.snapshots (tau - 1)

theorem processCycle_runInv (env : StaticEnv) (mode : ProcessingMode) (crit : Criterion)
    (inp : CycleInput) (tau : Int) (st st' : BuilderState)
    (hok : processCycle env mode crit inp tau st = .ok st')
    (hinv : RunInv st tau) : RunInv st' (tau + 1) := by
  obtain ⟨htau, hN, hS, hSnap⟩ := hinv
  obtain ⟨nodes4, h4, rfl⟩ := processCycle_ok_elim env mode crit inp tau st st' hok
  have href3 : Refines st.nodes (phase3 env tau inp.reset inp.probes
      (cycleFront env inp tau st).stmts ⟨st.nodes, st.depState, [], [], []⟩).nodes := by
    intro i pre h
    refine ⟨pre, ?_, rfl, rfl⟩
    rw [(phase3_nodes_stable env tau inp.reset inp.probes _ _).2 i
      (lt_length_of_get?_eq_some h)]
    exact h
  obtain ⟨hS3, hR3, hC3, hN3⟩ := phase3_inv env tau inp.reset inp.probes
    (cycleFront env inp tau st).stmts htau ⟨st.nodes, st.depState, [], [], []⟩
    hS (fun a i h => by cases h) (fun v i h => by cases h) hN
  have hcons : ∀ sn ∈ (phase3 env tau inp.reset inp.probes
      (cycleFront env inp tau st).stmts ⟨st.nodes, st.depState, [], [], []⟩).newNodes,
      ∃ d0, (phase3 env tau inp.reset inp.probes (cycleFront env inp tau st).stmts
        ⟨st.nodes, st.depState, [], [], []⟩).nodes.get? sn.2 = some d0 ∧
        ConsumerTs d0 tau := by
    intro sn hsn
    rcases phase3_consumerTs env tau inp.reset inp.probes _ _ htau sn hsn with h | h
    · cases h
    · exact h
  obtain ⟨hN4, href4⟩ := phase4_nodesOk env mode tau _ inp.probes _ st.snapshots _ _
    nodes4 h4 hcons hS3 hC3 (hSnap.snap_refines href3) hN3
  have hnodup := phase3_regNext_nodup env tau inp.reset inp.probes
    (cycleFront env inp tau st).stmts ⟨st.nodes, st.depState, [], [], []⟩ (by simp)
  refine ⟨by omega, hN4, ?_, ?_⟩
  · intro a i hlk
    dsimp only at hlk
    rw [aLookup_mergeRegNext _ _ hnodup] at hlk
    rcases hr : aLookup (phase3 env tau inp.reset inp.probes
        (cycleFront env inp tau st).stmts
        ⟨st.nodes, st.depState, [], [], []⟩).regNext a with _ | j
    · rw [hr] at hlk
      obtain ⟨d, hd, hb⟩ := hS3 a i hlk
      obtain ⟨post, hp, _, ht⟩ := href4 i d hd
      exact ⟨post, hp, by rw [ht]; omega⟩
    · rw [hr] at hlk
      cases hlk
      obtain ⟨d, hd, hb⟩ := hR3 a i hr
      obtain ⟨post, hp, _, ht⟩ := href4 i d hd
      exact ⟨post, hp, by rw [ht]; omega⟩
  · intro t sp hlk
    dsimp only at hlk
    by_cases hie : (cycleFront env inp tau st).delayed.isEmpty = true
    · rw [if_pos hie] at hlk
      obtain ⟨ht, he⟩ := hSnap t sp hlk
      exact ⟨by omega, he.entry_refines (href3.trans href4)⟩
    · rw [if_neg hie, aLookup_aInsert] at hlk
      by_cases hteq : t = tau
      · rw [if_pos hteq] at hlk
        cases hlk
        refine ⟨by omega, ?_⟩
        rw [hteq]
        exact (hS3.entry_refines href4).entry_mono (by omega)
      · rw [if_neg hteq] at hlk
        obtain ⟨ht, he⟩ := hSnap t sp hlk
        exact ⟨by omega, he.entry_refines (href3.trans href4)⟩

theorem processRun_runInv (env : StaticEnv) (mode : ProcessingMode) (crit : Criterion)
    (inputs : List CycleInput) :
    ∀ tau st st', processRun env mode crit inputs tau st = .ok st' →
      RunInv st tau → ∃ tau', RunInv st' tau' := by
  induction inputs with
  | nil =>
    intro tau st st' hok hinv
    unfold processRun at hok
    simp only [Except.ok.injEq] at hok
    subst hok
    exact ⟨tau, hinv⟩
  | cons i is ih =>
    intro tau st st' hok hinv
    unfold processRun at hok
    rcases h1 : processCycle env mode crit i tau st with e | st1
    · rw [h1] at hok; cases hok
    · rw [h1] at hok
      exact ih (tau + 1) st1 st' hok
        (processCycle_runInv env mode crit i tau st st1 h1 hinv)

/-- C5 (amended): in the built graph every dependency `(p, k)` of a node
`d` satisfies `depOk`: `p.timestamp ≤ d.timestamp` for `Data`, `Index` and
`Declaration` edges, strictly for `Data` edges of clocked
non-`DataDefinition` consumers, and for `Conditional` edges whenever the
provider is non-clocked or the consumer is a clocked
non-`DataDefinition` vertex (the remaining case — a clocked control-flow
provider feeding a non-clocked or reset-decremented consumer — can go
forward in time, refuting the claim as stated). -/
theorem time_invariant (env : StaticEnv) (mode : ProcessingMode) (crit : Criterion)
    (inputs : List CycleInput) (st' : BuilderState)
    (hok : processRun env mode crit inputs 0 (initBuilderState env) = .ok st') :
    ∀ j d, st'.nodes.get? j = some d → ∀ pk ∈ d.deps,
      ∃ p, st'.nodes.get? pk.1 = some p ∧ depOk d p pk.2 := by
  have hinit : RunInv (initBuilderState env) 0 := by
    refine ⟨le_rfl, ?_, ?_, ?_⟩
    · intro j d h
      cases h
    · intro a i h
      cases h
    · intro t sp h
      cases h
  obtain ⟨tau', _, hN, _, _⟩ := processRun_runInv env mode crit inputs 0
    (initBuilderState env) st' hok hinit
  exact hN

/-- Fixture for the C5 witness: a clocked register with a data edge to a
wire. -/
def envRegWire : StaticEnv :=
  { vertices := [vReg, vWire],
    edges := [{ fromIdx := 0, toIdx := 1, kind := .data, clocked := true,
                condition := none }],
    cfg := [.mk 0 none none none, .mk 1 none none none], predIdxToId := [] }

/-- Witness for `time_invariant`: one cycle of the register-wire program;
the register node (timestamp 0) depends on the wire node (timestamp -1)
through a `Data` edge, strictly backward in time. -/
theorem time_invariant_witness :
    processRun envRegWire .normal (.signal "q") [inpNil] 0 (initBuilderState envRegWire) =
        .ok ((processRun envRegWire .normal (.signal "q") [inpNil] 0
          (initBuilderState envRegWire)).toOption.getD (initBuilderState envRegWire)) ∧
      ∃ p, ((processRun envRegWire .normal (.signal "q") [inpNil] 0
            (initBuilderState envRegWire)).toOption.getD
          (initBuilderState envRegWire)).nodes.get? 1 = some p ∧
        depOk ⟨vReg, 0, [(1, EdgeKind.data)]⟩ p EdgeKind.data :=
  ⟨rfl, time_invariant envRegWire .normal (.signal "q") [inpNil] _ rfl 0
    ⟨vReg, 0, [(1, EdgeKind.data)]⟩ rfl (1, EdgeKind.data) (by decide)⟩

/-- Fixture for the C5 counterexample: a clocked `ControlFlow` vertex
providing a `Conditional` edge to a non-clocked consumer. -/
def envClockedCf : StaticEnv :=
  { vertices := [{ name := "c", kind := .connection, clocked := false,
                   assignsTo := some "c", condition := none, assignDelay := 0 },
                 { name := "cf", kind := .controlFlow, clocked := true,
                   assignsTo := none, condition := none, assignDelay := 0 }],
    edges := [{ fromIdx := 0, toIdx := 1, kind := .conditional, clocked := false,
                condition := none }],
    cfg := [.mk 0 none none none, .mk 1 none none none], predIdxToId := [] }

/-- Counterexample to C5 as stated: after one cycle of `envClockedCf` the
non-clocked consumer (timestamp -1) holds a `Conditional` dependency on
the clocked control-flow node (timestamp 0), violating
`p.timestamp ≤ d.timestamp`. -/
theorem time_invariant_counterexample :
    (processRun envClockedCf .normal (.signal "c") [inpNil] 0
        (initBuilderState envClockedCf)).toOption.map
      (fun st => st.nodes.map (fun d => (d.timestamp, d.deps))) =
      some [(-1, [(1, EdgeKind.conditional)]), (0, [])] ∧
      ¬((0 : Int) ≤ -1) := ⟨rfl, by decide⟩

/-! ### C6 — DataOnly mode versus Normal mode -/

/-- The materialised dependency edges of an arena suffix, as
`(consumer id, provider id, kind)` triples with consumer ids starting at
`j`. -/
def depEdgesFrom : Nat → List DynNode → List (Nat × Nat × EdgeKind)
  | _, [] => []
  | j, d :: rest =>
    d.deps.map (fun pk => (j, pk.1, pk.2)) ++ depEdgesFrom (j + 1) rest

/-- The set of dependency edges of a built DPDG. -/
def depEdges (nodes : List DynNode) : List (Nat × Nat × EdgeKind) :=
  depEdgesFrom 0 nodes

theorem mem_depEdgesFrom (x1 p : Nat) (k : EdgeKind) :
    ∀ (nodes : List DynNode) (j : Nat),
      (x1, p, k) ∈ depEdgesFrom j nodes ↔
        ∃ i d, nodes.get? i = some d ∧ x1 = j + i ∧ (p, k) ∈ d.deps := by
  intro nodes
  induction nodes with
  | nil =>
    intro j
    constructor
    · intro h; cases h
    · rintro ⟨i, d, hget, _, _⟩; cases hget
  | cons d rest ih =>
    intro j
    simp only [depEdgesFrom, List.mem_append, List.mem_map]
    constructor
    · rintro (⟨pk, hpk, hx⟩ | h)
      · refine ⟨0, d, rfl, ?_, ?_⟩
        · have : j = x1 := congrArg Prod.fst hx
          omega
        · have h2 : (pk.1, pk.2) = (p, k) := congrArg Prod.snd hx
          have : pk = (p, k) := by
            rw [← h2]
          rw [← this]
          exact hpk
      · obtain ⟨i, d', hget, hx1, hmem⟩ := (ih (j + 1)).1 h
        exact ⟨i + 1, d', hget, by omega, hmem⟩
    · rintro ⟨i, d', hget, hx1, hmem⟩
      cases i with
      | zero =>
        left
        injection hget with hd
        subst hd
        exact ⟨(p, k), hmem, by simp [hx1]⟩
      | succ i =>
        right
        exact (ih (j + 1)).2 ⟨i, d', hget, by omega, hmem⟩

/-- The cross-mode arena relation: same length, pointwise equal specs and
timestamps, and every dependency of the left node present in the right
node. -/
def ModeRel (nD nN : List DynNode) : Prop :=
  nD.length = nN.length ∧
  ∀ j dD dN, nD.get? j = some dD → nN.get? j = some dN →
    dD.spec = dN.spec ∧ dD.timestamp = dN.timestamp ∧ dD.deps ⊆ dN.deps

theorem ModeRel.snoc {nD nN : List DynNode} (h : ModeRel nD nN) {dD dN : DynNode}
    (hspec : dD.spec = dN.spec) (hts : dD.timestamp = dN.timestamp)
    (hdeps : dD.deps ⊆ dN.deps) : ModeRel (nD ++ [dD]) (nN ++ [dN]) := by
  refine ⟨by simp [h.1], ?_⟩
  intro j dD' dN' hgD hgN
  by_cases hj : j = nD.length
  · subst hj
    rw [get?_snoc_self] at hgD
    rw [h.1, get?_snoc_self] at hgN
    injection hgD with h1
    injection hgN with h2
    subst h1; subst h2
    exact ⟨hspec, hts, hdeps⟩
  · rw [get?_snoc_ne _ _ _ hj] at hgD
    rw [get?_snoc_ne _ _ _ (by rw [← h.1]; exact hj)] at hgN
    exact h.2 j dD' dN' hgD hgN

theorem ModeRel.setDeps {nD nN : List DynNode} (h : ModeRel nD nN) (i : Nat)
    {dsD dsN : List (Nat × EdgeKind)} (hsub : dsD ⊆ dsN) :
    ModeRel (nD.set i { (nD.get? i).getD default with deps := dsD })
            (nN.set i { (nN.get? i).getD default with deps := dsN }) := by
  refine ⟨by simp [h.1], ?_⟩
  intro j dD dN hgD hgN
  by_cases hij : i = j
  · subst hij
    rcases hg0D : nD.get? i with _ | d0D
    · rw [List.set_eq_of_length_le (List.get?_eq_none.1 hg0D)] at hgD
      rw [hg0D] at hgD
      cases hgD
    · have hlt : i < nD.length := lt_length_of_get?_eq_some hg0D
      rcases hg0N : nN.get? i with _ | d0N
      · exact absurd (List.get?_eq_none.1 hg0N) (by rw [← h.1]; omega)
      · rw [hg0D] at hgD
        rw [hg0N] at hgN
        rw [List.get?_set_eq_of_lt _ hlt] at hgD
        rw [List.get?_set_eq_of_lt _ (by rw [← h.1]; exact hlt)] at hgN
        injection hgD with h1
        injection hgN with h2
        subst h1; subst h2
        obtain ⟨hs, ht, _⟩ := h.2 i d0D d0N hg0D hg0N
        exact ⟨hs, ht, hsub⟩
  · rw [List.get?_set_ne _ _ hij] at hgD hgN
    exact h.2 j dD dN hgD hgN

theorem mem_edgesFrom {env : StaticEnv} {s : Nat} {e : SpecEdge} :
    e ∈ edgesFrom env s ↔ e ∈ env.edges ∧ e.fromIdx = s := by
  unfold edgesFrom
  simp [List.mem_filter]

/-- The amendment's side condition: no consumer has a `Data` edge and an
`Index` edge whose providers assign the same symbol. -/
def DataIndexDisjoint (env : StaticEnv) : Prop :=
  ∀ e1 ∈ env.edges, ∀ e2 ∈ env.edges,
    e1.fromIdx = e2.fromIdx → e1.kind = .data → e2.kind = .index →
    ((vtx env e1.toIdx).assignsTo = none ∨
      (vtx env e1.toIdx).assignsTo ≠ (vtx env e2.toIdx).assignsTo)

instance (env : StaticEnv) : Decidable (DataIndexDisjoint env) := by
  unfold DataIndexDisjoint
  infer_instance

theorem resolveEdgeStep_skip (env : StaticEnv) (cx : Phase4Ctx) (e : SpecEdge)
    (nodes : List DynNode) (processed : List String) (deps : List (Nat × EdgeKind))
    (a : String) (haO : (vtx env e.toIdx).assignsTo = some a)
    (hc : processed.contains a = true) :
    resolveEdgeStep env cx e nodes processed deps = (nodes, processed, deps) := by
  unfold resolveEdgeStep
  dsimp only
  rw [haO]
  dsimp only
  rw [if_pos hc]

theorem resolveEdgeStep_dataOnly_nondata (env : StaticEnv) (cx : Phase4Ctx) (e : SpecEdge)
    (nodes : List DynNode) (processed : List String) (deps : List (Nat × EdgeKind))
    (hm : cx.mode = .dataOnly) (hk : e.kind ≠ .data) :
    resolveEdgeStep env cx e nodes processed deps = (nodes, processed, deps) := by
  unfold resolveEdgeStep
  dsimp only
  split
  · rfl
  · rw [if_pos ⟨hm, hk⟩]

theorem resolveEdgeStep_condFalse (env : StaticEnv) (cx : Phase4Ctx) (e : SpecEdge)
    (nodes : List DynNode) (processed : List String) (deps : List (Nat × EdgeKind))
    (hc : evalCond e.condition cx.ctxProbes = false) :
    resolveEdgeStep env cx e nodes processed deps = (nodes, processed, deps) := by
  unfold resolveEdgeStep
  dsimp only
  split
  · rfl
  · split
    · rfl
    · simp only [hc, Bool.false_eq_true, if_false]

theorem resolveEdgeStep_dataNone (env : StaticEnv) (cx : Phase4Ctx) (e : SpecEdge)
    (nodes : List DynNode) (processed : List String) (deps : List (Nat × EdgeKind))
    (hk : e.kind = .data) (haO : (vtx env e.toIdx).assignsTo = none) :
    resolveEdgeStep env cx e nodes processed deps = (nodes, processed, deps) := by
  unfold resolveEdgeStep
  dsimp only
  rw [haO]
  dsimp only
  simp only [Bool.false_eq_true, if_false]
  rw [if_neg (fun h => h.2 hk)]
  split
  · rw [hk]
  · rfl

theorem resolveEdgeStep_data_resolve (env : StaticEnv) (cx : Phase4Ctx) (e : SpecEdge)
    (nodes : List DynNode) (processed : List String) (deps : List (Nat × EdgeKind))
    (a : String) (hk : e.kind = .data) (haO : (vtx env e.toIdx).assignsTo = some a)
    (hnc : processed.contains a = false)
    (hc : evalCond e.condition cx.ctxProbes = true) :
    resolveEdgeStep env cx e nodes processed deps =
      (nodes, processed ++ [a],
        match aLookup cx.liveS a with
        | some d => deps ++ [(d, .data)]
        | none => deps) := by
  unfold resolveEdgeStep
  dsimp only
  rw [haO]
  dsimp only
  simp only [hnc, Bool.false_eq_true, if_false]
  rw [if_neg (fun h => h.2 hk), if_pos hc, hk]

theorem resolveEdgeStep_data_char (env : StaticEnv) (cx : Phase4Ctx) (e : SpecEdge)
    (nodes : List DynNode) (processed : List String) (deps : List (Nat × EdgeKind))
    (a : String) (hk : e.kind = .data) (haO : (vtx env e.toIdx).assignsTo = some a) :
    ∃ proc' deps', resolveEdgeStep env cx e nodes processed deps = (nodes, proc', deps') ∧
      deps ⊆ deps' ∧ ∀ b ∈ proc', b ∈ processed ∨ b = a := by
  rcases hnc : processed.contains a with _ | _
  · rcases hc : evalCond e.condition cx.ctxProbes with _ | _
    · exact ⟨processed, deps, resolveEdgeStep_condFalse env cx e nodes processed deps hc,
        List.Subset.refl _, fun b hb => Or.inl hb⟩
    · rw [resolveEdgeStep_data_resolve env cx e nodes processed deps a hk haO hnc hc]
      refine ⟨processed ++ [a], _, rfl, ?_, ?_⟩
      · rcases aLookup cx.liveS a with _ | d
        · exact List.Subset.refl _
        · exact List.subset_append_left _ _
      · intro b hb
        rcases List.mem_append.1 hb with h | h
        · exact Or.inl h
        · exact Or.inr (List.mem_singleton.1 h)
  · exact ⟨processed, deps, resolveEdgeStep_skip env cx e nodes processed deps a haO hnc,
      List.Subset.refl _, fun b hb => Or.inl hb⟩

theorem resolveEdgeStep_normal_index_char (env : StaticEnv) (cx : Phase4Ctx) (e : SpecEdge)
    (nodes : List DynNode) (processed : List String) (deps : List (Nat × EdgeKind))
    (hm : cx.mode = .normal) (hk : e.kind = .index) :
    ∃ proc' deps', resolveEdgeStep env cx e nodes processed deps = (nodes, proc', deps') ∧
      deps ⊆ deps' ∧
      ∀ b ∈ proc', b ∈ processed ∨ (vtx env e.toIdx).assignsTo = some b := by
  rcases haO : (vtx env e.toIdx).assignsTo with _ | a
  · refine ⟨processed, deps, ?_, List.Subset.refl _, fun b hb => Or.inl hb⟩
    unfold resolveEdgeStep
    dsimp only
    rw [haO]
    dsimp only
    simp only [Bool.false_eq_true, if_false]
    rw [if_neg (fun h => by rw [hm] at h; exact ProcessingMode.noConfusion h.1)]
    split
    · rw [hk]
    · rfl
  · rcases hnc : processed.contains a with _ | _
    · rcases hc : evalCond e.condition cx.ctxProbes with _ | _
      · exact ⟨processed, deps, resolveEdgeStep_condFalse env cx e nodes processed deps hc,
          List.Subset.refl _, fun b hb => Or.inl hb⟩
      · refine ⟨processed ++ [a],
          (match aLookup cx.ctxS a with
           | some d => deps ++ [(d, EdgeKind.index)]
           | none => deps), ?_, ?_, ?_⟩
        · unfold resolveEdgeStep
          dsimp only
          rw [haO]
          dsimp only
          simp only [hnc, Bool.false_eq_true, if_false]
          rw [if_neg (fun h => by rw [hm] at h; exact ProcessingMode.noConfusion h.1),
            if_pos hc, hk]
        · rcases aLookup cx.ctxS a with _ | d
          · exact List.Subset.refl _
          · exact List.subset_append_left _ _
        · intro b hb
          rcases List.mem_append.1 hb with h | h
          · exact Or.inl h
          · rw [List.mem_singleton.1 h]
            exact Or.inr rfl
    · exact ⟨processed, deps, resolveEdgeStep_skip env cx e nodes processed deps a haO hnc,
        List.Subset.refl _, fun b hb => Or.inl hb⟩

theorem resolveEdgeStep_normal_passive (env : StaticEnv) (cx : Phase4Ctx) (e : SpecEdge)
    (nodes : List DynNode) (processed : List String) (deps : List (Nat × EdgeKind))
    (hm : cx.mode = .normal) (hk : e.kind = .conditional ∨ e.kind = .declaration) :
    ∃ deps', resolveEdgeStep env cx e nodes processed deps = (nodes, processed, deps') ∧
      deps ⊆ deps' := by
  unfold resolveEdgeStep
  dsimp only
  split
  · exact ⟨deps, rfl, List.Subset.refl _⟩
  · rw [if_neg (fun h => by rw [hm] at h; exact ProcessingMode.noConfusion h.1)]
    split
    · rcases hk with hk | hk <;> rw [hk] <;> dsimp only
      · rcases aLookup cx.cf (vtx env e.toIdx) with _ | cd
        · exact ⟨deps, rfl, List.Subset.refl _⟩
        · exact ⟨deps ++ [(cd, .conditional)], rfl, List.subset_append_left _ _⟩
      · rw [if_neg (fun h => by rw [hm] at h; exact ProcessingMode.noConfusion h)]
        exact ⟨deps, rfl, List.Subset.refl _⟩
    · exact ⟨deps, rfl, List.Subset.refl _⟩

theorem resolveEdgeStep_nodes_nonfull (env : StaticEnv) (cx : Phase4Ctx) (e : SpecEdge)
    (nodes : List DynNode) (processed : List String) (deps : List (Nat × EdgeKind))
    (hm : cx.mode ≠ .full) :
    (resolveEdgeStep env cx e nodes processed deps).1 = nodes := by
  unfold resolveEdgeStep
  dsimp only
  repeat' first | rfl | (exact absurd (by assumption) hm) | split

theorem resolveEdges_nodes_nonfull (env : StaticEnv) (cx : Phase4Ctx)
    (hm : cx.mode ≠ .full) :
    ∀ (es : List SpecEdge) nodes processed deps,
      (resolveEdges env cx es nodes processed deps).1 = nodes := by
  intro es
  induction es with
  | nil => intro nodes processed deps; rfl
  | cons e es ih =>
    intro nodes processed deps
    show (resolveEdges env cx es (resolveEdgeStep env cx e nodes processed deps).1
      (resolveEdgeStep env cx e nodes processed deps).2.1
      (resolveEdgeStep env cx e nodes processed deps).2.2).1 = nodes
    rw [ih, resolveEdgeStep_nodes_nonfull env cx e nodes processed deps hm]

/-- The phase-4 edge loop in `DataOnly` mode produces a sub-list (as a
set) of the dependencies the same loop produces in `Normal` mode, given
that no `Data`-edge provider symbol of the list is also an `Index`-edge
provider symbol (`P` abstracts the latter). -/
theorem resolveEdges_mode_subset (env : StaticEnv) (tau : Int) (liveS : SymTab)
    (cf : List (SpecNode × Nat)) (ctxS : SymTab) (ctxP : ProbeTab) (P : String → Prop) :
    ∀ (es : List SpecEdge) (nodesD nodesN : List DynNode)
      (procD procN : List String) (depsD depsN : List (Nat × EdgeKind)),
      (∀ e ∈ es, e.kind = .index → ∀ a, (vtx env e.toIdx).assignsTo = some a → P a) →
      (∀ e ∈ es, e.kind = .data → ∀ a, (vtx env e.toIdx).assignsTo = some a → ¬ P a) →
      (∀ a, a ∈ procN → a ∈ procD ∨ P a) →
      depsD ⊆ depsN →
      (resolveEdges env ⟨.dataOnly, tau, liveS, cf, ctxS, ctxP⟩
          es nodesD procD depsD).2 ⊆
        (resolveEdges env ⟨.normal, tau, liveS, cf, ctxS, ctxP⟩
          es nodesN procN depsN).2 := by
  intro es
  induction es with
  | nil =>
    intro nodesD nodesN procD procN depsD depsN _ _ _ hsub
    exact hsub
  | cons e es ih =>
    intro nodesD nodesN procD procN depsD depsN hidx hdata hproc hsub
    have hidx' := fun e' he' => hidx e' (List.mem_cons_of_mem _ he')
    have hdata' := fun e' he' => hdata e' (List.mem_cons_of_mem _ he')
    show (resolveEdges env ⟨.dataOnly, tau, liveS, cf, ctxS, ctxP⟩ es
        (resolveEdgeStep env ⟨.dataOnly, tau, liveS, cf, ctxS, ctxP⟩ e nodesD procD depsD).1
        (resolveEdgeStep env ⟨.dataOnly, tau, liveS, cf, ctxS, ctxP⟩ e nodesD procD depsD).2.1
        (resolveEdgeStep env ⟨.dataOnly, tau, liveS, cf, ctxS, ctxP⟩ e nodesD procD depsD).2.2).2 ⊆
      (resolveEdges env ⟨.normal, tau, liveS, cf, ctxS, ctxP⟩ es
        (resolveEdgeStep env ⟨.normal, tau, liveS, cf, ctxS, ctxP⟩ e nodesN procN depsN).1
        (resolveEdgeStep env ⟨.normal, tau, liveS, cf, ctxS, ctxP⟩ e nodesN procN depsN).2.1
        (resolveEdgeStep env ⟨.normal, tau, liveS, cf, ctxS, ctxP⟩ e nodesN procN depsN).2.2).2
    cases hk : e.kind with
    | conditional =>
      rw [resolveEdgeStep_dataOnly_nondata env _ e nodesD procD depsD rfl
        (by rw [hk]; exact fun h => EdgeKind.noConfusion h)]
      obtain ⟨depsN', heqN, hsubN⟩ := resolveEdgeStep_normal_passive env
        ⟨.normal, tau, liveS, cf, ctxS, ctxP⟩ e nodesN procN depsN rfl (Or.inl hk)
      rw [heqN]
      exact ih nodesD nodesN procD procN depsD depsN' hidx' hdata' hproc
        (hsub.trans hsubN)
    | declaration =>
      rw [resolveEdgeStep_dataOnly_nondata env _ e nodesD procD depsD rfl
        (by rw [hk]; exact fun h => EdgeKind.noConfusion h)]
      obtain ⟨depsN', heqN, hsubN⟩ := resolveEdgeStep_normal_passive env
        ⟨.normal, tau, liveS, cf, ctxS, ctxP⟩ e nodesN procN depsN rfl (Or.inr hk)
      rw [heqN]
      exact ih nodesD nodesN procD procN depsD depsN' hidx' hdata' hproc
        (hsub.trans hsubN)
    | index =>
      rw [resolveEdgeStep_dataOnly_nondata env _ e nodesD procD depsD rfl
        (by rw [hk]; exact fun h => EdgeKind.noConfusion h)]
      obtain ⟨procN', depsN', heqN, hsubN, hprocN⟩ := resolveEdgeStep_normal_index_char env
        ⟨.normal, tau, liveS, cf, ctxS, ctxP⟩ e nodesN procN depsN rfl hk
      rw [heqN]
      refine ih nodesD nodesN procD procN' depsD depsN' hidx' hdata' ?_ (hsub.trans hsubN)
      intro b hb
      rcases hprocN b hb with h | h
      · exact hproc b h
      · exact Or.inr (hidx e (List.mem_cons_self e es) hk b h)
    | data =>
      rcases haO : (vtx env e.toIdx).assignsTo with _ | a
      · rw [resolveEdgeStep_dataNone env _ e nodesD procD depsD hk haO,
          resolveEdgeStep_dataNone env _ e nodesN procN depsN hk haO]
        exact ih nodesD nodesN procD procN depsD depsN hidx' hdata' hproc hsub
      · rcases hcD : procD.contains a with _ | _
        · have hPa : ¬ P a := hdata e (List.mem_cons_self e es) hk a haO
          have hcN : procN.contains a = false := by
            rcases hcN : procN.contains a with _ | _
            · rfl
            · rcases hproc a (List.elem_iff.mp hcN) with h | h
              · have h3 : procD.contains a = true := List.elem_iff.mpr h
                rw [hcD] at h3
                cases h3
              · exact absurd h hPa
          rcases hc : evalCond e.condition ctxP with _ | _
          · rw [resolveEdgeStep_condFalse env _ e nodesD procD depsD hc,
              resolveEdgeStep_condFalse env _ e nodesN procN depsN hc]
            exact ih nodesD nodesN procD procN depsD depsN hidx' hdata' hproc hsub
          · rw [resolveEdgeStep_data_resolve env _ e nodesD procD depsD a hk haO hcD hc,
              resolveEdgeStep_data_resolve env _ e nodesN procN depsN a hk haO hcN hc]
            have hproc' : ∀ b, b ∈ procN ++ [a] → b ∈ procD ++ [a] ∨ P b := by
              intro b hb
              rcases List.mem_append.1 hb with h | h
              · rcases hproc b h with h2 | h2
                · exact Or.inl (List.mem_append_left _ h2)
                · exact Or.inr h2
              · exact Or.inl (List.mem_append_right _ h)
            rcases hlk : aLookup liveS a with _ | dprov
            · exact ih nodesD nodesN (procD ++ [a]) (procN ++ [a]) depsD depsN
                hidx' hdata' hproc' hsub
            · refine ih nodesD nodesN (procD ++ [a]) (procN ++ [a])
                (depsD ++ [(dprov, .data)]) (depsN ++ [(dprov, .data)])
                hidx' hdata' hproc' ?_
              intro x hx
              rcases List.mem_append.1 hx with h | h
              · exact List.mem_append_left _ (hsub h)
              · exact List.mem_append_right _ h
        · rw [resolveEdgeStep_skip env _ e nodesD procD depsD a haO hcD]
          obtain ⟨procN', depsN', heqN, hsubN, hprocN⟩ := resolveEdgeStep_data_char env
            ⟨.normal, tau, liveS, cf, ctxS, ctxP⟩ e nodesN procN depsN a hk haO
          rw [heqN]
          refine ih nodesD nodesN procD procN' depsD depsN' hidx' hdata' ?_
            (hsub.trans hsubN)
          intro b hb
          rcases hprocN b hb with h | h
          · exact hproc b h
          · rw [h]
            exact Or.inl (List.elem_iff.mp hcD)

/-- One `resolveNode` in `DataOnly` mode refines the same `resolveNode`
in `Normal` mode, given per-consumer disjointness of `Data` and `Index`
provider symbols. -/
theorem resolveNode_modeRel (env : StaticEnv) (tau : Int) (liveS : SymTab)
    (liveProbes : ProbeTab) (cf : List (SpecNode × Nat))
    (snapshots : List (Int × (SymTab × ProbeTab)))
    (nodesD nodesN nD' nN' : List DynNode) (sn : Nat × Nat)
    (hdisj : DataIndexDisjoint env) (hrel : ModeRel nodesD nodesN)
    (hokD : resolveNode env .dataOnly tau liveS liveProbes cf snapshots nodesD sn = .ok nD')
    (hokN : resolveNode env .normal tau liveS liveProbes cf snapshots nodesN sn = .ok nN') :
    ModeRel nD' nN' := by
  have hP : ∀ (cS : SymTab) (cP : ProbeTab),
      (resolveEdges env ⟨.dataOnly, tau, liveS, cf, cS, cP⟩
          (edgesFrom env sn.1) nodesD [] []).2 ⊆
        (resolveEdges env ⟨.normal, tau, liveS, cf, cS, cP⟩
          (edgesFrom env sn.1) nodesN [] []).2 := by
    intro cS cP
    refine resolveEdges_mode_subset env tau liveS cf cS cP
      (fun a => ∃ e2, e2 ∈ edgesFrom env sn.1 ∧ e2.kind = EdgeKind.index ∧
        (vtx env e2.toIdx).assignsTo = some a)
      (edgesFrom env sn.1) nodesD nodesN [] [] [] [] ?_ ?_ ?_ ?_
    · intro e he hk a ha
      exact ⟨e, he, hk, ha⟩
    · rintro e he hk a ha ⟨e2, he2, hk2, ha2⟩
      obtain ⟨hm1, hf1⟩ := mem_edgesFrom.1 he
      obtain ⟨hm2, hf2⟩ := mem_edgesFrom.1 he2
      rcases hdisj e hm1 e2 hm2 (hf1.trans hf2.symm) hk hk2 with h | h
      · rw [ha] at h
        cases h
      · exact h (ha.trans ha2.symm)
    · intro a ha
      cases ha
    · exact List.Subset.refl _
  unfold resolveNode at hokD hokN
  dsimp only at hokD hokN
  by_cases hdel : (vtx env sn.1).assignDelay > 0
  · rw [if_pos hdel] at hokD hokN
    rcases hsnap : aLookup snapshots (tau - (vtx env sn.1).assignDelay) with _ | sp
    · rw [hsnap] at hokD
      dsimp only at hokD
      cases hokD
    · obtain ⟨cS, cP⟩ := sp
      rw [hsnap] at hokD hokN
      dsimp only at hokD hokN
      simp only [Except.ok.injEq] at hokD hokN
      rw [resolveEdges_nodes_nonfull env _ (fun h => ProcessingMode.noConfusion h)
          (edgesFrom env sn.1) nodesD [] []] at hokD
      rw [resolveEdges_nodes_nonfull env _ (fun h => ProcessingMode.noConfusion h)
          (edgesFrom env sn.1) nodesN [] []] at hokN
      subst hokD
      subst hokN
      exact hrel.setDeps sn.2 (hP cS cP)
  · rw [if_neg hdel] at hokD hokN
    dsimp only at hokD hokN
    simp only [Except.ok.injEq] at hokD hokN
    rw [resolveEdges_nodes_nonfull env _ (fun h => ProcessingMode.noConfusion h)
        (edgesFrom env sn.1) nodesD [] []] at hokD
    rw [resolveEdges_nodes_nonfull env _ (fun h => ProcessingMode.noConfusion h)
        (edgesFrom env sn.1) nodesN [] []] at hokN
    subst hokD
    subst hokN
    exact hrel.setDeps sn.2 (hP liveS liveProbes)

/-- Phase 4 preserves the cross-mode refinement. -/
theorem phase4_modeRel (env : StaticEnv) (tau : Int) (liveS : SymTab)
    (liveProbes : ProbeTab) (cf : List (SpecNode × Nat))
    (snapshots : List (Int × (SymTab × ProbeTab))) (hdisj : DataIndexDisjoint env) :
    ∀ (sns : List (Nat × Nat)) (nodesD nodesN nD' nN' : List DynNode),
      ModeRel nodesD nodesN →
      phase4 env .dataOnly tau liveS liveProbes cf snapshots sns nodesD = .ok nD' →
      phase4 env .normal tau liveS liveProbes cf snapshots sns nodesN = .ok nN' →
      ModeRel nD' nN' := by
  intro sns
  induction sns with
  | nil =>
    intro nodesD nodesN nD' nN' hrel hD hN
    unfold phase4 at hD hN
    simp only [Except.ok.injEq] at hD hN
    subst hD; subst hN
    exact hrel
  | cons sn rest ih =>
    intro nodesD nodesN nD' nN' hrel hD hN
    unfold phase4 at hD hN
    rcases h1D : resolveNode env .dataOnly tau liveS liveProbes cf snapshots nodesD sn
      with eD | n1D
    · rw [h1D] at hD; cases hD
    rcases h1N : resolveNode env .normal tau liveS liveProbes cf snapshots nodesN sn
      with eN | n1N
    · rw [h1N] at hN; cases hN
    rw [h1D] at hD
    rw [h1N] at hN
    exact ih n1D n1N nD' nN'
      (resolveNode_modeRel env tau liveS liveProbes cf snapshots nodesD nodesN n1D n1N sn
        hdisj hrel h1D h1N) hD hN

/-- One phase-3 step computes identical tables from aligned accumulators
(phase 3 never reads the processing mode or the nodes' dependency
lists). -/
theorem phase3Step_align (env : StaticEnv) (tau : Int) (reset : VcdValue)
    (probes : ProbeTab) (accD accN : CycleAcc) (s : Nat)
    (hlen : accD.nodes.length = accN.nodes.length)
    (hS : accD.depState = accN.depState) (hR : accD.regNext = accN.regNext)
    (hC : accD.cfProviders = accN.cfProviders) (hNN : accD.newNodes = accN.newNodes) :
    (phase3Step env tau reset probes accD s).depState =
        (phase3Step env tau reset probes accN s).depState ∧
      (phase3Step env tau reset probes accD s).regNext =
        (phase3Step env tau reset probes accN s).regNext ∧
      (phase3Step env tau reset probes accD s).cfProviders =
        (phase3Step env tau reset probes accN s).cfProviders ∧
      (phase3Step env tau reset probes accD s).newNodes =
        (phase3Step env tau reset probes accN s).newNodes := by
  unfold phase3Step
  dsimp only
  rw [hS, hR, hC, hNN, hlen]
  rcases haO : (vtx env s).assignsTo with _ | symb <;>
    by_cases hcond : evalCond (vtx env s).condition probes = true <;>
    by_cases hclk : (vtx env s).clocked = true <;>
    by_cases hdd : (vtx env s).kind = NodeKind.dataDefinition <;>
    by_cases hrst : tau = 0 ∨ reset = VcdValue.v1 <;>
    by_cases hcf : (vtx env s).kind = NodeKind.controlFlow <;>
    simp [hcond, hclk, hdd, hrst, hcf]

/-- Phase 3 preserves the cross-mode refinement and computes identical
tables. -/
theorem phase3_modeRel (env : StaticEnv) (tau : Int) (reset : VcdValue)
    (probes : ProbeTab) :
    ∀ (stmts : List Nat) (accD accN : CycleAcc),
      ModeRel accD.nodes accN.nodes → accD.depState = accN.depState →
      accD.regNext = accN.regNext → accD.cfProviders = accN.cfProviders →
      accD.newNodes = accN.newNodes →
      ModeRel (phase3 env tau reset probes stmts accD).nodes
          (phase3 env tau reset probes stmts accN).nodes ∧
        (phase3 env tau reset probes stmts accD).depState =
          (phase3 env tau reset probes stmts accN).depState ∧
        (phase3 env tau reset probes stmts accD).regNext =
          (phase3 env tau reset probes stmts accN).regNext ∧
        (phase3 env tau reset probes stmts accD).cfProviders =
          (phase3 env tau reset probes stmts accN).cfProviders ∧
        (phase3 env tau reset probes stmts accD).newNodes =
          (phase3 env tau reset probes stmts accN).newNodes := by
  intro stmts
  induction stmts with
  | nil =>
    intro accD accN hrel hS hR hC hNN
    exact ⟨hrel, hS, hR, hC, hNN⟩
  | cons s ss ih =>
    intro accD accN hrel hS hR hC hNN
    obtain ⟨hS', hR', hC', hNN'⟩ := phase3Step_align env tau reset probes accD accN s
      hrel.1 hS hR hC hNN
    refine ih (phase3Step env tau reset probes accD s)
      (phase3Step env tau reset probes accN s) ?_ hS' hR' hC' hNN'
    rw [phase3Step_nodes_eq, phase3Step_nodes_eq]
    exact hrel.snoc rfl rfl (List.Subset.refl _)

/-- The cross-mode state relation between a `DataOnly` run and a `Normal`
run. -/
def StRel (stD stN : BuilderState) : Prop :=
  ModeRel stD.nodes stN.nodes ∧ stD.depState = stN.depState ∧
    stD.snapshots = stN.snapshots ∧ stD.delayedBuffer = stN.delayedBuffer ∧
    stD.predValues = stN.predValues

theorem processCycle_stRel (env : StaticEnv) (crit : Criterion) (inp : CycleInput)
    (tau : Int) (stD stN stD' stN' : BuilderState) (hdisj : DataIndexDisjoint env)
    (hrel : StRel stD stN)
    (hokD : processCycle env .dataOnly crit inp tau stD = .ok stD')
    (hokN : processCycle env .normal crit inp tau stN = .ok stN') :
    StRel stD' stN' := by
  obtain ⟨hnodes, hS, hsnap, hbuf, hpv⟩ := hrel
  have hfront : cycleFront env inp tau stD = cycleFront env inp tau stN := by
    unfold cycleFront
    rw [hbuf, hpv]
  obtain ⟨hp3rel, hp3S, hp3R, hp3C, hp3NN⟩ := phase3_modeRel env tau inp.reset inp.probes
    (cycleFront env inp tau stN).stmts ⟨stD.nodes, stD.depState, [], [], []⟩
    ⟨stN.nodes, stN.depState, [], [], []⟩ hnodes hS rfl rfl rfl
  unfold processCycle at hokD hokN
  dsimp only at hokD hokN
  rw [hfront, hp3S, hp3C, hp3NN, hsnap] at hokD
  rcases h4D : phase4 env .dataOnly tau
      (phase3 env tau inp.reset inp.probes (cycleFront env inp tau stN).stmts
        ⟨stN.nodes, stN.depState, [], [], []⟩).depState inp.probes
      (phase3 env tau inp.reset inp.probes (cycleFront env inp tau stN).stmts
        ⟨stN.nodes, stN.depState, [], [], []⟩).cfProviders stN.snapshots
      (phase3 env tau inp.reset inp.probes (cycleFront env inp tau stN).stmts
        ⟨stN.nodes, stN.depState, [], [], []⟩).newNodes
      (phase3 env tau inp.reset inp.probes (cycleFront env inp tau stN).stmts
        ⟨stD.nodes, stD.depState, [], [], []⟩).nodes with eD | nodes4D
  · rw [h4D] at hokD
    cases hokD
  rcases h4N : phase4 env .normal tau
      (phase3 env tau inp.reset inp.probes (cycleFront env inp tau stN).stmts
        ⟨stN.nodes, stN.depState, [], [], []⟩).depState inp.probes
      (phase3 env tau inp.reset inp.probes (cycleFront env inp tau stN).stmts
        ⟨stN.nodes, stN.depState, [], [], []⟩).cfProviders stN.snapshots
      (phase3 env tau inp.reset inp.probes (cycleFront env inp tau stN).stmts
        ⟨stN.nodes, stN.depState, [], [], []⟩).newNodes
      (phase3 env tau inp.reset inp.probes (cycleFront env inp tau stN).stmts
        ⟨stN.nodes, stN.depState, [], [], []⟩).nodes with eN | nodes4N
  · rw [h4N] at hokN
    cases hokN
  rw [h4D] at hokD
  rw [h4N] at hokN
  simp only [Except.ok.injEq] at hokD hokN
  subst hokD
  subst hokN
  have hrel4 : ModeRel nodes4D nodes4N := phase4_modeRel env tau _ inp.probes _
    stN.snapshots hdisj _ _ _ nodes4D nodes4N hp3rel h4D h4N
  refine ⟨hrel4, ?_, ?_, ?_, ?_⟩ <;> dsimp only
  rw [hp3R]

theorem processRun_stRel (env : StaticEnv) (crit : Criterion)
    (hdisj : DataIndexDisjoint env) :
    ∀ (inputs : List CycleInput) (tau : Int) (stD stN stD' stN' : BuilderState),
      StRel stD stN →
      processRun env .dataOnly crit inputs tau stD = .ok stD' →
      processRun env .normal crit inputs tau stN = .ok stN' →
      StRel stD' stN' := by
  intro inputs
  induction inputs with
  | nil =>
    intro tau stD stN stD' stN' hrel hD hN
    unfold processRun at hD hN
    simp only [Except.ok.injEq] at hD hN
    subst hD; subst hN
    exact hrel
  | cons i is ih =>
    intro tau stD stN stD' stN' hrel hD hN
    unfold processRun at hD hN
    rcases h1D : processCycle env .dataOnly crit i tau stD with e | st1D
    · rw [h1D] at hD; cases hD
    rcases h1N : processCycle env .normal crit i tau stN with e | st1N
    · rw [h1N] at hN; cases hN
    rw [h1D] at hD
    rw [h1N] at hN
    exact ih (tau + 1) st1D st1N stD' stN'
      (processCycle_stRel env crit i tau stD stN st1D st1N hdisj hrel h1D h1N) hD hN

/-- C6 (amended): on a static PDG in which no consumer has a `Data` edge
and an `Index` edge whose providers assign the same symbol, every
dependency edge of the DPDG built in `DataOnly` mode is also a dependency
edge of the DPDG built in `Normal` mode on the same inputs and criterion.
(Without the disjointness condition the claim fails: an `Index` edge
processed first in `Normal` mode marks its provider symbol as served and
suppresses the later same-symbol `Data` edge, which `DataOnly` mode still
materialises.) -/
theorem dataOnly_subset (env : StaticEnv) (crit : Criterion) (inputs : List CycleInput)
    (stD stN : BuilderState) (hdisj : DataIndexDisjoint env)
    (hD : processRun env .dataOnly crit inputs 0 (initBuilderState env) = .ok stD)
    (hN : processRun env .normal crit inputs 0 (initBuilderState env) = .ok stN) :
    ∀ x ∈ depEdges stD.nodes, x ∈ depEdges stN.nodes := by
  have hrel : StRel stD stN := by
    refine processRun_stRel env crit hdisj inputs 0 (initBuilderState env)
      (initBuilderState env) stD stN ⟨⟨rfl, ?_⟩, rfl, rfl, rfl, rfl⟩ hD hN
    intro j dD dN hgD _
    cases hgD
  rintro ⟨x1, p, k⟩ hx
  obtain ⟨i, d, hget, hx1, hmem⟩ := (mem_depEdgesFrom x1 p k stD.nodes 0).1 hx
  rcases hgN : stN.nodes.get? i with _ | dN
  · have h1 := lt_length_of_get?_eq_some hget
    have h2 := List.get?_eq_none.1 hgN
    rw [hrel.1.1] at h1
    omega
  · obtain ⟨_, _, hsub⟩ := hrel.1.2 i d dN hget hgN
    exact (mem_depEdgesFrom x1 p k stN.nodes 0).2 ⟨i, dN, hgN, hx1, hsub hmem⟩

/-- Fixture for the C6 witness: a wire feeding a consumer through a
single `Data` edge. -/
def envC6W : StaticEnv :=
  { vertices := [vWire,
                 { name := "c", kind := .connection, clocked := false,
                   assignsTo := some "c", condition := none, assignDelay := 0 }],
    edges := [{ fromIdx := 1, toIdx := 0, kind := .data, clocked := false,
                condition := none }],
    cfg := [.mk 0 none none none, .mk 1 none none none], predIdxToId := [] }

/-- Witness for `dataOnly_subset`: the wire program satisfies the
disjointness condition, and the one `Data` edge built in `DataOnly` mode
is found in the `Normal`-mode graph. -/
theorem dataOnly_subset_witness :
    DataIndexDisjoint envC6W ∧
      (1, 0, EdgeKind.data) ∈ depEdges
        (((processRun envC6W .normal (.signal "c") [inpNil] 0
            (initBuilderState envC6W)).toOption.getD (initBuilderState envC6W)).nodes) :=
  ⟨by decide, dataOnly_subset envC6W (.signal "c") [inpNil]
    ((processRun envC6W .dataOnly (.signal "c") [inpNil] 0
        (initBuilderState envC6W)).toOption.getD (initBuilderState envC6W))
    ((processRun envC6W .normal (.signal "c") [inpNil] 0
        (initBuilderState envC6W)).toOption.getD (initBuilderState envC6W))
    (by decide) rfl rfl (1, 0, EdgeKind.data) (by decide)⟩

/-- Fixture for the C6 counterexample: the consumer has an `Index` edge
and then a `Data` edge to the same provider symbol. -/
def envIdxData : StaticEnv :=
  { vertices := [{ name := "x", kind := .connection, clocked := false,
                   assignsTo := some "x", condition := none, assignDelay := 0 },
                 { name := "c", kind := .connection, clocked := false,
                   assignsTo := some "c", condition := none, assignDelay := 0 }],
    edges := [{ fromIdx := 1, toIdx := 0, kind := .index, clocked := false,
                condition := none },
              { fromIdx := 1, toIdx := 0, kind := .data, clocked := false,
                condition := none }],
    cfg := [.mk 0 none none none, .mk 1 none none none], predIdxToId := [] }

/-- Counterexample to C6 as stated: with an `Index` edge preceding a
same-symbol `Data` edge, the `DataOnly` run materialises the `Data` edge
`(1, 0, Data)` while the `Normal` run materialises only `(1, 0, Index)`,
so the `DataOnly` edge set is not a subset of the `Normal` one. -/
theorem dataOnly_subset_counterexample :
    (processRun envIdxData .dataOnly (.signal "c") [inpNil] 0
        (initBuilderState envIdxData)).toOption.map (fun st => depEdges st.nodes) =
      some [(1, 0, EdgeKind.data)] ∧
    (processRun envIdxData .normal (.signal "c") [inpNil] 0
        (initBuilderState envIdxData)).toOption.map (fun st => depEdges st.nodes) =
      some [(1, 0, EdgeKind.index)] ∧
    ((1, 0, EdgeKind.data) ∈ [((1 : Nat), (0 : Nat), EdgeKind.index)] → False) :=
  ⟨rfl, rfl, by decide⟩

/-! ### C7 — the exporter `dpdg_make_exportable` (conversion.rs)

The `Rc`-linked dynamic graph is modelled as the arena plus node ids:
pointer identity in `LinkedNodeSet.index_map` is id equality, and the
scanned-vertex list holds the ids in first-scan order (the exported
vertex record copies the node's name and timestamp and adds nothing
else). An `ExportablePDGEdge` is a `(from, to, kind, clocked)` tuple and
the `HashSet` of edges is a list kept free of duplicates by
insert-if-absent. -/

/-- An `ExportablePDGEdge`: `(from, to, kind, clocked)`. -/
abbrev ExpEdge := Nat × Nat × EdgeKind × Bool

/-- `LinkedNodeSet::find_position`: the index of a node in the scanned
list. -/
def findPosition : List Nat → Nat → Option Nat
  | [], _ => none
  | x :: xs, n => if n = x then some 0 else (findPosition xs n).map (· + 1)

/-- `LinkedNodeSet::push` (`or_insert_with`): the existing index, or
append and return the fresh index. -/
def lnsPush (scanned : List Nat) (n : Nat) : List Nat × Nat :=
  match findPosition scanned n with
  | some i => (scanned, i)
  | none => (scanned ++ [n], scanned.length)

/-- `HashSet::insert` on the edge list. -/
def hsInsert (edges : List ExpEdge) (e : ExpEdge) : List ExpEdge :=
  if e ∈ edges then edges else edges ++ [e]

/-- The dependency loop of one popped node: resolve or scan each
dependency, record the edge with the popped node's (`from`-side) clocked
bit, and push newly scanned dependencies onto the DFS stack. -/
def scanDeps (thisIdx : Nat) (clk : Bool) :
    List (Nat × EdgeKind) → List Nat → List ExpEdge → List Nat →
    List Nat × List ExpEdge × List Nat
  | [], scanned, edges, stack => (scanned, edges, stack)
  | pk :: rest, scanned, edges, stack =>
    match findPosition scanned pk.1 with
    | some depIdx =>
      scanDeps thisIdx clk rest scanned
        (hsInsert edges (thisIdx, depIdx, pk.2, clk)) stack
    | none =>
      scanDeps thisIdx clk rest (scanned ++ [pk.1])
        (hsInsert edges (thisIdx, scanned.length, pk.2, clk)) (pk.1 :: stack)

/-- The `while let Some(node) = stack.pop()` loop, with explicit fuel for
termination. -/
def exportLoop (arena : List DynNode) :
    Nat → List Nat → List ExpEdge → List Nat → Option (List Nat × List ExpEdge)
  | 0, _, _, _ => none
  | _ + 1, scanned, edges, [] => some (scanned, edges)
  | fuel + 1, scanned, edges, node :: stack =>
    let p := lnsPush scanned node
    let d := (arena.get? node).getD default
    let r := scanDeps p.2 d.spec.clocked d.deps p.1 edges stack
    exportLoop arena fuel r.1 r.2.1 r.2.2

/-- `dpdg_make_exportable`: run the DFS from the root. -/
def dpdgMakeExportable (arena : List DynNode) (root : Nat) (fuel : Nat) :
    Option (List Nat × List ExpEdge) :=
  exportLoop arena fuel [] [] [root]

theorem findPosition_eq_none {l : List Nat} {n : Nat}
    (h : findPosition l n = none) : n ∉ l := by
  induction l with
  | nil => intro hm; cases hm
  | cons x xs ih =>
    intro hm
    unfold findPosition at h
    by_cases hx : n = x
    · rw [if_pos hx] at h
      cases h
    · rw [if_neg hx] at h
      rcases List.mem_cons.1 hm with h2 | h2
      · exact hx h2
      · rcases hfp : findPosition xs n with _ | i
        · exact ih hfp h2
        · rw [hfp] at h
          cases h

theorem findPosition_get? {l : List Nat} {n i : Nat}
    (h : findPosition l n = some i) : l.get? i = some n := by
  induction l generalizing i with
  | nil => cases h
  | cons x xs ih =>
    unfold findPosition at h
    by_cases hx : n = x
    · rw [if_pos hx] at h
      injection h with h2
      subst h2
      rw [hx]
      rfl
    · rw [if_neg hx] at h
      rcases hfp : findPosition xs n with _ | j
      · rw [hfp] at h
        cases h
      · rw [hfp] at h
        injection h with h2
        subst h2
        exact ih hfp

theorem findPosition_lt {l : List Nat} {n i : Nat}
    (h : findPosition l n = some i) : i < l.length :=
  lt_length_of_get?_eq_some (findPosition_get? h)

theorem mem_hsInsert {edges : List ExpEdge} {e x : ExpEdge} :
    x ∈ hsInsert edges e ↔ x ∈ edges ∨ x = e := by
  unfold hsInsert
  by_cases he : e ∈ edges
  · rw [if_pos he]
    constructor
    · exact Or.inl
    · rintro (h | h)
      · exact h
      · rw [h]; exact he
  · rw [if_neg he]
    constructor
    · intro h
      rcases List.mem_append.1 h with h | h
      · exact Or.inl h
      · exact Or.inr (List.mem_singleton.1 h)
    · rintro (h | h)
      · exact List.mem_append_left _ h
      · rw [h]
        exact List.mem_append_right _ (List.mem_singleton.2 rfl)

theorem hsInsert_nodup {edges : List ExpEdge} {e : ExpEdge}
    (h : edges.Nodup) : (hsInsert edges e).Nodup := by
  unfold hsInsert
  by_cases he : e ∈ edges
  · rw [if_pos he]
    exact h
  · rw [if_neg he]
    simp [List.nodup_append, h, he]

/-- The exporter invariant: no vertex scanned twice, no edge recorded
twice, and every recorded edge has a valid `to` index and carries the
clocked bit of its `from` node. -/
def ExportInv (arena : List DynNode) (scanned : List Nat)
    (edges : List ExpEdge) : Prop :=
  scanned.Nodup ∧ edges.Nodup ∧
  ∀ e ∈ edges, e.2.1 < scanned.length ∧
    ∃ nFrom, scanned.get? e.1 = some nFrom ∧
      e.2.2.2 = ((arena.get? nFrom).getD default).spec.clocked

theorem ExportInv.extend {arena : List DynNode} {scanned : List Nat}
    {edges : List ExpEdge} (h : ExportInv arena scanned edges) (ext : List Nat)
    (hnd : (scanned ++ ext).Nodup) : ExportInv arena (scanned ++ ext) edges := by
  refine ⟨hnd, h.2.1, ?_⟩
  intro e he
  obtain ⟨hto, nFrom, hget, hclk⟩ := h.2.2 e he
  refine ⟨by simp only [List.length_append]; omega, nFrom, ?_, hclk⟩
  rw [List.get?_append (lt_length_of_get?_eq_some hget)]
  exact hget

theorem scanDeps_inv (arena : List DynNode) (thisIdx nodeId : Nat) (clk : Bool)
    (hclk : clk = ((arena.get? nodeId).getD default).spec.clocked) :
    ∀ (deps : List (Nat × EdgeKind)) (scanned : List Nat) (edges : List ExpEdge)
      (stack : List Nat),
      ExportInv arena scanned edges → scanned.get? thisIdx = some nodeId →
      ExportInv arena (scanDeps thisIdx clk deps scanned edges stack).1
          (scanDeps thisIdx clk deps scanned edges stack).2.1 ∧
        ∃ ext, (scanDeps thisIdx clk deps scanned edges stack).1 = scanned ++ ext := by
  intro deps
  induction deps with
  | nil =>
    intro scanned edges stack hinv hthis
    exact ⟨hinv, [], (List.append_nil _).symm⟩
  | cons pk rest ih =>
    intro scanned edges stack hinv hthis
    show ExportInv arena (match findPosition scanned pk.1 with
        | some depIdx => scanDeps thisIdx clk rest scanned
            (hsInsert edges (thisIdx, depIdx, pk.2, clk)) stack
        | none => scanDeps thisIdx clk rest (scanned ++ [pk.1])
            (hsInsert edges (thisIdx, scanned.length, pk.2, clk)) (pk.1 :: stack)).1
        (match findPosition scanned pk.1 with
        | some depIdx => scanDeps thisIdx clk rest scanned
            (hsInsert edges (thisIdx, depIdx, pk.2, clk)) stack
        | none => scanDeps thisIdx clk rest (scanned ++ [pk.1])
            (hsInsert edges (thisIdx, scanned.length, pk.2, clk)) (pk.1 :: stack)).2.1 ∧
      ∃ ext, (match findPosition scanned pk.1 with
        | some depIdx => scanDeps thisIdx clk rest scanned
            (hsInsert edges (thisIdx, depIdx, pk.2, clk)) stack
        | none => scanDeps thisIdx clk rest (scanned ++ [pk.1])
            (hsInsert edges (thisIdx, scanned.length, pk.2, clk)) (pk.1 :: stack)).1 =
        scanned ++ ext
    rcases hfp : findPosition scanned pk.1 with _ | depIdx
    · have hfresh : pk.1 ∉ scanned := findPosition_eq_none hfp
      have hnd : (scanned ++ [pk.1]).Nodup := by
        simp [List.nodup_append, hinv.1, hfresh]
      have hinv' : ExportInv arena (scanned ++ [pk.1])
          (hsInsert edges (thisIdx, scanned.length, pk.2, clk)) := by
        obtain ⟨_, hednd, hed⟩ := hinv.extend [pk.1] hnd
        refine ⟨hnd, hsInsert_nodup hednd, ?_⟩
        intro e he
        rcases mem_hsInsert.1 he with he2 | he2
        · exact hed e he2
        · subst he2
          refine ⟨by simp, nodeId, ?_, hclk⟩
          rw [List.get?_append (lt_length_of_get?_eq_some hthis)]
          exact hthis
      obtain ⟨hinv2, ext, hext⟩ := ih (scanned ++ [pk.1])
        (hsInsert edges (thisIdx, scanned.length, pk.2, clk)) (pk.1 :: stack) hinv'
        (by rw [List.get?_append (lt_length_of_get?_eq_some hthis)]; exact hthis)
      exact ⟨hinv2, [pk.1] ++ ext, by rw [hext, List.append_assoc]⟩
    · have hinv' : ExportInv arena scanned
          (hsInsert edges (thisIdx, depIdx, pk.2, clk)) := by
        refine ⟨hinv.1, hsInsert_nodup hinv.2.1, ?_⟩
        intro e he
        rcases mem_hsInsert.1 he with he2 | he2
        · exact hinv.2.2 e he2
        · subst he2
          exact ⟨findPosition_lt hfp, nodeId, hthis, hclk⟩
      exact ih scanned (hsInsert edges (thisIdx, depIdx, pk.2, clk)) stack hinv' hthis

theorem exportLoop_inv (arena : List DynNode) :
    ∀ (fuel : Nat) (scanned : List Nat) (edges : List ExpEdge) (stack : List Nat)
      (res : List Nat × List ExpEdge),
      exportLoop arena fuel scanned edges stack = some res →
      ExportInv arena scanned edges →
      ExportInv arena res.1 res.2 := by
  intro fuel
  induction fuel with
  | zero =>
    intro scanned edges stack res h hinv
    cases h
  | succ fuel ih =>
    intro scanned edges stack res h hinv
    cases stack with
    | nil =>
      unfold exportLoop at h
      simp only [Option.some.injEq] at h
      subst h
      exact hinv
    | cons node stack' =>
      unfold exportLoop at h
      dsimp only at h
      have hp : (lnsPush scanned node).1.get? (lnsPush scanned node).2 = some node := by
        unfold lnsPush
        rcases hfp : findPosition scanned node with _ | i
        · dsimp only
          exact get?_snoc_self scanned node
        · exact findPosition_get? hfp
      have hpinv : ExportInv arena (lnsPush scanned node).1 edges := by
        unfold lnsPush
        rcases hfp : findPosition scanned node with _ | i
        · dsimp only
          exact hinv.extend [node] (by simp [List.nodup_append, hinv.1,
            findPosition_eq_none hfp])
        · exact hinv
      obtain ⟨hinv2, _⟩ := scanDeps_inv arena (lnsPush scanned node).2 node
        ((arena.get? node).getD default).spec.clocked rfl
        ((arena.get? node).getD default).deps (lnsPush scanned node).1 edges stack'
        hpinv hp
      exact ih _ _ _ res h hinv2

/-- C7 (amended): every successful run of the exporter's DFS yields a
scanned vertex list in which each dynamic node appears exactly once
regardless of in-degree, an edge list de-duplicated as a set on
`(from, to, kind, clocked)` with in-range endpoints, and on every
exported edge the `clocked` flag equals the clocked bit of the CONSUMER
node (the `from` endpoint, the node whose dependency list produced the
edge) — not the producer (`to`) endpoint as claimed. -/
theorem make_exportable_spec (arena : List DynNode) (root : Nat) (fuel : Nat)
    (scanned : List Nat) (edges : List ExpEdge)
    (hok : dpdgMakeExportable arena root fuel = some (scanned, edges)) :
    scanned.Nodup ∧ edges.Nodup ∧
      ∀ e ∈ edges, e.2.1 < scanned.length ∧
        ∃ nFrom, scanned.get? e.1 = some nFrom ∧
          e.2.2.2 = ((arena.get? nFrom).getD default).spec.clocked := by
  have h := exportLoop_inv arena fuel [] [] [root] (scanned, edges) hok
    ⟨List.nodup_nil, List.nodup_nil, fun e he => absurd he (List.not_mem_nil e)⟩
  exact h

/-- Fixture for C7: a non-clocked consumer whose single dependency is a
clocked producer. -/
def arenaC7 : List DynNode :=
  [⟨{ name := "cons", kind := .connection, clocked := false, assignsTo := some "c",
      condition := none, assignDelay := 0 }, 0, [(1, .data)]⟩,
   ⟨{ name := "prod", kind := .connection, clocked := true, assignsTo := some "p",
      condition := none, assignDelay := 0 }, 0, []⟩]

/-- Witness for `make_exportable_spec` on the two-node fixture. -/
theorem make_exportable_spec_witness :
    dpdgMakeExportable arenaC7 0 3 = some ([0, 1], [(0, 1, EdgeKind.data, false)]) ∧
      ([0, 1] : List Nat).Nodup ∧
      ∀ e ∈ [((0 : Nat), (1 : Nat), EdgeKind.data, false)], e.2.1 < 2 ∧
        ∃ nFrom, ([0, 1] : List Nat).get? e.1 = some nFrom ∧
          e.2.2.2 = ((arenaC7.get? nFrom).getD default).spec.clocked :=
  ⟨rfl, (make_exportable_spec arenaC7 0 3 [0, 1] [(0, 1, EdgeKind.data, false)] rfl).1,
    (make_exportable_spec arenaC7 0 3 [0, 1] [(0, 1, EdgeKind.data, false)] rfl).2.2⟩

/-- Counterexample to C7 as stated: on the two-node fixture, the single
exported edge carries `clocked = false` — the consumer's (`from`) bit —
while the producer node at the `to` endpoint is clocked. -/
theorem make_exportable_clocked_counterexample :
    dpdgMakeExportable arenaC7 0 3 = some ([0, 1], [(0, 1, EdgeKind.data, false)]) ∧
      ((arenaC7.get? 1).getD default).spec.clocked = true ∧
      (false = true → False) :=
  ⟨rfl, rfl, by decide⟩

/-! ### C10 — `VcdReader::read_cycle_changes` and probe diversion

The VCD parser stream is a list of commands; `IdCode` is a `Nat`.  The
reader's static data (the clock and reset ids and the `probe_` map built
by `find_probes`) is `VcdEnv`; the mutable reader fields are
`ReaderState`. -/

/-- A parsed VCD command (`vcd::Command`), restricted to the shapes
`read_cycle_changes` inspects; every other command falls into `other`. -/
inductive VCmd where
  | timestamp (t : Nat)
  | changeScalar (i : Nat) (v : VcdValue)
  | changeVector (i : Nat) (v : List VcdValue)
  | other
deriving DecidableEq, Repr

/-- `bitvector_to_unsigned`: little-endian accumulation over the reversed
bits with `u64` wrapping. -/
def bitvectorToUnsigned (v : List VcdValue) : Nat :=
  (v.reverse.foldl
    (fun (acc : Nat × Nat) b =>
      ((acc.1 + if b = .v1 then acc.2 else 0) % 2 ^ 64, acc.2 * 2 % 2 ^ 64))
    (0, 1)).1

/-- The reader's static configuration. -/
structure VcdEnv where
  clock : Nat
  reset : Nat
  probes : List (Nat × List String)

/-- The reader's mutable fields. -/
structure ReaderState where
  clockVal : VcdValue
  resetVal : VcdValue
  currentTime : Int
  changesBuffer : List ValueChange
  probeValues : ProbeTab
  probeChangeBuffer : List (String × Nat)

/-- The `for command in self.parser.by_ref()` loop of
`read_cycle_changes`: returns the unconsumed stream, the reader state,
the accumulated changes and the `eof_reached` flag. -/
def readLoop (env : VcdEnv) :
    List VCmd → ReaderState → Bool → List ValueChange →
    List VCmd × ReaderState × List ValueChange × Bool
  | [], st, _, changes => ([], st, changes, true)
  | c :: rest, st, rising, changes =>
    match c with
    | .timestamp _ =>
      if rising then
        (rest, { st with currentTime := st.currentTime + 1 }, changes, false)
      else
        readLoop env rest
          { st with changesBuffer := [],
                    probeValues := st.probeChangeBuffer.foldl
                      (fun pv ch => aInsert pv ch.1 ch.2) st.probeValues,
                    probeChangeBuffer := [] }
          rising (changes ++ st.changesBuffer)
    | .changeScalar i v =>
      if i = env.clock then
        readLoop env rest { st with clockVal := v }
          (rising || (st.clockVal == .v0 && v == .v1)) changes
      else if i = env.reset then
        readLoop env rest { st with resetVal := v } rising changes
      else
        match aLookup env.probes i with
        | some ps =>
          readLoop env rest
            { st with probeChangeBuffer := st.probeChangeBuffer ++
                ps.map (fun p => (p, if v = .v1 then 1 else 0)) }
            rising changes
        | none =>
          readLoop env rest
            { st with changesBuffer := st.changesBuffer ++ [⟨i, v⟩] }
            rising changes
    | .changeVector i v =>
      match aLookup env.probes i with
      | some ps =>
        readLoop env rest
          { st with probeChangeBuffer := st.probeChangeBuffer ++
              ps.map (fun p => (p, bitvectorToUnsigned v)) }
          rising changes
      | none => readLoop env rest st rising changes
    | .other => readLoop env rest st rising changes

/-- `read_cycle_changes`: run the loop, then advance `current_time` when
no rising-edge timestamp advanced it. -/
def readCycleChanges (env : VcdEnv) (cmds : List VCmd) (st : ReaderState) :
    List VCmd × ReaderState × List ValueChange × Bool :=
  let r := readLoop env cmds st false []
  (r.1,
   if st.currentTime = r.2.1.currentTime then
     { r.2.1 with currentTime := r.2.1.currentTime + 1 }
   else r.2.1,
   r.2.2)

/-- The reader invariant: nothing in the pending change buffer carries a
probe-registered id. -/
def BufClean (env : VcdEnv) (st : ReaderState) : Prop :=
  ∀ ch ∈ st.changesBuffer, aLookup env.probes ch.id = none

theorem readLoop_clean (env : VcdEnv) :
    ∀ (cmds : List VCmd) (st : ReaderState) (rising : Bool)
      (changes : List ValueChange),
      BufClean env st → (∀ ch ∈ changes, aLookup env.probes ch.id = none) →
      BufClean env (readLoop env cmds st rising changes).2.1 ∧
        ∀ ch ∈ (readLoop env cmds st rising changes).2.2.1,
          aLookup env.probes ch.id = none := by
  intro cmds
  induction cmds with
  | nil =>
    intro st rising changes hbuf hch
    exact ⟨hbuf, hch⟩
  | cons c rest ih =>
    intro st rising changes hbuf hch
    cases c with
    | timestamp t =>
      simp only [readLoop]
      by_cases hr : rising = true
      · rw [if_pos hr]
        exact ⟨hbuf, hch⟩
      · rw [if_neg hr]
        refine ih _ _ _ ?_ ?_
        · intro ch h
          exact absurd h (List.not_mem_nil ch)
        · intro ch h
          rcases List.mem_append.1 h with h2 | h2
          · exact hch ch h2
          · exact hbuf ch h2
    | changeScalar i v =>
      simp only [readLoop]
      by_cases hclk : i = env.clock
      · rw [if_pos hclk]
        exact ih _ _ _ hbuf hch
      · rw [if_neg hclk]
        by_cases hrst : i = env.reset
        · rw [if_pos hrst]
          exact ih _ _ _ hbuf hch
        · rw [if_neg hrst]
          rcases hp : aLookup env.probes i with _ | ps
          · refine ih _ _ _ ?_ hch
            intro ch h
            rcases List.mem_append.1 h with h2 | h2
            · exact hbuf ch h2
            · rw [List.mem_singleton.1 h2]
              exact hp
          · exact ih _ _ _ hbuf hch
    | changeVector i v =>
      simp only [readLoop]
      rcases hp : aLookup env.probes i with _ | ps
      · exact ih _ _ _ hbuf hch
      · exact ih _ _ _ hbuf hch
    | other =>
      simp only [readLoop]
      exact ih _ _ _ hbuf hch

/-- One call never returns a probe-registered change, and preserves the
buffer invariant. -/
theorem readCycleChanges_clean (env : VcdEnv) (cmds : List VCmd) (st : ReaderState)
    (hbuf : BufClean env st) :
    (∀ ch ∈ (readCycleChanges env cmds st).2.2.1, aLookup env.probes ch.id = none) ∧
      BufClean env (readCycleChanges env cmds st).2.1 := by
  obtain ⟨h1, h2⟩ := readLoop_clean env cmds st false []
    hbuf (fun ch h => absurd h (List.not_mem_nil ch))
  refine ⟨h2, ?_⟩
  unfold readCycleChanges
  dsimp only
  split
  · exact h1
  · exact h1

/-- `updatePredValues` leaves untouched every entry whose id occurs in no
change of the cycle. -/
theorem updatePredValues_untouched (id : Nat) :
    ∀ (changes : List ValueChange) (pv : List (Nat × Bool)),
      (∀ ch ∈ changes, ch.id ≠ id) →
      aLookup (updatePredValues pv changes) id = aLookup pv id := by
  intro changes
  induction changes with
  | nil => intro pv _; rfl
  | cons c cs ih =>
    intro pv hne
    show aLookup (updatePredValues
      (pv.map (fun p => if p.1 = c.id then (p.1, c.value == VcdValue.v1) else p)) cs)
        id = aLookup pv id
    rw [ih _ (fun ch h => hne ch (List.mem_cons_of_mem _ h))]
    have hcid : c.id ≠ id := hne c (List.mem_cons_self c cs)
    induction pv with
    | nil => rfl
    | cons p ps ihp =>
      show aLookup ((if p.1 = c.id then (p.1, c.value == VcdValue.v1) else p) ::
        ps.map _) id = aLookup (p :: ps) id
      by_cases hp : p.1 = c.id
      · rw [if_pos hp]
        show (if id = p.1 then some (c.value == VcdValue.v1) else _) = _
        rw [if_neg (by rw [hp]; exact fun h => hcid h.symm),
          aLookup_cons, if_neg (by rw [hp]; exact fun h => hcid h.symm)]
        exact ihp
      · rw [if_neg hp]
        show (if id = p.1 then some p.2 else _) = _
        rw [aLookup_cons]
        by_cases hip : id = p.1
        · rw [if_pos hip, if_pos hip]
        · rw [if_neg hip, if_neg hip]
          exact ihp

/-- The iterated read-and-update loop of the builder, restricted to the
reader and the predicate map. -/
def readerRun (env : VcdEnv) :
    Nat → List VCmd → ReaderState → List (Nat × Bool) → List (Nat × Bool)
  | 0, _, _, pv => pv
  | n + 1, cmds, st, pv =>
    let r := readCycleChanges env cmds st
    readerRun env n r.1 r.2.1 (updatePredValues pv r.2.2.1)

/-- C10: a cycle's returned change set never contains a change whose id
is registered in the probe map (those changes are diverted to the probe
change buffer), and consequently the predicate-value entry of any
probe-registered id is never updated: it stays `false` through any number
of read-and-update cycles. -/
theorem probe_changes_diverted (env : VcdEnv) :
    ∀ (n : Nat) (cmds : List VCmd) (st : ReaderState) (pv : List (Nat × Bool))
      (id : Nat),
      BufClean env st →
      (∀ ch ∈ (readCycleChanges env cmds st).2.2.1, aLookup env.probes ch.id = none) ∧
      ((aLookup env.probes id).isSome = true → aLookup pv id = some false →
        aLookup (readerRun env n cmds st pv) id = some false) := by
  intro n
  induction n with
  | zero =>
    intro cmds st pv id hbuf
    exact ⟨(readCycleChanges_clean env cmds st hbuf).1, fun _ h => h⟩
  | succ n ih =>
    intro cmds st pv id hbuf
    obtain ⟨hclean, hbuf'⟩ := readCycleChanges_clean env cmds st hbuf
    refine ⟨hclean, ?_⟩
    intro hid hpv
    show aLookup (readerRun env n (readCycleChanges env cmds st).1
      (readCycleChanges env cmds st).2.1
      (updatePredValues pv (readCycleChanges env cmds st).2.2.1)) id = some false
    refine (ih (readCycleChanges env cmds st).1 (readCycleChanges env cmds st).2.1
      (updatePredValues pv (readCycleChanges env cmds st).2.2.1) id hbuf').2 hid ?_
    rw [updatePredValues_untouched id _ _ ?_]
    · exact hpv
    · intro ch hch heq
      have h2 := hclean ch hch
      rw [heq] at h2
      rw [h2] at hid
      simp at hid

/-- Witness for `probe_changes_diverted`: a probe-registered scalar change
is diverted while a plain change is returned, and the probe-registered
predicate entry survives one cycle at `false`. -/
theorem probe_changes_diverted_witness :
    BufClean ⟨0, 1, [(7, ["probe_a"])]⟩
        ⟨.vx, .vx, 0, [], [], []⟩ ∧
      (∀ ch ∈ (readCycleChanges ⟨0, 1, [(7, ["probe_a"])]⟩
          [.changeScalar 7 .v1, .changeScalar 9 .v1, .timestamp 5,
           .changeScalar 0 .v1, .timestamp 6]
          ⟨.vx, .vx, 0, [], [], []⟩).2.2.1,
        aLookup ([(7, ["probe_a"])] : List (Nat × List String)) ch.id = none) ∧
      ((aLookup ([(7, ["probe_a"])] : List (Nat × List String)) 7).isSome = true →
        aLookup ([(7, false)] : List (Nat × Bool)) 7 = some false →
        aLookup (readerRun ⟨0, 1, [(7, ["probe_a"])]⟩ 1
          [.changeScalar 7 .v1, .changeScalar 9 .v1, .timestamp 5,
           .changeScalar 0 .v1, .timestamp 6]
          ⟨.vx, .vx, 0, [], [], []⟩ [(7, false)]) 7 = some false) :=
  ⟨fun ch h => absurd h (List.not_mem_nil ch),
    probe_changes_diverted ⟨0, 1, [(7, ["probe_a"])]⟩ 1
      [.changeScalar 7 .v1, .changeScalar 9 .v1, .timestamp 5,
       .changeScalar 0 .v1, .timestamp 6]
      ⟨.vx, .vx, 0, [], [], []⟩ [(7, false)] 7
      (fun ch h => absurd h (List.not_mem_nil ch))⟩

end ChiselTrace
